import Mathlib

/-!
# The topology of `state/topology.go`

A shallow embedding of the in-memory topology (machines, services, units and
relations) together with the operations that read and change it.

Conventions of the embedding:

* A Go map is a `GoMap`: `none` is the nil map, `some cells` an allocated map
  whose `entries` list every key once.  The order of `entries` is the order in
  which a `range` loop visits the map.  Go leaves that order unspecified; the
  theorems quantify over every map value and hence over every order.
* A Go pointer to a struct is an `Option`: `none` is the nil pointer.  The
  pointers stored in the maps are owned by the map (each is created by the
  operation that stores it), so a write through a pointer is a write of the
  cell that holds it.
* A method that changes the topology takes the topology before the call and
  returns the topology after the call together with what the call returned.
* `Result` is what a call can do: return a value (`ok`), return an error, or
  panic (write to a nil map, nil pointer dereference, explicit `panic`).
-/

namespace state

/-! ## Go maps -/

/-- Value stored under `k` in a list of cells, first hit. -/
def lookupKey {K V : Type} [DecidableEq K] (k : K) : List (K × V) → Option V
  | [] => none
  | (k', v) :: rest => if k' = k then some v else lookupKey k rest

/-- Store `v` under `k`: overwrite the cell of `k` in place, or add a new cell. -/
def putKey {K V : Type} [DecidableEq K] (k : K) (v : V) : List (K × V) → List (K × V)
  | [] => [(k, v)]
  | (k', v') :: rest => if k' = k then (k, v) :: rest else (k', v') :: putKey k v rest

/-- Drop the cell of `k`. -/
def eraseKey {K V : Type} [DecidableEq K] (k : K) : List (K × V) → List (K × V)
  | [] => []
  | (k', v) :: rest => if k' = k then eraseKey k rest else (k', v) :: eraseKey k rest

theorem lookupKey_isSome {K V : Type} [DecidableEq K] (k : K) (l : List (K × V)) :
    (lookupKey k l).isSome ↔ k ∈ l.map Prod.fst := by
  induction l with
  | nil => simp [lookupKey]
  | cons e rest ih =>
    obtain ⟨k', v⟩ := e
    by_cases h : k' = k
    · simp [lookupKey, h]
    · simp only [lookupKey, h, if_false, ih, List.map_cons, List.mem_cons]
      constructor
      · intro hm; exact Or.inr hm
      · rintro (hk | hm)
        · exact absurd hk.symm h
        · exact hm

theorem lookupKey_eq_none {K V : Type} [DecidableEq K] (k : K) (l : List (K × V)) :
    lookupKey k l = none ↔ k ∉ l.map Prod.fst := by
  rw [← lookupKey_isSome k l]
  cases lookupKey k l <;> simp

theorem lookupKey_mem {K V : Type} [DecidableEq K] {k : K} {v : V} {l : List (K × V)}
    (h : lookupKey k l = some v) : (k, v) ∈ l := by
  induction l with
  | nil => simp [lookupKey] at h
  | cons e rest ih =>
    obtain ⟨k', v'⟩ := e
    by_cases hk : k' = k
    · simp [lookupKey, hk] at h
      simp [hk, h]
    · simp only [lookupKey, hk, if_false] at h
      exact List.mem_cons_of_mem _ (ih h)

theorem lookupKey_of_mem {K V : Type} [DecidableEq K] {k : K} {v : V} {l : List (K × V)}
    (hnd : (l.map Prod.fst).Nodup) (h : (k, v) ∈ l) : lookupKey k l = some v := by
  induction l with
  | nil => simp at h
  | cons e rest ih =>
    obtain ⟨k', v'⟩ := e
    simp only [List.map_cons, List.nodup_cons] at hnd
    rcases List.mem_cons.1 h with heq | hm
    · cases heq
      simp [lookupKey]
    · have hne : k' ≠ k := by
        intro hk
        apply hnd.1
        rw [hk]
        exact List.mem_map_of_mem Prod.fst hm
      simp only [lookupKey, hne, if_false]
      exact ih hnd.2 hm

theorem map_fst_putKey {K V : Type} [DecidableEq K] (k : K) (v : V) (l : List (K × V)) :
    (putKey k v l).map Prod.fst
      = if k ∈ l.map Prod.fst then l.map Prod.fst else l.map Prod.fst ++ [k] := by
  induction l with
  | nil => simp [putKey]
  | cons e rest ih =>
    obtain ⟨k', v'⟩ := e
    by_cases h : k' = k
    · simp [putKey, h]
    · have h' : ¬ k = k' := fun hk => h hk.symm
      simp only [putKey, h, if_false, List.map_cons, ih, List.mem_cons, h', false_or]
      split <;> simp

theorem nodup_putKey {K V : Type} [DecidableEq K] (k : K) (v : V) (l : List (K × V))
    (hnd : (l.map Prod.fst).Nodup) : ((putKey k v l).map Prod.fst).Nodup := by
  rw [map_fst_putKey]
  split
  · exact hnd
  · rename_i hk
    rw [List.nodup_append]
    refine ⟨hnd, List.nodup_singleton k, ?_⟩
    intro a ha hb
    simp only [List.mem_singleton] at hb
    subst hb
    exact hk ha

theorem lookupKey_putKey {K V : Type} [DecidableEq K] (k k' : K) (v : V) (l : List (K × V)) :
    lookupKey k' (putKey k v l) = if k = k' then some v else lookupKey k' l := by
  induction l with
  | nil => simp [putKey, lookupKey]
  | cons e rest ih =>
    obtain ⟨k₀, v₀⟩ := e
    by_cases h : k₀ = k
    · subst h
      by_cases h' : k₀ = k' <;> simp [putKey, lookupKey, h']
    · by_cases h' : k₀ = k'
      · subst h'
        have : ¬ k = k₀ := fun hk => h hk.symm
        simp [putKey, lookupKey, h, this]
      · simp [putKey, lookupKey, h, h', ih]

theorem eraseKey_sublist {K V : Type} [DecidableEq K] (k : K) (l : List (K × V)) :
    (eraseKey k l).Sublist l := by
  induction l with
  | nil => simp [eraseKey]
  | cons e rest ih =>
    obtain ⟨k', v'⟩ := e
    by_cases h : k' = k
    · simp only [eraseKey, h, if_true]
      exact ih.trans (List.sublist_cons_self _ _)
    · simp only [eraseKey, h, if_false]
      exact ih.cons₂ _

theorem mem_eraseKey {K V : Type} [DecidableEq K] (k : K) (l : List (K × V)) (e : K × V) :
    e ∈ eraseKey k l ↔ e.1 ≠ k ∧ e ∈ l := by
  induction l with
  | nil => simp [eraseKey]
  | cons e' rest ih =>
    obtain ⟨k', v'⟩ := e'
    by_cases h : k' = k
    · simp only [eraseKey, h, if_true, ih, List.mem_cons]
      constructor
      · rintro ⟨h1, h2⟩; exact ⟨h1, Or.inr h2⟩
      · rintro ⟨h1, h2 | h2⟩
        · exact absurd (by rw [h2]) h1
        · exact ⟨h1, h2⟩
    · simp only [eraseKey, h, if_false, List.mem_cons, ih]
      constructor
      · rintro (h1 | ⟨h1, h2⟩)
        · subst h1; exact ⟨h, Or.inl rfl⟩
        · exact ⟨h1, Or.inr h2⟩
      · rintro ⟨h1, h2 | h2⟩
        · exact Or.inl h2
        · exact Or.inr ⟨h1, h2⟩

theorem nodup_eraseKey {K V : Type} [DecidableEq K] (k : K) (l : List (K × V))
    (hnd : (l.map Prod.fst).Nodup) : ((eraseKey k l).map Prod.fst).Nodup :=
  hnd.sublist ((eraseKey_sublist k l).map Prod.fst)

theorem mem_map_fst_eraseKey {K V : Type} [DecidableEq K] (k a : K) (l : List (K × V)) :
    a ∈ (eraseKey k l).map Prod.fst ↔ a ≠ k ∧ a ∈ l.map Prod.fst := by
  simp only [List.mem_map, mem_eraseKey]
  constructor
  · rintro ⟨e, ⟨h1, h2⟩, rfl⟩
    exact ⟨h1, e, h2, rfl⟩
  · rintro ⟨h1, e, h2, rfl⟩
    exact ⟨e, ⟨h1, h2⟩, rfl⟩

theorem lookupKey_eraseKey {K V : Type} [DecidableEq K] (k k' : K) (l : List (K × V)) :
    lookupKey k' (eraseKey k l) = if k = k' then none else lookupKey k' l := by
  induction l with
  | nil => simp [eraseKey, lookupKey]
  | cons e rest ih =>
    obtain ⟨k₀, v₀⟩ := e
    by_cases h : k₀ = k
    · subst h
      by_cases h' : k₀ = k'
      · subst h'
        simpa [eraseKey] using ih
      · simp [eraseKey, lookupKey, h', ih]
    · by_cases h' : k₀ = k'
      · subst h'
        have : ¬ k = k₀ := fun hk => h hk.symm
        simp [eraseKey, lookupKey, h, this]
      · simp [eraseKey, lookupKey, h, h', ih]

theorem eraseKey_of_not_mem {K V : Type} [DecidableEq K] (k : K) (l : List (K × V))
    (h : k ∉ l.map Prod.fst) : eraseKey k l = l := by
  induction l with
  | nil => simp [eraseKey]
  | cons e rest ih =>
    obtain ⟨k', v'⟩ := e
    simp only [List.map_cons, List.mem_cons, not_or] at h
    have h1 : ¬ k' = k := fun hk => h.1 hk.symm
    simp [eraseKey, h1, ih h.2]

/-- The cells of an allocated Go map: every key occurs once. -/
structure MapCells (K V : Type) where
  entries : List (K × V)
  nodup : (entries.map Prod.fst).Nodup
deriving DecidableEq

/-- A Go map value; `none` is the nil map. -/
abbrev GoMap (K V : Type) := Option (MapCells K V)

namespace MapCells

/-- The map made by `make(map[K]V)`. -/
def empty {K V : Type} : MapCells K V := ⟨[], List.nodup_nil⟩

/-- The assignment `m[k] = v` on an allocated map. -/
def put {K V : Type} [DecidableEq K] (m : MapCells K V) (k : K) (v : V) : MapCells K V :=
  ⟨putKey k v m.entries, nodup_putKey k v m.entries m.nodup⟩

/-- The statement `delete(m, k)` on an allocated map. -/
def erase {K V : Type} [DecidableEq K] (m : MapCells K V) (k : K) : MapCells K V :=
  ⟨eraseKey k m.entries, nodup_eraseKey k m.entries m.nodup⟩

end MapCells

namespace GoMap

/-- The cells a `range` loop visits, in order; a nil map has none. -/
def range {K V : Type} (m : GoMap K V) : List (K × V) :=
  match m with
  | none => []
  | some cells => cells.entries

/-- The two-value index expression `v, ok := m[k]`; `none` is `ok == false`. -/
def get? {K V : Type} [DecidableEq K] (m : GoMap K V) (k : K) : Option V :=
  lookupKey k m.range

/-- The builtin `len(m)`. -/
def len {K V : Type} (m : GoMap K V) : Nat := m.range.length

/-- The keys of the map in `range` order. -/
def keys {K V : Type} (m : GoMap K V) : List K := m.range.map Prod.fst

/-- The statement `delete(m, k)`; a no-op on the nil map. -/
def delete {K V : Type} [DecidableEq K] (m : GoMap K V) (k : K) : GoMap K V :=
  match m with
  | none => none
  | some cells => some (cells.erase k)

/-- The statement `if m == nil { m = make(map[K]V) }`: the cells of `m` after it. -/
def allocate {K V : Type} (m : GoMap K V) : MapCells K V :=
  match m with
  | none => MapCells.empty
  | some cells => cells

/-- A write of the cell stored under `k`, the effect of assigning through the pointer held
there; `k` is a key of `m` wherever this is used. -/
def poke {K V : Type} [DecidableEq K] (m : GoMap K V) (k : K) (v : V) : GoMap K V :=
  match m with
  | none => none
  | some cells => some (cells.put k v)

end GoMap

/-- A Go slice value; `none` is the nil slice, `some l` a slice with the elements `l`. -/
abbrev GoSlice (α : Type) := Option (List α)

/-! ## Errors and results -/

/-- Modelled from the spec: the role of a service in a relation, a string type whose declaration
is outside this file; the spec gives its values as `provider`, `requirer` and `peer`. -/
abbrev RelationRole := String

/-- Role constant `RoleProvider`. -/
def RoleProvider : RelationRole := "provider"
/-- Role constant `RoleRequirer`. -/
def RoleRequirer : RelationRole := "requirer"
/-- Role constant `RolePeer`. -/
def RolePeer : RelationRole := "peer"

/-- Modelled from the spec: the scope of a relation, a string type whose declaration is
outside this file (`global` or `container`); no operation reads it. -/
abbrev RelationScope := String

/-- Modelled from the spec: an endpoint descriptor (role, interface, relation name); its
declaration is outside this file and these are the fields `RelationKey` reads. -/
structure RelationEndpoint where
  Interface : String
  RelationName : String
  RelationRole : RelationRole
deriving DecidableEq

/-- Modelled from the spec: the composite key of a unit, the key of its service and its own
key within that service; its declaration is outside this file and these are the fields the
operations read. -/
structure unitKey where
  service : String
  unit : String
deriving DecidableEq

/-- An error value.  `errorf format args` is `fmt.Errorf(format, args...)` with the arguments
in the order of the call; `unitNotAssigned` is the package variable of that name;
`NoRelationError` is a `*NoRelationError` with its `Endpoints`. -/
inductive GoError where
  | errorf (format : String) (args : List String)
  | unitNotAssigned
  | NoRelationError (Endpoints : List RelationEndpoint)
deriving DecidableEq

/-- What a call does: return `a`, return the error `e`, or panic. -/
inductive Result (α : Type) where
  | ok (a : α)
  | error (e : GoError)
  | panic
deriving DecidableEq

/-- The call returned an error value (it neither succeeded nor panicked). -/
def Result.isError {α : Type} : Result α → Bool
  | .error _ => true
  | _ => false

/-! ## The data of the topology node -/

/-- Machine data within the topology node (no fields). -/
structure topoMachine where
deriving DecidableEq

/-- Unit data within the topology node. -/
structure topoUnit where
  Machine : String
deriving DecidableEq

/-- Service data within the topology node. -/
structure topoService where
  Name : String
  Units : GoMap String (Option topoUnit)
deriving DecidableEq

/-- One service of a relation within the topology node. -/
structure topoRelationService where
  Service : String
  RelationName : String
deriving DecidableEq

/-- Relation data within the topology node. -/
structure topoRelation where
  Interface : String
  Scope : RelationScope
  Services : GoMap RelationRole (Option topoRelationService)
deriving DecidableEq

/-- Content of the topology node. -/
structure topoTopology where
  Version : Int
  Machines : GoMap String (Option topoMachine)
  Services : GoMap String (Option topoService)
  Relations : GoMap String (Option topoRelation)
deriving DecidableEq

/-- The protocol version. -/
def topologyVersion : Int := 1

/-- The helper that handles the topology node: it holds one pointer, never nil, to the
content, so it is identified with the content. -/
abbrev topology := topoTopology

/-! ## `topoRelation.check` -/

/-- The map literal `counterpart` of `check`, as the lookup `counterpart[role]`. -/
def counterpart (role : RelationRole) : Option RelationRole :=
  lookupKey role
    [(RoleRequirer, RoleProvider), (RoleProvider, RoleRequirer), (RolePeer, RolePeer)]

/-- The `range r.Services` loop of `check`, on the cells still to visit. -/
def topoRelation.checkLoop (r : topoRelation) :
    List (RelationRole × Option topoRelationService) → Result Unit
  | [] => .ok ()
  | (_, none) :: _ => .panic
  | (serviceRole, some service) :: rest =>
    if service.Service = "" then
      .error (.errorf "relation has %s service with empty service key" [serviceRole])
    else if service.RelationName = "" then
      .error (.errorf "relation has %s service with empty relation name" [serviceRole])
    else
      match counterpart serviceRole with
      | none => .error (.errorf "relation has unknown service role: %q" [serviceRole])
      | some counterRole =>
        match r.Services.get? counterRole with
        | none => .error (.errorf "relation has %s but no %s" [serviceRole, counterRole])
        | some _ => topoRelation.checkLoop r rest

/-- Method `check`: verifies that `r` is a proper relation; `ok ()` is the nil error. -/
def topoRelation.check (r : topoRelation) : Result Unit :=
  if r.Interface.length = 0 then
    .error (.errorf "relation interface is empty" [])
  else if r.Services.len = 0 then
    .error (.errorf "relation has no services" [])
  else
    match r.checkLoop r.Services.range with
    | .ok () =>
      if r.Services.len > 2 then
        .error (.errorf "relation with mixed peer, provider, and requirer roles" [])
      else .ok ()
    | other => other

/-! ## The operations of the topology

The methods of the Go type `topology` are the functions of the namespace `topology`; the
receiver holds one pointer, never nil, to a `topoTopology`, and is identified with it. -/

/-- Library function `sort.Strings`: sorts ascending.  Go compares strings byte by byte,
which on UTF-8 text is the order of the character sequences. -/
def sortStrings (keys : List String) : List String :=
  keys.insertionSort (fun a b => a.data ≤ b.data)

/-- Method `Error` of `NoRelationError`: the format and the endpoints handed to
`fmt.Sprintf`, or the panic of the last line. -/
def NoRelationError.Error (Endpoints : List RelationEndpoint) :
    Result (String × List RelationEndpoint) :=
  match Endpoints with
  | [e0] => .ok ("state: no peer relation for %q", [e0])
  | [e0, e1] => .ok ("state: no relation between %q and %q", [e0, e1])
  | _ => .panic

namespace topology

/-- Method `Version`. -/
def Version (t : topoTopology) : Int := t.Version

/-- Method `HasMachine`: `t.topology.Machines[key] != nil`. -/
def HasMachine (t : topoTopology) (key : String) : Bool :=
  match t.Machines.get? key with
  | some (some _) => true
  | _ => false

/-- Method `assertMachine`: checks if a machine exists. -/
def assertMachine (t : topoTopology) (machineKey : String) : Result Unit :=
  match t.Machines.get? machineKey with
  | none => .error (.errorf "machine with key %q not found" [machineKey])
  | some _ => .ok ()

/-- Method `assertService`: checks if a service exists. -/
def assertService (t : topoTopology) (serviceKey : String) : Result Unit :=
  match t.Services.get? serviceKey with
  | none => .error (.errorf "service with key %q not found" [serviceKey])
  | some _ => .ok ()

/-- Method `assertUnit`: checks if a service with a unit exists.  After `assertService` the
service pointer is read and dereferenced for its `Units`. -/
def assertUnit (t : topoTopology) (key : unitKey) : Result Unit :=
  match assertService t key.service with
  | .ok () =>
    match t.Services.get? key.service with
    | some (some svc) =>
      match svc.Units.get? key.unit with
      | none => .error (.errorf "unit with key %q not found" [key.unit])
      | some _ => .ok ()
    | _ => .panic
  | other => other

/-- Method `assertRelation`: checks if a relation exists. -/
def assertRelation (t : topoTopology) (relationKey : String) : Result Unit :=
  match t.Relations.get? relationKey with
  | none => .error (.errorf "relation with key %q not found" [relationKey])
  | some _ => .ok ()

/-- Inner loop of `MachineHasUnits` over the units of one service. -/
def MachineHasUnits.unitLoop (key : String) : List (String × Option topoUnit) → Result Bool
  | [] => .ok false
  | (_, none) :: _ => .panic
  | (_, some unit) :: rest =>
    if unit.Machine = key then .ok true else MachineHasUnits.unitLoop key rest

/-- Outer loop of `MachineHasUnits` over the services. -/
def MachineHasUnits.serviceLoop (key : String) :
    List (String × Option topoService) → Result Bool
  | [] => .ok false
  | (_, none) :: _ => .panic
  | (_, some service) :: rest =>
    match MachineHasUnits.unitLoop key service.Units.range with
    | .ok false => MachineHasUnits.serviceLoop key rest
    | found => found

/-- Method `MachineHasUnits`: whether the machine with key has any units assigned to it. -/
def MachineHasUnits (t : topoTopology) (key : String) : Result Bool :=
  match assertMachine t key with
  | .ok () => MachineHasUnits.serviceLoop key t.Services.range
  | .error e => .error e
  | .panic => .panic

/-- Method `AddMachine`: adds a new machine to the topology. -/
def AddMachine (t : topoTopology) (key : String) : topoTopology × Result Unit :=
  match t.Machines with
  | none =>
    ({ t with Machines := some (MapCells.empty.put key (some topoMachine.mk)) }, .ok ())
  | some cells =>
    if HasMachine t key then
      (t, .error (.errorf "attempted to add duplicated machine %q" [key]))
    else
      ({ t with Machines := some (cells.put key (some topoMachine.mk)) }, .ok ())

/-- Method `RemoveMachine`: removes the machine with key from the topology. -/
def RemoveMachine (t : topoTopology) (key : String) : topoTopology × Result Unit :=
  match MachineHasUnits t key with
  | .error err => (t, .error err)
  | .panic => (t, .panic)
  | .ok true =>
    (t, .error (.errorf "can't remove machine %q while units ared assigned" [key]))
  | .ok false => ({ t with Machines := t.Machines.delete key }, .ok ())

/-- Method `MachineKeys`: all machine keys, appended to the non-nil `[]string{}` in `range`
order and then sorted. -/
def MachineKeys (t : topoTopology) : GoSlice String :=
  some (sortStrings t.Machines.keys)

/-- Method `HasService`: `t.topology.Services[key] != nil`. -/
def HasService (t : topoTopology) (key : String) : Bool :=
  match t.Services.get? key with
  | some (some _) => true
  | _ => false

/-- The loop of `ServiceKey` on the cells still to visit. -/
def ServiceKey.loop (name : String) : List (String × Option topoService) → Result String
  | [] => .error (.errorf "service with name %q not found" [name])
  | (_, none) :: _ => .panic
  | (key, some svc) :: rest => if svc.Name = name then .ok key else ServiceKey.loop name rest

/-- Method `ServiceKey`: the key of the service with the given name. -/
def ServiceKey (t : topoTopology) (name : String) : Result String :=
  ServiceKey.loop name t.Services.range

/-- Method `AddService`: adds a new service to the topology. -/
def AddService (t : topoTopology) (key name : String) : topoTopology × Result Unit :=
  let cells : MapCells String (Option topoService) := t.Services.allocate
  let t1 : topoTopology := { t with Services := some cells }
  if HasService t1 key then
    (t1, .error (.errorf "attempted to add duplicated service %q" [key]))
  else
    match ServiceKey t1 name with
    | .ok _ => (t1, .error (.errorf "service name %q already in use" [name]))
    | .panic => (t1, .panic)
    | .error _ =>
      ({ t1 with Services := some (cells.put key (some ⟨name, some MapCells.empty⟩)) }, .ok ())

/-- Inner loop of `RelationsForService` over the sides of one relation: whether the loop
reaches the assignment and `break`. -/
def RelationsForService.sideLoop (serviceKey : String) :
    List (RelationRole × Option topoRelationService) → Result Bool
  | [] => .ok false
  | (_, none) :: _ => .panic
  | (_, some service) :: rest =>
    if service.Service = serviceKey then .ok true
    else RelationsForService.sideLoop serviceKey rest

/-- Outer loop of `RelationsForService`; `relations` is the map built so far. -/
def RelationsForService.relationLoop (serviceKey : String) :
    List (String × Option topoRelation) → MapCells String (Option topoRelation) →
      Result (MapCells String (Option topoRelation))
  | [], relations => .ok relations
  | (_, none) :: _, _ => .panic
  | (relationKey, some relation) :: rest, relations =>
    match RelationsForService.sideLoop serviceKey relation.Services.range with
    | .ok true =>
      RelationsForService.relationLoop serviceKey rest
        (relations.put relationKey (some relation))
    | .ok false => RelationsForService.relationLoop serviceKey rest relations
    | .error e => .error e
    | .panic => .panic

/-- Method `RelationsForService`: all relations that the service with `serviceKey` is
part of. -/
def RelationsForService (t : topoTopology) (serviceKey : String) :
    Result (GoMap String (Option topoRelation)) :=
  match assertService t serviceKey with
  | .ok () =>
    match RelationsForService.relationLoop serviceKey t.Relations.range MapCells.empty with
    | .ok relations => .ok (some relations)
    | .error e => .error e
    | .panic => .panic
  | .error e => .error e
  | .panic => .panic

/-- Method `RemoveService`: removes a service from the topology. -/
def RemoveService (t : topoTopology) (key : String) : topoTopology × Result Unit :=
  match assertService t key with
  | .ok () =>
    match RelationsForService t key with
    | .ok relations =>
      if relations.len > 0 then
        (t, .error (.errorf "cannot remove service %q with active relations" [key]))
      else
        ({ t with Services := t.Services.delete key }, .ok ())
    | .error err => (t, .error err)
    | .panic => (t, .panic)
  | other => (t, other)

/-- Method `ServiceKeys`: all service keys. -/
def ServiceKeys (t : topoTopology) : GoSlice String :=
  some (sortStrings t.Services.keys)

/-- Method `ServiceName`: the name of the service with the given key. -/
def ServiceName (t : topoTopology) (key : String) : Result String :=
  match t.Services.get? key with
  | some (some svc) => .ok svc.Name
  | some none => .panic
  | none => .error (.errorf "service with key %q not found" [key])

/-- Method `HasUnit`: `t.assertUnit(key) == nil`. -/
def HasUnit (t : topoTopology) (key : unitKey) : Result Bool :=
  match assertUnit t key with
  | .ok () => .ok true
  | .error _ => .ok false
  | .panic => .panic

/-- Write `svc` through the service pointer stored under `serviceKey`. -/
def pokeService (t : topoTopology) (serviceKey : String) (svc : topoService) : topoTopology :=
  { t with Services := t.Services.poke serviceKey (some svc) }

/-- Method `AddUnit`: adds a new unit to a service. -/
def AddUnit (t : topoTopology) (key : unitKey) : topoTopology × Result Unit :=
  match assertService t key.service with
  | .ok () =>
    match t.Services.get? key.service with
    | some (some svc) =>
      match svc.Units.get? key.unit with
      | some _ =>
        (t, .error (.errorf "unit %q already in use in service %q" [key.unit, key.service]))
      | none =>
        match svc.Units with
        | none => (t, .panic)
        | some units =>
          (pokeService t key.service
            { svc with Units := some (units.put key.unit (some ⟨""⟩)) }, .ok ())
    | _ => (t, .panic)
  | other => (t, other)

/-- Method `RemoveUnit`: removes a unit from a service. -/
def RemoveUnit (t : topoTopology) (key : unitKey) : topoTopology × Result Unit :=
  match assertUnit t key with
  | .ok () =>
    match t.Services.get? key.service with
    | some (some svc) =>
      (pokeService t key.service { svc with Units := svc.Units.delete key.unit }, .ok ())
    | _ => (t, .panic)
  | other => (t, other)

/-- Method `UnitKeys`: the unit keys for all units of the service with the given key. -/
def UnitKeys (t : topoTopology) (serviceKey : String) : Result (GoSlice unitKey) :=
  match assertService t serviceKey with
  | .ok () =>
    match t.Services.get? serviceKey with
    | some (some svc) => .ok (some (svc.Units.keys.map (fun key => ⟨serviceKey, key⟩)))
    | _ => .panic
  | .error e => .error e
  | .panic => .panic

/-- The expression `t.topology.Services[key.service].Units[key.unit]` together with the
service it is read from: `panic` when the service pointer is nil, `none` in the second
component when the unit pointer is nil. -/
def unitPointer (t : topoTopology) (key : unitKey) : Result (topoService × Option topoUnit) :=
  match t.Services.get? key.service with
  | some (some svc) =>
    match svc.Units.get? key.unit with
    | some (some unit) => .ok (svc, some unit)
    | _ => .ok (svc, none)
  | _ => .panic

/-- Method `UnitMachineKey`: the key of the assigned machine of the unit. -/
def UnitMachineKey (t : topoTopology) (key : unitKey) : Result String :=
  match assertUnit t key with
  | .ok () =>
    match unitPointer t key with
    | .ok (_, some unit) =>
      if unit.Machine = "" then .error .unitNotAssigned else .ok unit.Machine
    | _ => .panic
  | .error e => .error e
  | .panic => .panic

/-- Method `AssignUnitToMachine`: assigns a unit to a machine. -/
def AssignUnitToMachine (t : topoTopology) (key : unitKey) (machineKey : String) :
    topoTopology × Result Unit :=
  match assertUnit t key with
  | .ok () =>
    match assertMachine t machineKey with
    | .ok () =>
      match unitPointer t key with
      | .ok (svc, some unit) =>
        if unit.Machine ≠ "" then
          (t, .error (.errorf "unit %q in service %q already assigned to machine %q"
            [key.unit, key.service, unit.Machine]))
        else
          (pokeService t key.service
            { svc with Units := svc.Units.poke key.unit (some { unit with Machine := machineKey }) },
            .ok ())
      | _ => (t, .panic)
    | other => (t, other)
  | other => (t, other)

/-- Method `UnassignUnitFromMachine`: unassigns the unit from its current machine. -/
def UnassignUnitFromMachine (t : topoTopology) (key : unitKey) : topoTopology × Result Unit :=
  match assertUnit t key with
  | .ok () =>
    match unitPointer t key with
    | .ok (svc, some unit) =>
      if unit.Machine = "" then
        (t, .error (.errorf "unit %q in service %q not assigned to a machine"
          [key.unit, key.service]))
      else
        (pokeService t key.service
          { svc with Units := svc.Units.poke key.unit (some { unit with Machine := "" }) },
          .ok ())
    | _ => (t, .panic)
  | other => (t, other)

/-- Method `Relation`: the relation with key from the topology. -/
def Relation (t : topoTopology) (key : String) : Result topoRelation :=
  match t.Relations with
  | none => .error (.errorf "relation %q does not exist" [key])
  | some _ =>
    match t.Relations.get? key with
    | some (some relation) => .ok relation
    | _ => .error (.errorf "relation %q does not exist" [key])

/-- The loop of `AddRelation` that asserts the service of every side. -/
def AddRelation.serviceLoop (t : topoTopology) :
    List (RelationRole × Option topoRelationService) → Result Unit
  | [] => .ok ()
  | (_, none) :: _ => .panic
  | (_, some service) :: rest =>
    match assertService t service.Service with
    | .ok () => AddRelation.serviceLoop t rest
    | other => other

/-- The side pointer `relation.Services[role]`; nil when the role has no cell. -/
def sidePointer (relation : topoRelation) (role : RelationRole) : Option topoRelationService :=
  match relation.Services.get? role with
  | some side => side
  | none => none

/-- The last check of `AddRelation`: without a peer side the provider and requirer keys are
read, through their side pointers, and compared. -/
def AddRelation.keyCheck (relation : topoRelation) : Result Unit :=
  match sidePointer relation RolePeer with
  | some _ => .ok ()
  | none =>
    match sidePointer relation RoleProvider, sidePointer relation RoleRequirer with
    | some provider, some requirer =>
      if provider.Service = requirer.Service then
        .error (.errorf "provider and requirer keys must not be the same" [])
      else .ok ()
    | _, _ => .panic

/-- Method `AddRelation`: adds a new relation with the given key and relation data; the
argument is a pointer. -/
def AddRelation (t : topoTopology) (relationKey : String) (relation : Option topoRelation) :
    topoTopology × Result Unit :=
  let cells : MapCells String (Option topoRelation) := t.Relations.allocate
  let t1 : topoTopology := { t with Relations := some cells }
  match t1.Relations.get? relationKey with
  | some _ => (t1, .error (.errorf "relation key %q already in use" [relationKey]))
  | none =>
    match relation with
    | none => (t1, .panic)
    | some r =>
      match r.check with
      | .ok () =>
        match AddRelation.serviceLoop t1 r.Services.range with
        | .ok () =>
          match AddRelation.keyCheck r with
          | .ok () => ({ t1 with Relations := some (cells.put relationKey (some r)) }, .ok ())
          | other => (t1, other)
        | other => (t1, other)
      | other => (t1, other)

/-- Method `RelationKeys`: the keys for all relations in the topology. -/
def RelationKeys (t : topoTopology) : GoSlice String :=
  some (sortStrings t.Relations.keys)

/-- Method `RemoveRelation`: removes the relation with key from the topology. -/
def RemoveRelation (t : topoTopology) (key : String) : topoTopology :=
  { t with Relations := t.Relations.delete key }

/-- Inner loop of `RelationKey` over the endpoints: the value of `found` after the loop. -/
def RelationKey.endpointLoop (relation : topoRelation) : List RelationEndpoint → Result Bool
  | [] => .ok true
  | endpoint :: rest =>
    match relation.Services.get? endpoint.RelationRole with
    | none => .ok false
    | some none => .panic
    | some (some service) =>
      if service.RelationName ≠ endpoint.RelationName then .ok false
      else RelationKey.endpointLoop relation rest

/-- Outer loop of `RelationKey` over the relations; `first` is `endpoints[0]`. -/
def RelationKey.relationLoop (first : RelationEndpoint) (endpoints : List RelationEndpoint) :
    List (String × Option topoRelation) → Result String
  | [] => .error (.NoRelationError endpoints)
  | (_, none) :: _ => .panic
  | (relationKey, some relation) :: rest =>
    if relation.Interface ≠ first.Interface then
      RelationKey.relationLoop first endpoints rest
    else
      match RelationKey.endpointLoop relation endpoints with
      | .ok true => .ok relationKey
      | .ok false => RelationKey.relationLoop first endpoints rest
      | .error e => .error e
      | .panic => .panic

/-- Method `RelationKey`: the key for the relation established between the provided
endpoints. -/
def RelationKey (t : topoTopology) (endpoints : List RelationEndpoint) : Result String :=
  match endpoints with
  | [e0] => RelationKey.relationLoop e0 endpoints t.Relations.range
  | [e0, e1] =>
    if e0.Interface ≠ e1.Interface then .error (.NoRelationError endpoints)
    else RelationKey.relationLoop e0 endpoints t.Relations.range
  | _ => .error (.errorf "state: illegal number of relation endpoints provided" [])

end topology

/-- The empty topology, `topoTopology` with only its `Version` set to the protocol version
and its three maps nil, as `parseTopology` makes it for an empty document. -/
def emptyTopology : topoTopology := ⟨topologyVersion, none, none, none⟩

/-! ## Reading and writing the topology node

The node holds the topology as a YAML document.  Package `goyaml` and the ZooKeeper
connection are libraries outside this repository; the functions of them that the source
calls are parameters of the functions below. -/

/-- The two functions of package `goyaml` that the source calls, at the one type they are
called with.  `Marshal t` is `goyaml.Marshal(t.topology)`: the document, or an error.
`Unmarshal yaml out` is `goyaml.Unmarshal([]byte(yaml), out)`: the value `out` points to
after the call, and what the call returned. -/
structure Goyaml where
  Marshal : topoTopology → Result String
  Unmarshal : String → topoTopology → topoTopology × Result Unit

/-- Function `parseTopology`: the topology represented by `yaml`.  The document is decoded
into a struct whose `Version` is already set to `topologyVersion`. -/
def parseTopology (goyaml : Goyaml) (yaml : String) : Result topoTopology :=
  let fresh : topoTopology :=
    { Version := topologyVersion, Machines := none, Services := none, Relations := none }
  match goyaml.Unmarshal yaml fresh with
  | (_, .error err) => .error err
  | (_, .panic) => .panic
  | (t, .ok ()) =>
    if t.Version ≠ topologyVersion then
      .error (.errorf "incompatible topology versions: got %d, want %d"
        [toString t.Version, toString topologyVersion])
    else .ok t

/-- Method `dump`: the topology as YAML. -/
def topology.dump (goyaml : Goyaml) (t : topoTopology) : Result String :=
  match goyaml.Marshal t with
  | .error err => .error err
  | .panic => .panic
  | .ok yaml => .ok yaml

/-- The closure `change` that `retryTopologyChange` hands to `RetryChange`: from the stored
document to the new document, or an error.  The caller's function `f` is a closure: besides
the topology it is given it can read and write whatever it has captured, the state `s`;
it returns the topology as it left it with the error it returned, and the state after the
call.  The `stat` argument of `change` is not used and left out. -/
def retryTopologyChange.change {σ : Type} (goyaml : Goyaml)
    (f : topoTopology → σ → (topoTopology × Result Unit) × σ) (yaml : String) (s : σ) :
    Result String × σ :=
  let fresh : topoTopology := { Version := 1, Machines := none, Services := none, Relations := none }
  let parsed : Result topoTopology := if yaml ≠ "" then parseTopology goyaml yaml else .ok fresh
  match parsed with
  | .error err => (.error err, s)
  | .panic => (.panic, s)
  | .ok it =>
    match f it s with
    | ((_, .error err), s') => (.error err, s')
    | ((_, .panic), s') => (.panic, s')
    | ((it', .ok ()), s') => (topology.dump goyaml it', s')

/-- Function `retryTopologyChange`: tries to change the topology with `f`.  `RetryChange
change` is `zk.RetryChange(zkTopologyPath, 0, zkPermAll, change)`. -/
def retryTopologyChange {σ ρ : Type} (goyaml : Goyaml)
    (RetryChange : (String → σ → Result String × σ) → ρ)
    (f : topoTopology → σ → (topoTopology × Result Unit) × σ) : ρ :=
  RetryChange (retryTopologyChange.change goyaml f)

/-! ## The update protocol

The ZooKeeper connection is outside this repository.  The stored node, the loop of
`RetryChange` and the interleaving of two invocations are modelled from the spec, from its
sections on the optimistic update protocol, on concurrency and on external interfaces. -/

/-- Modelled from the spec: the node of the coordination service that holds the document,
missing from the source: its bytes and its version token. -/
structure Node where
  document : String
  token : Nat
deriving DecidableEq

/-- Modelled from the spec: `Read(path)`, missing from the source: the bytes of the node and
its version token. -/
def Node.Read (node : Node) : String × Nat := (node.document, node.token)

/-- Modelled from the spec: `ConditionalWrite(path, bytes, expectedVersionToken)`, missing
from the source: the node after the write, or `none`, the conflict signal, when the
expected version token is stale. -/
def Node.ConditionalWrite (node : Node) (bytes : String) (expected : Nat) : Option Node :=
  if expected = node.token then some ⟨bytes, node.token + 1⟩ else none

/-- Modelled from the spec: where one invocation of the update protocol stands, missing from
the source: about to fetch; holding the encoded document and the version token its fetch
observed, about to attempt the conditional write; or returned to its caller. -/
inductive Cycle where
  | fetch
  | write (document : String) (token : Nat)
  | returned (result : Result Unit)
deriving DecidableEq

/-- Modelled from the spec: one turn of an invocation of `RetryChange`, missing from the
source.  A fetch reads the node and runs `change` on its bytes (decode, mutate, encode): an
error aborts the invocation and is returned, a new document is kept with the token
observed.  A conditional write with that token returns nil when it succeeds and restarts
from the fetch on a conflict.  An invocation that has returned does nothing.  The closure
has no side effects, so its state is the unit. -/
def RetryChange (change : String → Unit → Result String × Unit) (node : Node) :
    Cycle → Node × Cycle
  | .fetch =>
    match (change node.Read.1 ()).1 with
    | .ok document => (node, .write document node.Read.2)
    | .error err => (node, .returned (.error err))
    | .panic => (node, .returned .panic)
  | .write document token =>
    match node.ConditionalWrite document token with
    | some written => (written, .returned (.ok ()))
    | none => (node, .fetch)
  | .returned result => (node, .returned result)

/-- Modelled from the spec: two invocations of the update protocol that run concurrently
against one node, missing from the source. -/
structure Race where
  node : Node
  first : Cycle
  second : Cycle
deriving DecidableEq

/-- Modelled from the spec: the next turn, taken by the first invocation (`true`) or by the
second; the two interleave arbitrarily, and only the fetch and the conditional write touch
the node. -/
def Race.turn (step : Node → Cycle → Node × Cycle) (race : Race) (who : Bool) : Race :=
  if who then ⟨(step race.node race.first).1, (step race.node race.first).2, race.second⟩
  else ⟨(step race.node race.second).1, race.first, (step race.node race.second).2⟩

/-- Modelled from the spec: the two invocations after the turns of a schedule. -/
def Race.run (step : Node → Cycle → Node × Cycle) (race : Race) : List Bool → Race
  | [] => race
  | who :: schedule => Race.run step (race.turn step who) schedule

/-! ## Notions used in the statements -/

/-- The relation has a side under `role`. -/
def topoRelation.hasRole (r : topoRelation) (role : RelationRole) : Prop :=
  role ∈ r.Services.keys

/-- What the data model asks of the shape of a relation: a non-empty interface, every side
present with a non-empty service key and relation name, and roles exactly peer or exactly
provider and requirer. -/
def topoRelation.proper (r : topoRelation) : Prop :=
  r.Interface ≠ "" ∧
  (∀ role side, (role, side) ∈ r.Services.range →
    ∃ s, side = some s ∧ s.Service ≠ "" ∧ s.RelationName ≠ "") ∧
  ((∀ role, r.hasRole role ↔ role = RolePeer) ∨
    (∀ role, r.hasRole role ↔ role = RoleProvider ∨ role = RoleRequirer))

/-- A call of one of the operations that change the topology, with its arguments. -/
inductive Op where
  | AddMachine (key : String)
  | RemoveMachine (key : String)
  | AddService (key name : String)
  | RemoveService (key : String)
  | AddUnit (key : unitKey)
  | RemoveUnit (key : unitKey)
  | AssignUnitToMachine (key : unitKey) (machineKey : String)
  | UnassignUnitFromMachine (key : unitKey)
  | AddRelation (relationKey : String) (relation : Option topoRelation)
  | RemoveRelation (key : String)
deriving DecidableEq

/-- The call `op` made on `t`: the topology after the call and what the call returned
(`RemoveRelation` returns nothing, shown as the nil error). -/
def Op.apply (t : topoTopology) : Op → topoTopology × Result Unit
  | .AddMachine key => topology.AddMachine t key
  | .RemoveMachine key => topology.RemoveMachine t key
  | .AddService key name => topology.AddService t key name
  | .RemoveService key => topology.RemoveService t key
  | .AddUnit key => topology.AddUnit t key
  | .RemoveUnit key => topology.RemoveUnit t key
  | .AssignUnitToMachine key machineKey => topology.AssignUnitToMachine t key machineKey
  | .UnassignUnitFromMachine key => topology.UnassignUnitFromMachine t key
  | .AddRelation relationKey relation => topology.AddRelation t relationKey relation
  | .RemoveRelation key => (topology.RemoveRelation t key, .ok ())

/-- The topology after the calls `ops` made in order on `t`, whatever each call returned. -/
def run (t : topoTopology) : List Op → topoTopology
  | [] => t
  | op :: rest => run (op.apply t).1 rest

/-- No relation references a nonexistent service: every stored relation pointer is set, and
every side of it is set and names a service for which `HasService` is true. -/
def relationsReferToServices (t : topoTopology) : Prop :=
  ∀ key v, (key, v) ∈ t.Relations.range →
    ∃ relation, v = some relation ∧
      ∀ role side, (role, side) ∈ relation.Services.range →
        ∃ s, side = some s ∧ topology.HasService t s.Service = true

/-- Every machine pointer stored in the topology is set (not nil). -/
def machinesAllocated (t : topoTopology) : Bool :=
  t.Machines.range.all fun e => e.2.isSome

/-- Every service pointer, and every unit pointer of every service, is set (not nil). -/
def servicesAllocated (t : topoTopology) : Bool :=
  t.Services.range.all fun e =>
    match e.2 with
    | none => false
    | some svc => svc.Units.range.all fun u => u.2.isSome

/-- Every relation pointer, and every side pointer of every relation, is set (not nil). -/
def relationsAllocated (t : topoTopology) : Bool :=
  t.Relations.range.all fun e =>
    match e.2 with
    | none => false
    | some relation => relation.Services.range.all fun s => s.2.isSome

/-- Every pointer stored in the topology is set, as in every topology the operations build. -/
def allocated (t : topoTopology) : Bool :=
  machinesAllocated t && servicesAllocated t && relationsAllocated t

/-- The invariant the operations keep: every stored pointer is set, and no relation
references a nonexistent service. -/
def invariant (t : topoTopology) : Prop :=
  (∀ k v, (k, v) ∈ t.Machines.range → v ≠ none) ∧
  (∀ k v, (k, v) ∈ t.Services.range →
    ∃ svc, v = some svc ∧ ∀ u w, (u, w) ∈ svc.Units.range → w ≠ none) ∧
  relationsReferToServices t

/-- The observable content of a topology: its version and the cells of its three
collections with all they hold (service names, units and machine assignments; relation
interface, scope and sides).  A collection that was never initialised shows as empty. -/
def observe (t : topoTopology) :
    Int × List (String × Option topoMachine) × List (String × Option topoService) ×
      List (String × Option topoRelation) :=
  (t.Version, t.Machines.range, t.Services.range, t.Relations.range)

/-- The relation matches the endpoints: its interface is the interface of every endpoint,
and for every endpoint it has a side under the role of the endpoint whose relation name is
that of the endpoint. -/
def topoRelation.matchesEndpoints (r : topoRelation) (endpoints : List RelationEndpoint) :
    Prop :=
  ∀ endpoint ∈ endpoints,
    r.Interface = endpoint.Interface ∧
      ∃ s, r.Services.get? endpoint.RelationRole = some (some s) ∧
        s.RelationName = endpoint.RelationName

/-- The scan of `RelationKey` accepts the relation: it passes the comparison with the
interface of the first endpoint, and the loop over the endpoints leaves `found` true. -/
def scanAccepts (first : RelationEndpoint) (endpoints : List RelationEndpoint)
    (r : topoRelation) : Prop :=
  r.Interface = first.Interface ∧ topology.RelationKey.endpointLoop r endpoints = .ok true

/-- The relation of the endpoint resolution scenario: interface `http`, provider
`svc-a/website`, requirer `svc-b/website`. -/
def httpRelation : topoRelation :=
  ⟨"http", "global",
    some ⟨[(RoleProvider, some ⟨"svc-a", "website"⟩), (RoleRequirer, some ⟨"svc-b", "website"⟩)],
      by decide⟩⟩

/-- The topology of the endpoint resolution scenario, built by the operations. -/
def httpTopology : topoTopology :=
  run emptyTopology
    [.AddService "svc-a" "wordpress", .AddService "svc-b" "haproxy",
      .AddRelation "relation-0" (some httpRelation)]

/-- A call of `AddMachine` or of `RemoveMachine`. -/
inductive MachineOp where
  | add (key : String)
  | remove (key : String)
deriving DecidableEq

/-- The call as one of the calls of the topology. -/
def MachineOp.toOp : MachineOp → Op
  | .add key => .AddMachine key
  | .remove key => .RemoveMachine key

/-- The sequence of calls contains an `AddMachine(k)` with no later `RemoveMachine(k)`. -/
def addedNotRemoved (calls : List MachineOp) (k : String) : Prop :=
  ∃ pre post, calls = pre ++ MachineOp.add k :: post ∧ MachineOp.remove k ∉ post

/-- The topology after the given calls of `AddMachine` and `RemoveMachine`, made in order
on the empty topology. -/
def afterMachineCalls (calls : List MachineOp) : topoTopology :=
  run emptyTopology (calls.map MachineOp.toOp)

/-- Some unit of some service has its machine field equal to `key`. -/
def unitOnMachine (t : topoTopology) (key : String) : Prop :=
  ∃ serviceKey svc unitKey unit,
    (serviceKey, some svc) ∈ t.Services.range ∧ (unitKey, some unit) ∈ svc.Units.range ∧
      unit.Machine = key

/-- A topology with a machine whose key is the empty string and one unassigned unit, built
by the operations. -/
def emptyKeyTopology : topoTopology :=
  run emptyTopology
    [.AddMachine "", .AddService "service-0" "wordpress", .AddUnit ⟨"service-0", "unit-0"⟩]

/-- A topology in which the only unit of machine `machine-0` was assigned and then
unassigned, built by the operations. -/
def unassignedTopology : topoTopology :=
  run emptyTopology
    [.AddMachine "machine-0", .AddService "service-0" "wordpress",
      .AddUnit ⟨"service-0", "unit-0"⟩,
      .AssignUnitToMachine ⟨"service-0", "unit-0"⟩ "machine-0",
      .UnassignUnitFromMachine ⟨"service-0", "unit-0"⟩]

/-- The slice `result` is non-nil and lists the keys of the map `m`, each exactly once, in
strictly ascending order. -/
def listsKeysAscending {V : Type} (m : GoMap String V) (result : GoSlice String) : Prop :=
  ∃ l, result = some l ∧ l.Sorted (· < ·) ∧ (∀ k, k ∈ l ↔ k ∈ m.keys) ∧
    ∀ k, k ∈ m.keys → l.count k = 1

/-- The relation has a side whose service key is `serviceKey`. -/
def topoRelation.references (r : topoRelation) (serviceKey : String) : Prop :=
  ∃ role s, (role, some s) ∈ r.Services.range ∧ s.Service = serviceKey

/-- A service whose units were added in descending order of their keys, built by the
operations. -/
def descendingUnitsTopology : topoTopology :=
  run emptyTopology
    [.AddService "service-0" "wordpress", .AddUnit ⟨"service-0", "unit-1"⟩,
      .AddUnit ⟨"service-0", "unit-0"⟩]

/-- The same service with its units added in ascending order of their keys. -/
def ascendingUnitsTopology : topoTopology :=
  run emptyTopology
    [.AddService "service-0" "wordpress", .AddUnit ⟨"service-0", "unit-0"⟩,
      .AddUnit ⟨"service-0", "unit-1"⟩]

/-- No two distinct service keys carry the same name. -/
def serviceNamesUnique (t : topoTopology) : Prop :=
  ∀ k1 svc1 k2 svc2, (k1, some svc1) ∈ t.Services.range → (k2, some svc2) ∈ t.Services.range →
    svc1.Name = svc2.Name → k1 = k2

/-- Every service pointer is set and every service has an allocated units map, as
`AddService` makes it. -/
def unitMapsAllocated (t : topoTopology) : Bool :=
  t.Services.range.all fun e =>
    match e.2 with
    | none => false
    | some svc => svc.Units.isSome

/-- The unit exists: its service is set and has a cell for the unit. -/
def unitExists (t : topoTopology) (key : unitKey) : Prop :=
  ∃ svc, t.Services.get? key.service = some (some svc) ∧ key.unit ∈ svc.Units.keys

/-- The call failed as not found: it returned the error of `assertService`, of `assertUnit`
or of `assertMachine`. -/
def failsNotFound (r : Result Unit) : Prop :=
  ∃ key, r = .error (.errorf "service with key %q not found" [key]) ∨
    r = .error (.errorf "unit with key %q not found" [key]) ∨
    r = .error (.errorf "machine with key %q not found" [key])

/-- What the topology holds for a unit key: whether its service has a cell, whether the
service pointer is set, whether the service has a cell for the unit, and the unit pointer. -/
def unitCell (t : topoTopology) (key : unitKey) : Option (Option (Option (Option topoUnit))) :=
  (t.Services.get? key.service).map (Option.map fun svc => svc.Units.get? key.unit)

/-- Two services, the first with a unit `unit-0`, built by the operations. -/
def twoServicesTopology : topoTopology :=
  run emptyTopology
    [.AddService "service-0" "wordpress", .AddService "service-1" "mysql",
      .AddUnit ⟨"service-0", "unit-0"⟩]

/-- A machine `machine-0` and a service with one unassigned unit, built by the operations. -/
def oneUnitTopology : topoTopology :=
  run emptyTopology
    [.AddMachine "machine-0", .AddService "service-0" "wordpress",
      .AddUnit ⟨"service-0", "unit-0"⟩]

/-- The topology `oneUnitTopology` after its unit was assigned to `machine-0`. -/
def assignedTopology : topoTopology :=
  run oneUnitTopology [.AssignUnitToMachine ⟨"service-0", "unit-0"⟩ "machine-0"]

/-- Machine referential integrity: every unit whose machine field is non-empty names a
machine for which `HasMachine` is true. -/
def unitsReferToMachines (t : topoTopology) : Prop :=
  ∀ sk svc uk unit, (sk, some svc) ∈ t.Services.range → (uk, some unit) ∈ svc.Units.range →
    unit.Machine ≠ "" → topology.HasMachine t unit.Machine = true

/-- The topology with the one machine `<<`, built by `AddMachine`. -/
def mergeKeyTopology : topoTopology := (topology.AddMachine emptyTopology "<<").1

/-- The topology with the one machine `m1`, built by `AddMachine`. -/
def oneMachineTopology : topoTopology := (topology.AddMachine emptyTopology "m1").1

/-- A small stand-in for the library, for the examples: a table of what the library does on
a few documents, whose texts follow the layout of the stored document.  It writes the empty
topology, the topology with the one machine `m1` and the topology with the one machine
`<<`.  It reads the empty document, a document that holds only the machine `m1`, the full
document with the machine `m1`, and a document that holds only the version 2; a field the
document does not hold is left as it was.  It reads a document whose version does not fit
the integer field by skipping the version, and the document with the machine `<<` by
taking `<<` for the merge key of YAML, which stores no machine: what the decoder does on
these two documents. -/
def exampleGoyaml : Goyaml where
  Marshal t :=
    if t = emptyTopology then .ok "version: 1\nmachines: {}\nservices: {}\nrelations: {}\n"
    else if t = oneMachineTopology then
      .ok "version: 1\nmachines:\n  m1: {}\nservices: {}\nrelations: {}\n"
    else if t = mergeKeyTopology then
      .ok "version: 1\nmachines:\n  <<: {}\nservices: {}\nrelations: {}\n"
    else .error (.errorf "YAML error: not in the example" [])
  Unmarshal yaml out :=
    if yaml = "" then (out, .ok ())
    else if yaml = "machines:\n  m1: {}\n" then
      ({ out with Machines := oneMachineTopology.Machines }, .ok ())
    else if yaml = "version: 1\nmachines:\n  m1: {}\nservices: {}\nrelations: {}\n" then
      ({ Version := 1, Machines := oneMachineTopology.Machines,
         Services := some MapCells.empty, Relations := some MapCells.empty }, .ok ())
    else if yaml = "version: 2\n" then ({ out with Version := 2 }, .ok ())
    else if yaml = "version: 9223372036854775808\n" then (out, .ok ())
    else if yaml = "version: 1\nmachines:\n  <<: {}\nservices: {}\nrelations: {}\n" then
      ({ Version := 1, Machines := some MapCells.empty,
         Services := some MapCells.empty, Relations := some MapCells.empty }, .ok ())
    else (out, .error (.errorf "YAML error: not in the example" []))

/-- The cycle on the stored document `yaml` hands the topology `it` to the caller's function
and swallows nothing: an error of `f` is what `change` returns, with no document, and when
`f` succeeds `change` returns the dump of the topology as `f` left it. -/
def cycleApplies {σ : Type} (goyaml : Goyaml)
    (f : topoTopology → σ → (topoTopology × Result Unit) × σ) (yaml : String) (s : σ)
    (it : topoTopology) : Prop :=
  (∀ it' err s', f it s = ((it', .error err), s') →
    retryTopologyChange.change goyaml f yaml s = (.error err, s')) ∧
  (∀ it' s', f it s = ((it', .ok ()), s') →
    retryTopologyChange.change goyaml f yaml s = (topology.dump goyaml it', s'))

/-- The two maps hold the same cells: under every key both hold nothing, both hold a nil
pointer, or both hold values that are `same`.  The order of the cells plays no part, nor
does the difference between a nil map and an empty one. -/
def sameCells {K V : Type} [DecidableEq K] (same : V → V → Prop) (a b : GoMap K (Option V)) :
    Prop :=
  ∀ k, Option.Rel (Option.Rel same) (a.get? k) (b.get? k)

/-- The two services have the same name and the same units with the same machine fields. -/
def sameService (a b : topoService) : Prop :=
  a.Name = b.Name ∧ sameCells Eq a.Units b.Units

/-- The two relations have the same interface, the same scope and the same sides. -/
def sameRelation (a b : topoRelation) : Prop :=
  a.Interface = b.Interface ∧ a.Scope = b.Scope ∧ sameCells Eq a.Services b.Services

/-- The two topologies hold the same content, as a document holds it: the same version,
the same machines, the same services with the same names, units and machine fields, and
the same relations with the same interface, scope and sides. -/
def sameContent (a b : topoTopology) : Prop :=
  a.Version = b.Version ∧ sameCells Eq a.Machines b.Machines ∧
  sameCells sameService a.Services b.Services ∧ sameCells sameRelation a.Relations b.Relations

/-- Every service pointer stored in the topology is set (not nil). -/
def servicePointersSet (t : topoTopology) : Bool :=
  t.Services.range.all fun e => e.2.isSome

/-- The pointers stored for the unit are set: the service pointer under `key.service`, when
the services have that key, and then the unit pointer under `key.unit`, when the service
has that key. -/
def unitPointersSet (t : topoTopology) (key : unitKey) : Bool :=
  match t.Services.get? key.service with
  | none => true
  | some none => false
  | some (some svc) =>
    match svc.Units.get? key.unit with
    | some none => false
    | _ => true

/-- A topology as a decoded document can hold it: the machine `machine-0` and the service
`service-0`, whose unit `unit-0` is stored as a nil pointer. -/
def nilUnitTopology : topoTopology :=
  ⟨1, some ⟨[("machine-0", some ⟨⟩)], by decide⟩,
    some ⟨[("service-0", some ⟨"wordpress", some ⟨[("unit-0", none)], by decide⟩⟩)], by decide⟩,
    none⟩

/-- A topology as a decoded document can hold it: the service key `service-0` stored with
a nil pointer. -/
def nilServiceTopology : topoTopology :=
  ⟨1, none, some ⟨[("service-0", none)], by decide⟩, none⟩

/-- A topology as a decoded document can hold it: the service `svc-a` and the relation key
`relation-0` stored with a nil pointer. -/
def nilRelationTopology : topoTopology :=
  ⟨1, none, some ⟨[("svc-a", some ⟨"wordpress", some MapCells.empty⟩)], by decide⟩,
    some ⟨[("relation-0", none)], by decide⟩⟩

/-- A topology as a decoded document can hold it: the relation `relation-0` with interface
`http`, whose provider side is stored as a nil pointer and whose requirer side is
`svc-b/website`. -/
def nilSideTopology : topoTopology :=
  ⟨1, none, none,
    some ⟨[("relation-0", some ⟨"http", "global",
      some ⟨[(RoleProvider, none), (RoleRequirer, some ⟨"svc-b", "website"⟩)], by decide⟩⟩)],
      by decide⟩⟩

theorem string_length_eq_zero (s : String) : s.length = 0 ↔ s = "" := by
  constructor
  · intro h
    apply String.ext
    exact List.length_eq_zero.1 h
  · rintro rfl
    rfl

theorem GoMap.keys_nodup {K V : Type} (m : GoMap K V) : m.keys.Nodup := by
  cases m with
  | none => exact List.nodup_nil
  | some cells => exact cells.nodup

theorem mem_keys_iff_get? {K V : Type} [DecidableEq K] (m : GoMap K V) (k : K) :
    k ∈ m.keys ↔ ∃ v, m.get? k = some v := by
  unfold GoMap.keys GoMap.get?
  rw [← lookupKey_isSome, Option.isSome_iff_exists]

/-! ## `check` accepts the proper relations -/

theorem counterpart_eq_some (role c : RelationRole) :
    counterpart role = some c ↔
      (role = RoleRequirer ∧ c = RoleProvider) ∨ (role = RoleProvider ∧ c = RoleRequirer)
        ∨ (role = RolePeer ∧ c = RolePeer) := by
  have h1 : RoleRequirer ≠ RoleProvider := by decide
  have h2 : RoleRequirer ≠ RolePeer := by decide
  have h3 : RoleProvider ≠ RolePeer := by decide
  unfold counterpart
  simp only [lookupKey]
  constructor
  · intro h
    split_ifs at h with a b c'
    · exact Or.inl ⟨a.symm, (Option.some.inj h).symm⟩
    · exact Or.inr (Or.inl ⟨b.symm, (Option.some.inj h).symm⟩)
    · exact Or.inr (Or.inr ⟨c'.symm, (Option.some.inj h).symm⟩)
  · rintro (⟨rfl, rfl⟩ | ⟨rfl, rfl⟩ | ⟨rfl, rfl⟩)
    · simp
    · simp [h1]
    · simp [h2, h3]

theorem checkLoop_ok_iff (r : topoRelation) (l : List (RelationRole × Option topoRelationService)) :
    r.checkLoop l = .ok () ↔
      ∀ e ∈ l, ∃ s, e.2 = some s ∧ s.Service ≠ "" ∧ s.RelationName ≠ "" ∧
        ∃ c, counterpart e.1 = some c ∧ c ∈ r.Services.keys := by
  induction l with
  | nil => simp [topoRelation.checkLoop]
  | cons e rest ih =>
    obtain ⟨role, side⟩ := e
    cases side with
    | none => simp [topoRelation.checkLoop]
    | some s =>
      simp only [topoRelation.checkLoop, List.mem_cons, forall_eq_or_imp]
      by_cases h1 : s.Service = ""
      · simp [h1]
      · by_cases h2 : s.RelationName = ""
        · simp [h1, h2]
        · simp only [h1, h2, if_false]
          cases hc : counterpart role with
          | none => simp
          | some c =>
            dsimp only
            cases hg : r.Services.get? c with
            | none =>
              have : c ∉ r.Services.keys := (lookupKey_eq_none c _).1 hg
              simp [h1, h2, this]
            | some v =>
              have : c ∈ r.Services.keys := (mem_keys_iff_get? _ _).2 ⟨v, hg⟩
              simp [h1, h2, this, ih]

theorem roles_closed_iff (keys : List RelationRole) (hnd : keys.Nodup) :
    (keys.length ≠ 0 ∧ keys.length ≤ 2 ∧ ∀ k ∈ keys, ∃ c, counterpart k = some c ∧ c ∈ keys) ↔
      ((∀ role, role ∈ keys ↔ role = RolePeer) ∨
        (∀ role, role ∈ keys ↔ role = RoleProvider ∨ role = RoleRequirer)) := by
  have h1 : RoleRequirer ≠ RoleProvider := by decide
  have h2 : RoleRequirer ≠ RolePeer := by decide
  have h3 : RoleProvider ≠ RolePeer := by decide
  constructor
  · rintro ⟨hne, hle, hcl⟩
    match keys, hnd, hne, hle, hcl with
    | [], _, hne, _, _ => exact absurd rfl hne
    | [a], _, _, _, hcl =>
      obtain ⟨c, hc, hmem⟩ := hcl a (List.mem_singleton_self a)
      rw [List.mem_singleton] at hmem
      subst hmem
      rcases (counterpart_eq_some c c).1 hc with ⟨ha, hb⟩ | ⟨ha, hb⟩ | ⟨ha, _⟩
      · exact absurd (ha.symm.trans hb) h1
      · exact absurd (hb.symm.trans ha) h1
      · left
        intro role
        rw [List.mem_singleton, ha]
    | [a, b], hnd, _, _, hcl =>
      have hab : a ≠ b := by
        intro h
        simp [h] at hnd
      obtain ⟨c, hc, hmem⟩ := hcl a (by simp)
      obtain ⟨d, hd, hmem'⟩ := hcl b (by simp)
      simp only [List.mem_cons, List.mem_singleton, List.not_mem_nil, or_false] at hmem hmem'
      right
      intro role
      simp only [List.mem_cons, List.mem_singleton, List.not_mem_nil, or_false]
      rcases (counterpart_eq_some a c).1 hc with ⟨ha, hb⟩ | ⟨ha, hb⟩ | ⟨ha, hb⟩ <;>
        rcases (counterpart_eq_some b d).1 hd with ⟨ha', hb'⟩ | ⟨ha', hb'⟩ | ⟨ha', hb'⟩ <;>
        subst ha hb ha' hb' <;>
        first
          | exact absurd rfl hab
          | (rcases hmem with h | h <;> rcases hmem' with h' | h' <;>
              first
                | exact absurd h h1
                | exact absurd h.symm h1
                | exact absurd h h2
                | exact absurd h.symm h2
                | exact absurd h h3
                | exact absurd h.symm h3
                | exact absurd h' h1
                | exact absurd h'.symm h1
                | exact absurd h' h2
                | exact absurd h'.symm h2
                | exact absurd h' h3
                | exact absurd h'.symm h3
                | exact or_comm
                | exact Iff.rfl)
    | _ :: _ :: _ :: _, _, _, hle, _ => simp at hle
  · rintro (h | h)
    · have hfs : keys.toFinset = {RolePeer} := by
        ext role
        simp [h role]
      have hlen : keys.length = 1 := by
        rw [← List.toFinset_card_of_nodup hnd, hfs]
        rfl
      refine ⟨by omega, by omega, ?_⟩
      intro k hk
      have := (h k).1 hk
      subst this
      exact ⟨RolePeer, (counterpart_eq_some _ _).2 (Or.inr (Or.inr ⟨rfl, rfl⟩)), hk⟩
    · have hfs : keys.toFinset = {RoleProvider, RoleRequirer} := by
        ext role
        simp [h role]
      have hlen : keys.length = 2 := by
        rw [← List.toFinset_card_of_nodup hnd, hfs]
        exact Finset.card_pair h1.symm
      refine ⟨by omega, by omega, ?_⟩
      intro k hk
      rcases (h k).1 hk with hk' | hk'
      · subst hk'
        exact ⟨RoleRequirer, (counterpart_eq_some _ _).2 (Or.inr (Or.inl ⟨rfl, rfl⟩)),
          (h _).2 (Or.inr rfl)⟩
      · subst hk'
        exact ⟨RoleProvider, (counterpart_eq_some _ _).2 (Or.inl ⟨rfl, rfl⟩),
          (h _).2 (Or.inl rfl)⟩

theorem check_ok_iff_raw (r : topoRelation) :
    r.check = .ok () ↔
      r.Interface ≠ "" ∧ r.Services.len ≠ 0 ∧ r.checkLoop r.Services.range = .ok () ∧
        r.Services.len ≤ 2 := by
  unfold topoRelation.check
  by_cases h1 : r.Interface.length = 0
  · have := (string_length_eq_zero _).1 h1
    simp [h1, this]
  · have h1' : r.Interface ≠ "" := fun h => h1 ((string_length_eq_zero _).2 h)
    by_cases h2 : r.Services.len = 0
    · simp [h1, h2]
    · simp only [h1, h2, if_false, ne_eq, h1', not_false_eq_true, true_and]
      cases hl : r.checkLoop r.Services.range with
      | ok u =>
        by_cases h3 : r.Services.len > 2
        · simp [h3]
        · simp [h3]
          omega
      | error e => simp
      | panic => simp

theorem check_ok_iff_proper (r : topoRelation) : r.check = .ok () ↔ r.proper := by
  rw [check_ok_iff_raw, checkLoop_ok_iff]
  have hkeys := roles_closed_iff r.Services.keys r.Services.keys_nodup
  have hlen : r.Services.keys.length = r.Services.len := by
    simp [GoMap.keys, GoMap.len]
  rw [hlen] at hkeys
  unfold topoRelation.proper topoRelation.hasRole
  constructor
  · rintro ⟨hi, hne, hloop, hle⟩
    refine ⟨hi, ?_, hkeys.1 ⟨hne, hle, ?_⟩⟩
    · intro role side hmem
      obtain ⟨s, hs, h1, h2, _⟩ := hloop (role, side) hmem
      exact ⟨s, hs, h1, h2⟩
    · intro k hk
      obtain ⟨e, he, rfl⟩ := List.mem_map.1 hk
      obtain ⟨s, _, _, _, hc⟩ := hloop e he
      exact hc
  · rintro ⟨hi, hsides, hroles⟩
    obtain ⟨hne, hle, hcl⟩ := hkeys.2 hroles
    refine ⟨hi, hne, ?_, hle⟩
    intro e he
    obtain ⟨s, hs, h1, h2⟩ := hsides e.1 e.2 he
    exact ⟨s, hs, h1, h2, hcl e.1 (List.mem_map_of_mem Prod.fst he)⟩

/-- C2: `check` returns nil exactly for the relations with a non-empty interface, every side
set with a non-empty service key and relation name, and roles exactly peer or exactly
provider and requirer.  So it rejects a relation with no sides, with an unknown role, with a
provider but no requirer or a requirer but no provider, with a peer next to a provider or a
requirer, or with more than two sides; and visiting the sides in another order accepts the
same relations. -/
theorem check_accepts_exactly_proper (r : topoRelation) :
    (r.check = .ok () ↔ r.proper) ∧
    (r.Services.len = 0 → r.check ≠ .ok ()) ∧
    (∀ role, r.hasRole role → role ≠ RoleProvider → role ≠ RoleRequirer → role ≠ RolePeer →
      r.check ≠ .ok ()) ∧
    (r.hasRole RoleProvider → ¬ r.hasRole RoleRequirer → r.check ≠ .ok ()) ∧
    (r.hasRole RoleRequirer → ¬ r.hasRole RoleProvider → r.check ≠ .ok ()) ∧
    (r.hasRole RolePeer → r.hasRole RoleProvider ∨ r.hasRole RoleRequirer → r.check ≠ .ok ()) ∧
    (2 < r.Services.len → r.check ≠ .ok ()) ∧
    (∀ r' : topoRelation, r'.Interface = r.Interface →
      r'.Services.range.Perm r.Services.range → (r'.check = .ok () ↔ r.check = .ok ())) := by
  have h1 : RoleRequirer ≠ RoleProvider := by decide
  have h2 : RoleRequirer ≠ RolePeer := by decide
  have h3 : RoleProvider ≠ RolePeer := by decide
  refine ⟨check_ok_iff_proper r, ?_, ?_, ?_, ?_, ?_, ?_, ?_⟩
  · intro h hc
    exact ((check_ok_iff_raw r).1 hc).2.1 h
  · intro role hr ha hb hc hok
    rcases ((check_ok_iff_proper r).1 hok).2.2 with h | h
    · exact hc ((h role).1 hr)
    · rcases (h role).1 hr with h' | h'
      · exact ha h'
      · exact hb h'
  · intro hp hq hok
    rcases ((check_ok_iff_proper r).1 hok).2.2 with h | h
    · exact h3 ((h _).1 hp)
    · exact hq ((h _).2 (Or.inr rfl))
  · intro hq hp hok
    rcases ((check_ok_iff_proper r).1 hok).2.2 with h | h
    · exact h2 ((h _).1 hq)
    · exact hp ((h _).2 (Or.inl rfl))
  · intro hpeer hother hok
    rcases ((check_ok_iff_proper r).1 hok).2.2 with h | h
    · rcases hother with h' | h'
      · exact h3 ((h _).1 h')
      · exact h2 ((h _).1 h')
    · rcases (h _).1 hpeer with h' | h'
      · exact h3 h'.symm
      · exact h2 h'.symm
  · intro h hc
    have := ((check_ok_iff_raw r).1 hc).2.2.2
    omega
  · intro r' hi hperm
    rw [check_ok_iff_proper, check_ok_iff_proper]
    unfold topoRelation.proper topoRelation.hasRole GoMap.keys
    rw [hi]
    have hk : ∀ role, role ∈ r'.Services.range.map Prod.fst ↔ role ∈ r.Services.range.map Prod.fst :=
      fun role => (hperm.map Prod.fst).mem_iff
    have hm : ∀ e, e ∈ r'.Services.range ↔ e ∈ r.Services.range := fun e => hperm.mem_iff
    simp only [hk, hm]

/-! ## Membership and lookup after a map update; the allocation predicates -/

open topology

theorem mem_putKey {K V : Type} [DecidableEq K] {k : K} {v : V} {l : List (K × V)} {e : K × V}
    (h : e ∈ putKey k v l) : e = (k, v) ∨ e ∈ l := by
  induction l with
  | nil => simpa [putKey] using h
  | cons e' rest ih =>
    obtain ⟨k', v'⟩ := e'
    by_cases hk : k' = k
    · simp only [putKey, hk, if_true, List.mem_cons] at h
      rcases h with h | h
      · exact Or.inl h
      · exact Or.inr (List.mem_cons_of_mem _ h)
    · simp only [putKey, hk, if_false, List.mem_cons] at h
      rcases h with h | h
      · exact Or.inr (h ▸ List.mem_cons_self _ _)
      · rcases ih h with h' | h'
        · exact Or.inl h'
        · exact Or.inr (List.mem_cons_of_mem _ h')

theorem GoMap.mem_range_poke {K V : Type} [DecidableEq K] {m : GoMap K V} {k : K} {v : V}
    {e : K × V} (h : e ∈ (m.poke k v).range) : e = (k, v) ∨ e ∈ m.range := by
  cases m with
  | none => simp [GoMap.poke, GoMap.range] at h
  | some cells => exact mem_putKey h

theorem GoMap.get?_poke {K V : Type} [DecidableEq K] (cells : MapCells K V) (k k' : K) (v : V) :
    GoMap.get? (GoMap.poke (some cells) k v) k' = if k = k' then some v else GoMap.get? (some cells) k' :=
  lookupKey_putKey k k' v cells.entries

theorem GoMap.mem_range_delete {K V : Type} [DecidableEq K] {m : GoMap K V} {k : K}
    {e : K × V} : e ∈ (m.delete k).range ↔ e.1 ≠ k ∧ e ∈ m.range := by
  cases m with
  | none => simp [GoMap.delete, GoMap.range]
  | some cells => exact mem_eraseKey k cells.entries e

theorem GoMap.get?_delete {K V : Type} [DecidableEq K] (m : GoMap K V) (k k' : K) :
    (m.delete k).get? k' = if k = k' then none else m.get? k' := by
  cases m with
  | none => simp [GoMap.delete, GoMap.get?, GoMap.range, lookupKey]
  | some cells => exact lookupKey_eraseKey k k' cells.entries

theorem GoMap.get?_mem {K V : Type} [DecidableEq K] {m : GoMap K V} {k : K} {v : V}
    (h : m.get? k = some v) : (k, v) ∈ m.range := lookupKey_mem h

theorem GoMap.get?_of_mem {K V : Type} [DecidableEq K] {m : GoMap K V} {k : K} {v : V}
    (h : (k, v) ∈ m.range) : m.get? k = some v := by
  cases m with
  | none => simp [GoMap.range] at h
  | some cells => exact lookupKey_of_mem cells.nodup h

theorem machinesAllocated_iff (t : topoTopology) :
    machinesAllocated t = true ↔ ∀ k v, (k, v) ∈ t.Machines.range → v ≠ none := by
  unfold machinesAllocated
  rw [List.all_eq_true]
  constructor
  · intro h k v hm hv
    have := h (k, v) hm
    simp [hv] at this
  · intro h e he
    have := h e.1 e.2 he
    cases hv : e.2 with
    | none => exact absurd hv this
    | some _ => rfl

theorem servicesAllocated_iff (t : topoTopology) :
    servicesAllocated t = true ↔ ∀ k v, (k, v) ∈ t.Services.range →
      ∃ svc, v = some svc ∧ ∀ u w, (u, w) ∈ svc.Units.range → w ≠ none := by
  unfold servicesAllocated
  rw [List.all_eq_true]
  constructor
  · intro h k v hm
    have := h (k, v) hm
    cases v with
    | none => simp at this
    | some svc =>
      refine ⟨svc, rfl, ?_⟩
      intro u w hu hw
      simp only [List.all_eq_true] at this
      have := this (u, w) hu
      simp [hw] at this
  · intro h e he
    obtain ⟨svc, hs, hu⟩ := h e.1 e.2 he
    rw [hs]
    simp only [List.all_eq_true]
    intro u hmem
    have := hu u.1 u.2 hmem
    cases hv : u.2 with
    | none => exact absurd hv this
    | some _ => rfl

theorem relationsAllocated_iff (t : topoTopology) :
    relationsAllocated t = true ↔ ∀ k v, (k, v) ∈ t.Relations.range →
      ∃ relation, v = some relation ∧
        ∀ role side, (role, side) ∈ relation.Services.range → side ≠ none := by
  unfold relationsAllocated
  rw [List.all_eq_true]
  constructor
  · intro h k v hm
    have := h (k, v) hm
    cases v with
    | none => simp at this
    | some rel =>
      refine ⟨rel, rfl, ?_⟩
      intro u w hu hw
      simp only [List.all_eq_true] at this
      have := this (u, w) hu
      simp [hw] at this
  · intro h e he
    obtain ⟨rel, hs, hu⟩ := h e.1 e.2 he
    rw [hs]
    simp only [List.all_eq_true]
    intro u hmem
    have := hu u.1 u.2 hmem
    cases hv : u.2 with
    | none => exact absurd hv this
    | some _ => rfl

theorem HasService_iff (t : topoTopology) (k : String) :
    HasService t k = true ↔ ∃ svc, t.Services.get? k = some (some svc) := by
  unfold HasService
  cases h : t.Services.get? k with
  | none => simp
  | some v =>
    cases v with
    | none => simp
    | some svc => simp

theorem HasMachine_iff (t : topoTopology) (k : String) :
    HasMachine t k = true ↔ ∃ m, t.Machines.get? k = some (some m) := by
  unfold HasMachine
  cases h : t.Machines.get? k with
  | none => simp
  | some v =>
    cases v with
    | none => simp
    | some m => exact ⟨fun _ => ⟨m, rfl⟩, fun _ => rfl⟩


/-! ## The operations keep the invariant -/

theorem invariant_of_services_relations (t t' : topoTopology)
    (hS : t'.Services.range = t.Services.range) (hR : t'.Relations.range = t.Relations.range)
    (hM : ∀ k v, (k, v) ∈ t'.Machines.range → v ≠ none) (h : invariant t) : invariant t' := by
  obtain ⟨_, h2, h3⟩ := h
  have hHas : ∀ k, HasService t' k = HasService t k := by
    intro k
    unfold HasService GoMap.get?
    rw [hS]
  refine ⟨hM, ?_, ?_⟩
  · rw [hS]; exact h2
  · unfold relationsReferToServices
    rw [hR]
    intro key v hm
    obtain ⟨rel, hv, hs⟩ := h3 key v hm
    refine ⟨rel, hv, ?_⟩
    intro role side hmem
    obtain ⟨s, hside, hhas⟩ := hs role side hmem
    exact ⟨s, hside, by rw [hHas]; exact hhas⟩

theorem invariant_AddMachine (t : topoTopology) (key : String) (h : invariant t) :
    invariant (AddMachine t key).1 := by
  unfold AddMachine
  cases hM : t.Machines with
  | none =>
    refine invariant_of_services_relations t _ rfl rfl ?_ h
    intro k v hm
    simp [GoMap.range, MapCells.put, MapCells.empty, putKey] at hm
    simp [hm.2]
  | some cells =>
    dsimp only
    split
    · exact h
    · refine invariant_of_services_relations t _ rfl rfl ?_ h
      intro k v hm
      rcases mem_putKey hm with h' | h'
      · simp only [Prod.mk.injEq] at h'
        simp [h'.2]
      · apply h.1 k v
        rw [hM]
        exact h'

theorem invariant_RemoveMachine (t : topoTopology) (key : String) (h : invariant t) :
    invariant (RemoveMachine t key).1 := by
  unfold RemoveMachine
  split
  · exact h
  · exact h
  · exact h
  · refine invariant_of_services_relations t _ rfl rfl ?_ h
    intro k v hm
    exact h.1 k v (GoMap.mem_range_delete.1 hm).2

/-- Growing or rewriting the services keeps the invariant when `HasService` is kept. -/
theorem invariant_of_services_grow (t t' : topoTopology)
    (hM : t'.Machines = t.Machines) (hR : t'.Relations.range = t.Relations.range)
    (hS : ∀ k v, (k, v) ∈ t'.Services.range →
      ∃ svc, v = some svc ∧ ∀ u w, (u, w) ∈ svc.Units.range → w ≠ none)
    (hHas : ∀ k, HasService t k = true → HasService t' k = true)
    (h : invariant t) : invariant t' := by
  obtain ⟨h1, _, h3⟩ := h
  refine ⟨by rw [hM]; exact h1, hS, ?_⟩
  unfold relationsReferToServices
  rw [hR]
  intro key v hm
  obtain ⟨rel, hv, hs⟩ := h3 key v hm
  refine ⟨rel, hv, ?_⟩
  intro role side hmem
  obtain ⟨s, hside, hhas⟩ := hs role side hmem
  exact ⟨s, hside, hHas _ hhas⟩

theorem GoMap.allocate_entries {K V : Type} (m : GoMap K V) : m.allocate.entries = m.range := by
  cases m <;> rfl

theorem invariant_AddService (t : topoTopology) (key name : String) (h : invariant t) :
    invariant (AddService t key name).1 := by
  have h1 : invariant { t with Services := some t.Services.allocate } :=
    invariant_of_services_relations t _ (GoMap.allocate_entries _) rfl h.1 h
  unfold AddService
  dsimp only
  split
  · exact h1
  · split
    · exact h1
    · exact h1
    · refine invariant_of_services_grow t _ rfl rfl ?_ ?_ h
      · intro k v hm
        rcases mem_putKey hm with h' | h'
        · simp only [Prod.mk.injEq] at h'
          refine ⟨_, h'.2, ?_⟩
          intro u w hu
          simp [GoMap.range, MapCells.empty] at hu
        · rw [GoMap.allocate_entries] at h'
          exact h.2.1 k v h'
      · intro k hk
        rw [HasService_iff] at hk ⊢
        obtain ⟨svc, hsvc⟩ := hk
        show ∃ svc, lookupKey k (putKey key _ _) = _
        rw [lookupKey_putKey, GoMap.allocate_entries]
        by_cases hkk : key = k
        · simp [hkk]
        · simp only [hkk, if_false]
          exact ⟨svc, hsvc⟩


theorem putKey_ne_nil {K V : Type} [DecidableEq K] (k : K) (v : V) (l : List (K × V)) :
    putKey k v l ≠ [] := by
  cases l with
  | nil => simp [putKey]
  | cons e rest =>
    obtain ⟨k', v'⟩ := e
    by_cases h : k' = k <;> simp [putKey, h]

theorem sideLoop_ok_false_iff (sk : String) (l : List (RelationRole × Option topoRelationService)) :
    RelationsForService.sideLoop sk l = .ok false ↔
      ∀ e ∈ l, ∃ s, e.2 = some s ∧ s.Service ≠ sk := by
  induction l with
  | nil => simp [RelationsForService.sideLoop]
  | cons e rest ih =>
    obtain ⟨role, side⟩ := e
    cases side with
    | none => simp [RelationsForService.sideLoop]
    | some s =>
      by_cases h : s.Service = sk
      · simp [RelationsForService.sideLoop, h]
      · simp [RelationsForService.sideLoop, h, ih]

theorem sideLoop_ok_true (sk : String) (l : List (RelationRole × Option topoRelationService)) :
    RelationsForService.sideLoop sk l = .ok true →
      ∃ role s, (role, some s) ∈ l ∧ s.Service = sk := by
  induction l with
  | nil => simp [RelationsForService.sideLoop]
  | cons e rest ih =>
    obtain ⟨role, side⟩ := e
    cases side with
    | none => simp [RelationsForService.sideLoop]
    | some s =>
      by_cases h : s.Service = sk
      · intro _
        exact ⟨role, s, List.mem_cons_self _ _, h⟩
      · simp only [RelationsForService.sideLoop, h, if_false]
        intro h'
        obtain ⟨role', s', hm, hs⟩ := ih h'
        exact ⟨role', s', List.mem_cons_of_mem _ hm, hs⟩

theorem sideLoop_ne_error (sk : String) (l : List (RelationRole × Option topoRelationService))
    (e : GoError) : RelationsForService.sideLoop sk l ≠ .error e := by
  induction l with
  | nil => simp [RelationsForService.sideLoop]
  | cons e' rest ih =>
    obtain ⟨role, side⟩ := e'
    cases side with
    | none => simp [RelationsForService.sideLoop]
    | some s =>
      by_cases h : s.Service = sk
      · simp [RelationsForService.sideLoop, h]
      · simp [RelationsForService.sideLoop, h, ih]

theorem relationLoop_empty (sk : String) (l : List (String × Option topoRelation))
    (acc res : MapCells String (Option topoRelation))
    (h : RelationsForService.relationLoop sk l acc = .ok res) (hres : res.entries = []) :
    acc.entries = [] ∧
      ∀ e ∈ l, ∃ rel, e.2 = some rel ∧
        RelationsForService.sideLoop sk rel.Services.range = .ok false := by
  induction l generalizing acc with
  | nil =>
    simp only [RelationsForService.relationLoop, Result.ok.injEq] at h
    subst h
    exact ⟨hres, by simp⟩
  | cons e rest ih =>
    obtain ⟨k, v⟩ := e
    cases v with
    | none => simp [RelationsForService.relationLoop] at h
    | some rel =>
      simp only [RelationsForService.relationLoop] at h
      cases hs : RelationsForService.sideLoop sk rel.Services.range with
      | ok b =>
        rw [hs] at h
        cases b with
        | true =>
          dsimp only at h
          have := (ih _ h).1
          exact absurd this (putKey_ne_nil _ _ _)
        | false =>
          dsimp only at h
          obtain ⟨h1, h2⟩ := ih _ h
          refine ⟨h1, ?_⟩
          intro e he
          rcases List.mem_cons.1 he with he | he
          · subst he
            exact ⟨rel, rfl, hs⟩
          · exact h2 e he
      | error e' => rw [hs] at h; simp at h
      | panic => rw [hs] at h; simp at h

theorem invariant_RemoveService (t : topoTopology) (key : String) (h : invariant t) :
    invariant (RemoveService t key).1 := by
  unfold RemoveService
  split
  · split
    · rename_i relations hrel
      split
      · exact h
      · rename_i hlen
        -- the relations found are none
        unfold RelationsForService at hrel
        split at hrel
        · split at hrel
          · rename_i res hloop
            simp only [Result.ok.injEq] at hrel
            subst hrel
            have hres : res.entries = [] := by
              have : res.entries.length = 0 := by
                simp only [GoMap.len, GoMap.range] at hlen
                omega
              exact List.length_eq_zero.1 this
            obtain ⟨_, hall⟩ := relationLoop_empty key _ _ _ hloop hres
            obtain ⟨h1, h2, h3⟩ := h
            refine ⟨h1, ?_, ?_⟩
            · intro k v hm
              exact h2 k v (GoMap.mem_range_delete.1 hm).2
            · intro k v hm
              obtain ⟨rel, hv, hs⟩ := h3 k v hm
              refine ⟨rel, hv, ?_⟩
              intro role side hmem
              obtain ⟨s, hside, hhas⟩ := hs role side hmem
              refine ⟨s, hside, ?_⟩
              obtain ⟨rel', hv', hfalse⟩ := hall (k, v) hm
              have hrr : rel' = rel := by
                rw [hv] at hv'
                exact (Option.some.inj hv').symm
              subst hrr
              obtain ⟨s', hs', hne⟩ := (sideLoop_ok_false_iff key _).1 hfalse (role, side) hmem
              have hss : s' = s := by
                rw [hside] at hs'
                exact (Option.some.inj hs').symm
              subst hss
              rw [HasService_iff] at hhas ⊢
              obtain ⟨svc, hsvc⟩ := hhas
              refine ⟨svc, ?_⟩
              show (t.Services.delete key).get? _ = _
              rw [GoMap.get?_delete]
              have : ¬ key = s'.Service := fun hk => hne hk.symm
              simp only [this, if_false]
              exact hsvc
          · simp at hrel
          · simp at hrel
        · simp at hrel
        · simp at hrel
    · exact h
    · exact h
  · exact h

theorem invariant_pokeService (t : topoTopology) (k : String) (svc : topoService)
    (hsvc : ∀ u w, (u, w) ∈ svc.Units.range → w ≠ none) (h : invariant t) :
    invariant (pokeService t k svc) := by
  refine invariant_of_services_grow t _ rfl rfl ?_ ?_ h
  · intro k' v hm
    rcases GoMap.mem_range_poke hm with h' | h'
    · simp only [Prod.mk.injEq] at h'
      exact ⟨svc, h'.2, hsvc⟩
    · exact h.2.1 k' v h'
  · intro k' hk
    rw [HasService_iff] at hk ⊢
    obtain ⟨svc', hsvc'⟩ := hk
    show ∃ s, (t.Services.poke k (some svc)).get? k' = _
    cases hS : t.Services with
    | none => rw [hS] at hsvc'; simp [GoMap.get?, GoMap.range, lookupKey] at hsvc'
    | some cells =>
      rw [GoMap.get?_poke]
      by_cases hkk : k = k'
      · simp [hkk]
      · simp only [hkk, if_false]
        rw [hS] at hsvc'
        exact ⟨svc', hsvc'⟩

theorem invariant_units_of_get? (t : topoTopology) (h : invariant t) (k : String)
    (svc : topoService) (hg : t.Services.get? k = some (some svc)) :
    ∀ u w, (u, w) ∈ svc.Units.range → w ≠ none := by
  obtain ⟨svc', hs, hu⟩ := h.2.1 k (some svc) (GoMap.get?_mem hg)
  cases hs
  exact hu

theorem unitPointer_ok {t : topoTopology} {key : unitKey} {svc : topoService}
    {unit : Option topoUnit} (h : unitPointer t key = .ok (svc, unit)) :
    t.Services.get? key.service = some (some svc) := by
  unfold unitPointer at h
  split at h
  · rename_i svc' hsvc
    split at h <;> simp at h <;> rw [hsvc, h.1]
  · simp at h

theorem invariant_AddUnit (t : topoTopology) (key : unitKey) (h : invariant t) :
    invariant (AddUnit t key).1 := by
  unfold AddUnit
  split
  · split
    · rename_i svc hsvc
      split
      · exact h
      · split
        · exact h
        · rename_i units hunits
          refine invariant_pokeService t _ _ ?_ h
          intro u w hm
          rcases mem_putKey hm with h' | h'
          · simp only [Prod.mk.injEq] at h'
            simp [h'.2]
          · refine invariant_units_of_get? t h _ svc hsvc u w ?_
            rw [hunits]
            exact h'
    · exact h
  · exact h

theorem invariant_RemoveUnit (t : topoTopology) (key : unitKey) (h : invariant t) :
    invariant (RemoveUnit t key).1 := by
  unfold RemoveUnit
  split
  · split
    · rename_i svc hsvc
      refine invariant_pokeService t _ _ ?_ h
      intro u w hm
      exact invariant_units_of_get? t h _ svc hsvc u w (GoMap.mem_range_delete.1 hm).2
    · exact h
  · exact h

theorem invariant_AssignUnitToMachine (t : topoTopology) (key : unitKey) (machineKey : String)
    (h : invariant t) : invariant (AssignUnitToMachine t key machineKey).1 := by
  unfold AssignUnitToMachine
  split
  · split
    · split
      · rename_i svc unit hptr
        split
        · exact h
        · refine invariant_pokeService t _ _ ?_ h
          intro u w hm
          rcases GoMap.mem_range_poke hm with h' | h'
          · simp only [Prod.mk.injEq] at h'
            simp [h'.2]
          · exact invariant_units_of_get? t h _ svc (unitPointer_ok hptr) u w h'
      · exact h
    · exact h
  · exact h

theorem invariant_UnassignUnitFromMachine (t : topoTopology) (key : unitKey)
    (h : invariant t) : invariant (UnassignUnitFromMachine t key).1 := by
  unfold UnassignUnitFromMachine
  split
  · split
    · rename_i svc unit hptr
      split
      · exact h
      · refine invariant_pokeService t _ _ ?_ h
        intro u w hm
        rcases GoMap.mem_range_poke hm with h' | h'
        · simp only [Prod.mk.injEq] at h'
          simp [h'.2]
        · exact invariant_units_of_get? t h _ svc (unitPointer_ok hptr) u w h'
    · exact h
  · exact h


theorem assertService_ok_iff (t : topoTopology) (k : String) :
    assertService t k = .ok () ↔ ∃ v, t.Services.get? k = some v := by
  unfold assertService
  cases h : t.Services.get? k <;> simp

theorem assertService_cases (t : topoTopology) (k : String) :
    (assertService t k = .ok () ∧ k ∈ t.Services.keys) ∨
    (assertService t k = .error (.errorf "service with key %q not found" [k]) ∧
      k ∉ t.Services.keys) := by
  unfold assertService
  cases h : t.Services.get? k with
  | none => exact Or.inr ⟨rfl, (lookupKey_eq_none _ _).1 h⟩
  | some v => exact Or.inl ⟨rfl, (mem_keys_iff_get? _ _).2 ⟨v, h⟩⟩

theorem serviceLoop_ok_iff (t : topoTopology)
    (l : List (RelationRole × Option topoRelationService)) :
    AddRelation.serviceLoop t l = .ok () ↔
      ∀ e ∈ l, ∃ s, e.2 = some s ∧ assertService t s.Service = .ok () := by
  induction l with
  | nil => simp [AddRelation.serviceLoop]
  | cons e rest ih =>
    obtain ⟨role, side⟩ := e
    cases side with
    | none => simp [AddRelation.serviceLoop]
    | some s =>
      simp only [AddRelation.serviceLoop, List.mem_cons, forall_eq_or_imp]
      rcases assertService_cases t s.Service with ⟨h, _⟩ | ⟨h, _⟩
      · simp [h, ih]
      · simp [h]

theorem invariant_AddRelation (t : topoTopology) (relationKey : String)
    (relation : Option topoRelation) (h : invariant t) :
    invariant (AddRelation t relationKey relation).1 := by
  have h1 : invariant { t with Relations := some t.Relations.allocate } :=
    invariant_of_services_relations t _ rfl (GoMap.allocate_entries _) h.1 h
  unfold AddRelation
  dsimp only
  split
  · exact h1
  · split
    · exact h1
    · rename_i r
      split
      · rename_i hcheck
        split
        · rename_i hloop
          split
          · obtain ⟨hM, hS, hR⟩ := h
            refine ⟨hM, hS, ?_⟩
            intro k v hm
            rcases mem_putKey hm with h' | h'
            · simp only [Prod.mk.injEq] at h'
              refine ⟨r, h'.2, ?_⟩
              intro role side hmem
              obtain ⟨s, hs, hassert⟩ := (serviceLoop_ok_iff _ _).1 hloop (role, side) hmem
              refine ⟨s, hs, ?_⟩
              obtain ⟨w, hw⟩ := (assertService_ok_iff _ _).1 hassert
              have hw' : t.Services.get? s.Service = some w := hw
              obtain ⟨svc, hsvc, _⟩ := hS _ _ (GoMap.get?_mem hw')
              rw [HasService_iff]
              exact ⟨svc, by rw [← hsvc]; exact hw'⟩
            · rw [GoMap.allocate_entries] at h'
              exact hR k v h'
          · exact h1
        · exact h1
      · exact h1

theorem invariant_RemoveRelation (t : topoTopology) (key : String) (h : invariant t) :
    invariant (RemoveRelation t key) := by
  obtain ⟨hM, hS, hR⟩ := h
  refine ⟨hM, hS, ?_⟩
  intro k v hm
  exact hR k v (GoMap.mem_range_delete.1 hm).2

theorem invariant_apply (t : topoTopology) (op : Op) (h : invariant t) :
    invariant (op.apply t).1 := by
  cases op with
  | AddMachine key => exact invariant_AddMachine t key h
  | RemoveMachine key => exact invariant_RemoveMachine t key h
  | AddService key name => exact invariant_AddService t key name h
  | RemoveService key => exact invariant_RemoveService t key h
  | AddUnit key => exact invariant_AddUnit t key h
  | RemoveUnit key => exact invariant_RemoveUnit t key h
  | AssignUnitToMachine key machineKey => exact invariant_AssignUnitToMachine t key machineKey h
  | UnassignUnitFromMachine key => exact invariant_UnassignUnitFromMachine t key h
  | AddRelation relationKey relation => exact invariant_AddRelation t relationKey relation h
  | RemoveRelation key => exact invariant_RemoveRelation t key h

theorem invariant_run (ops : List Op) (t : topoTopology) (h : invariant t) :
    invariant (run t ops) := by
  induction ops generalizing t with
  | nil => exact h
  | cons op rest ih => exact ih _ (invariant_apply t op h)

theorem invariant_emptyTopology : invariant emptyTopology := by
  refine ⟨?_, ?_, ?_⟩ <;> intro k v hm <;> simp [emptyTopology, GoMap.range] at hm

theorem allocated_of_invariant (t : topoTopology) (h : invariant t) : allocated t = true := by
  obtain ⟨hM, hS, hR⟩ := h
  unfold allocated
  rw [Bool.and_eq_true, Bool.and_eq_true]
  refine ⟨⟨(machinesAllocated_iff t).2 hM, (servicesAllocated_iff t).2 hS⟩, ?_⟩
  rw [relationsAllocated_iff]
  intro k v hm
  obtain ⟨rel, hv, hs⟩ := hR k v hm
  refine ⟨rel, hv, ?_⟩
  intro role side hmem hnone
  obtain ⟨s, hside, _⟩ := hs role side hmem
  rw [hnone] at hside
  exact absurd hside (by simp)


/-! ## Referential integrity of relations (C1) -/

/-- C1: in every topology reached from the empty topology by a finite sequence of calls of
the ten operations, whatever each call returned, every stored relation is set and every side
of it is set and names a service for which `HasService` is true. -/
theorem reachable_relations_refer_to_services (ops : List Op) :
    relationsReferToServices (run emptyTopology ops) :=
  (invariant_run ops emptyTopology invariant_emptyTopology).2.2

/-- Every pointer stored in a topology reached from the empty topology is set. -/
theorem reachable_allocated (ops : List Op) : allocated (run emptyTopology ops) = true :=
  allocated_of_invariant _ (invariant_run ops emptyTopology invariant_emptyTopology)


/-! ## `AddRelation` (C3) -/

theorem sidePointer_eq_some (r : topoRelation) (role : RelationRole) (s : topoRelationService) :
    sidePointer r role = some s ↔ (role, some s) ∈ r.Services.range := by
  unfold sidePointer
  constructor
  · intro h
    split at h
    · rename_i side hside
      subst h
      exact GoMap.get?_mem hside
    · simp at h
  · intro h
    rw [GoMap.get?_of_mem h]

theorem sidePointer_eq_none_of_not_hasRole (r : topoRelation) (role : RelationRole)
    (h : ¬ r.hasRole role) : sidePointer r role = none := by
  unfold sidePointer
  have : r.Services.get? role = none := (lookupKey_eq_none _ _).2 h
  rw [this]

theorem proper_side_of_hasRole (r : topoRelation) (hp : r.proper) (role : RelationRole)
    (h : r.hasRole role) : ∃ s, sidePointer r role = some s := by
  obtain ⟨v, hv⟩ := (mem_keys_iff_get? _ _).1 h
  obtain ⟨s, hs, _⟩ := hp.2.1 role v (GoMap.get?_mem hv)
  subst hs
  exact ⟨s, (sidePointer_eq_some r role s).2 (GoMap.get?_mem hv)⟩

theorem keyCheck_of_proper (r : topoRelation) (hp : r.proper) :
    (AddRelation.keyCheck r = .ok () ∨
      AddRelation.keyCheck r =
        .error (.errorf "provider and requirer keys must not be the same" [])) ∧
    (AddRelation.keyCheck r = .ok () ↔
      (¬ r.hasRole RolePeer → ∀ p q, sidePointer r RoleProvider = some p →
        sidePointer r RoleRequirer = some q → p.Service ≠ q.Service)) := by
  have h2 : RoleRequirer ≠ RolePeer := by decide
  have h3 : RoleProvider ≠ RolePeer := by decide
  rcases hp.2.2 with h | h
  · obtain ⟨s, hs⟩ := proper_side_of_hasRole r hp RolePeer ((h _).2 rfl)
    have hk : AddRelation.keyCheck r = .ok () := by
      unfold AddRelation.keyCheck
      rw [hs]
    refine ⟨Or.inl hk, ?_⟩
    simp only [hk, true_iff]
    intro hno
    exact absurd ((h _).2 rfl) hno
  · have hnp : ¬ r.hasRole RolePeer := by
      intro hc
      rcases (h _).1 hc with h' | h'
      · exact h3 h'.symm
      · exact h2 h'.symm
    obtain ⟨p, hp'⟩ := proper_side_of_hasRole r hp RoleProvider ((h _).2 (Or.inl rfl))
    obtain ⟨q, hq'⟩ := proper_side_of_hasRole r hp RoleRequirer ((h _).2 (Or.inr rfl))
    have hnone := sidePointer_eq_none_of_not_hasRole r RolePeer hnp
    unfold AddRelation.keyCheck
    rw [hnone, hp', hq']
    dsimp only
    by_cases heq : p.Service = q.Service
    · rw [if_pos heq]
      refine ⟨Or.inr rfl, ?_⟩
      constructor
      · intro hc
        exact absurd hc (by simp)
      · intro hall
        exact absurd heq (hall hnp p q rfl rfl)
    · rw [if_neg heq]
      refine ⟨Or.inl rfl, ?_⟩
      simp only [true_iff]
      intro _ p' q' h1 h2
      cases h1
      cases h2
      exact heq


theorem get?_allocate {K V : Type} [DecidableEq K] (m : GoMap K V) (k : K) :
    GoMap.get? (some m.allocate) k = m.get? k := by
  unfold GoMap.get?
  show lookupKey k m.allocate.entries = _
  rw [GoMap.allocate_entries]

theorem GoMap.get?_eq_none {K V : Type} [DecidableEq K] (m : GoMap K V) (k : K) :
    m.get? k = none ↔ k ∉ m.keys := lookupKey_eq_none k m.range

theorem AddRelation_ok_raw (t : topoTopology) (key : String) (r : topoRelation) :
    (AddRelation t key (some r)).2 = .ok () ↔
      t.Relations.get? key = none ∧ r.check = .ok () ∧
        AddRelation.serviceLoop { t with Relations := some t.Relations.allocate }
          r.Services.range = .ok () ∧
        AddRelation.keyCheck r = .ok () := by
  unfold AddRelation
  dsimp only
  rw [get?_allocate]
  cases hg : t.Relations.get? key with
  | some v => simp
  | none =>
    dsimp only
    cases hc : r.check with
    | ok u =>
      dsimp only
      cases hl : AddRelation.serviceLoop { t with Relations := some t.Relations.allocate }
          r.Services.range with
      | ok u' =>
        dsimp only
        cases hk : AddRelation.keyCheck r with
        | ok u'' => simp
        | error e => simp
        | panic => simp
      | error e => simp
      | panic => simp
    | error e => simp
    | panic => simp

theorem AddRelation_ok_state (t : topoTopology) (key : String) (r : topoRelation)
    (h : (AddRelation t key (some r)).2 = .ok ()) :
    (AddRelation t key (some r)).1 =
      { t with Relations := some (t.Relations.allocate.put key (some r)) } := by
  have hraw := (AddRelation_ok_raw t key r).1 h
  obtain ⟨hg, hc, hl, hk⟩ := hraw
  unfold AddRelation
  dsimp only
  rw [get?_allocate, hg]
  dsimp only
  rw [hc]
  dsimp only
  rw [hl]
  dsimp only
  rw [hk]

theorem assertService_ok_iff_mem (t : topoTopology) (k : String) :
    assertService t k = .ok () ↔ k ∈ t.Services.keys := by
  rw [assertService_ok_iff, mem_keys_iff_get?]

theorem AddRelation_ok_iff (t : topoTopology) (key : String) (r : topoRelation) :
    (AddRelation t key (some r)).2 = .ok () ↔
      key ∉ t.Relations.keys ∧ r.check = .ok () ∧
      (∀ role side, (role, side) ∈ r.Services.range →
        ∃ s, side = some s ∧ s.Service ∈ t.Services.keys) ∧
      (¬ r.hasRole RolePeer → ∀ p q, sidePointer r RoleProvider = some p →
        sidePointer r RoleRequirer = some q → p.Service ≠ q.Service) := by
  rw [AddRelation_ok_raw, GoMap.get?_eq_none, serviceLoop_ok_iff]
  have hassert : ∀ k, assertService { t with Relations := some t.Relations.allocate } k
      = assertService t k := fun _ => rfl
  simp only [hassert, assertService_ok_iff_mem]
  constructor
  · rintro ⟨h1, h2, h3, h4⟩
    refine ⟨h1, h2, fun role side hm => h3 (role, side) hm, ?_⟩
    exact (keyCheck_of_proper r ((check_ok_iff_proper r).1 h2)).2.1 h4
  · rintro ⟨h1, h2, h3, h4⟩
    refine ⟨h1, h2, fun e hm => h3 e.1 e.2 hm, ?_⟩
    exact (keyCheck_of_proper r ((check_ok_iff_proper r).1 h2)).2.2 h4


theorem checkLoop_ne_panic (r : topoRelation)
    (l : List (RelationRole × Option topoRelationService))
    (h : ∀ role side, (role, side) ∈ l → side ≠ none) : r.checkLoop l ≠ .panic := by
  induction l with
  | nil => simp [topoRelation.checkLoop]
  | cons e rest ih =>
    obtain ⟨role, side⟩ := e
    have ih' := ih (fun role side hm => h role side (List.mem_cons_of_mem _ hm))
    cases side with
    | none => exact absurd rfl (h role none (List.mem_cons_self _ _))
    | some s =>
      simp only [topoRelation.checkLoop]
      split
      · simp
      · split
        · simp
        · split
          · simp
          · split
            · simp
            · exact ih'

theorem check_ne_panic (r : topoRelation)
    (h : ∀ role side, (role, side) ∈ r.Services.range → side ≠ none) : r.check ≠ .panic := by
  unfold topoRelation.check
  split
  · simp
  · split
    · simp
    · have := checkLoop_ne_panic r r.Services.range h
      split
      · split <;> simp
      · rename_i other hne
        exact this

theorem serviceLoop_ne_panic (t : topoTopology)
    (l : List (RelationRole × Option topoRelationService))
    (h : ∀ role side, (role, side) ∈ l → side ≠ none) :
    AddRelation.serviceLoop t l ≠ .panic := by
  induction l with
  | nil => simp [AddRelation.serviceLoop]
  | cons e rest ih =>
    obtain ⟨role, side⟩ := e
    have ih' := ih (fun role side hm => h role side (List.mem_cons_of_mem _ hm))
    cases side with
    | none => exact absurd rfl (h role none (List.mem_cons_self _ _))
    | some s =>
      simp only [AddRelation.serviceLoop]
      rcases assertService_cases t s.Service with ⟨h', _⟩ | ⟨h', _⟩
      · rw [h']
        exact ih'
      · rw [h']
        simp

theorem AddRelation_ne_panic (t : topoTopology) (key : String) (r : topoRelation)
    (h : ∀ role side, (role, side) ∈ r.Services.range → side ≠ none) :
    (AddRelation t key (some r)).2 ≠ .panic := by
  unfold AddRelation
  dsimp only
  split
  · simp
  · split
    · rename_i hc
      split
      · split
        · simp
        · rename_i other hne
          dsimp only
          rcases (keyCheck_of_proper r ((check_ok_iff_proper r).1 hc)).1 with hk | hk
          · exact absurd hk hne
          · rw [hk]
            simp
      · rename_i other hne
        exact serviceLoop_ne_panic _ _ h
    · rename_i other hne
      exact check_ne_panic r h

theorem Relation_eq_of_get? (t t' : topoTopology) (k : String)
    (h : t'.Relations.get? k = t.Relations.get? k) : Relation t' k = Relation t k := by
  unfold Relation
  rw [h]
  cases h1 : t.Relations with
  | none =>
    have : GoMap.get? (none : GoMap String (Option topoRelation)) k = none := rfl
    rw [this]
    cases t'.Relations <;> rfl
  | some c =>
    cases h2 : t'.Relations with
    | none =>
      rw [h2, h1] at h
      have : GoMap.get? (none : GoMap String (Option topoRelation)) k = none := rfl
      rw [this] at h
      rw [← h]
    | some c' => rfl

/-- C3: `AddRelation(key, relation)` returns nil exactly when the key is not yet a relation
key, the relation passes `check`, every side names an existing service and, without a peer
side, the provider and requirer services differ.  So a provider without a requirer, a
provider and requirer on the same service, and a side naming an absent service all fail
(with an error value when every side pointer is set).  On success `Relation(key)` returns the
relation and every other relation, the machines, the services and the version are unchanged.
A nil relation pointer never gives the nil return. -/
theorem AddRelation_returns_nil_iff (t : topoTopology) (key : String) (r : topoRelation) :
    ((AddRelation t key (some r)).2 = .ok () ↔
      key ∉ t.Relations.keys ∧ r.check = .ok () ∧
      (∀ role side, (role, side) ∈ r.Services.range →
        ∃ s, side = some s ∧ s.Service ∈ t.Services.keys) ∧
      (¬ r.hasRole RolePeer → ∀ p q, sidePointer r RoleProvider = some p →
        sidePointer r RoleRequirer = some q → p.Service ≠ q.Service)) ∧
    (r.hasRole RoleProvider → ¬ r.hasRole RoleRequirer →
      (AddRelation t key (some r)).2 ≠ .ok ()) ∧
    (∀ p q, sidePointer r RoleProvider = some p → sidePointer r RoleRequirer = some q →
      p.Service = q.Service → (AddRelation t key (some r)).2 ≠ .ok ()) ∧
    (∀ role s, (role, some s) ∈ r.Services.range → s.Service ∉ t.Services.keys →
      (AddRelation t key (some r)).2 ≠ .ok ()) ∧
    ((∀ role side, (role, side) ∈ r.Services.range → side ≠ none) →
      (AddRelation t key (some r)).2 ≠ .panic) ∧
    ((AddRelation t key (some r)).2 = .ok () →
      Relation (AddRelation t key (some r)).1 key = .ok r ∧
      (∀ k, k ≠ key →
        (AddRelation t key (some r)).1.Relations.get? k = t.Relations.get? k ∧
        Relation (AddRelation t key (some r)).1 k = Relation t k) ∧
      (AddRelation t key (some r)).1.Machines = t.Machines ∧
      (AddRelation t key (some r)).1.Services = t.Services ∧
      (AddRelation t key (some r)).1.Version = t.Version) ∧
    (AddRelation t key none).2 ≠ .ok () := by
  have h2 : RoleRequirer ≠ RolePeer := by decide
  have h3 : RoleProvider ≠ RolePeer := by decide
  refine ⟨AddRelation_ok_iff t key r, ?_, ?_, ?_, AddRelation_ne_panic t key r, ?_, ?_⟩
  · intro hp hq hok
    have hc := ((AddRelation_ok_iff t key r).1 hok).2.1
    rcases ((check_ok_iff_proper r).1 hc).2.2 with h | h
    · exact h3 ((h _).1 hp)
    · exact hq ((h _).2 (Or.inr rfl))
  · intro p q hp hq heq hok
    obtain ⟨_, hc, _, hd⟩ := (AddRelation_ok_iff t key r).1 hok
    have hprov : r.hasRole RoleProvider :=
      List.mem_map_of_mem Prod.fst ((sidePointer_eq_some r _ p).1 hp)
    rcases ((check_ok_iff_proper r).1 hc).2.2 with h | h
    · exact h3 ((h _).1 hprov)
    · have hnp : ¬ r.hasRole RolePeer := by
        intro hpeer
        rcases (h _).1 hpeer with h' | h'
        · exact h3 h'.symm
        · exact h2 h'.symm
      exact hd hnp p q hp hq heq
  · intro role s hm hno hok
    obtain ⟨_, _, hs, _⟩ := (AddRelation_ok_iff t key r).1 hok
    obtain ⟨s', hs', hmem⟩ := hs role (some s) hm
    cases hs'
    exact hno hmem
  · intro hok
    rw [AddRelation_ok_state t key r hok]
    have hget : ∀ k, GoMap.get? (some (t.Relations.allocate.put key (some r))) k
        = if key = k then some (some r) else t.Relations.get? k := by
      intro k
      show lookupKey k (putKey key (some r) t.Relations.allocate.entries) = _
      rw [lookupKey_putKey, GoMap.allocate_entries]
      rfl
    refine ⟨?_, ?_, rfl, rfl, rfl⟩
    · unfold Relation
      dsimp only
      rw [hget]
      simp
    · intro k hk
      have hk' : ¬ key = k := fun h => hk h.symm
      have hg : GoMap.get? (some (t.Relations.allocate.put key (some r))) k
          = t.Relations.get? k := by
        rw [hget]
        simp [hk']
      exact ⟨hg, Relation_eq_of_get? t _ k hg⟩
  · unfold AddRelation
    dsimp only
    split <;> simp


/-! ## A failing call changes nothing (C4) -/

theorem observe_allocate_services (t : topoTopology) :
    observe { t with Services := some t.Services.allocate } = observe t := by
  unfold observe
  simp only [GoMap.range, GoMap.allocate_entries]

theorem observe_allocate_relations (t : topoTopology) :
    observe { t with Relations := some t.Relations.allocate } = observe t := by
  unfold observe
  simp only [GoMap.range, GoMap.allocate_entries]

theorem AddMachine_fail (t : topoTopology) (key : String)
    (h : (AddMachine t key).2 ≠ .ok ()) : (AddMachine t key).1 = t := by
  unfold AddMachine at h ⊢
  split
  · rename_i hM
    rw [hM] at h
    exact absurd rfl h
  · rename_i cells hM
    rw [hM] at h
    dsimp only at h
    split
    · rfl
    · rename_i hhas
      rw [if_neg hhas] at h
      exact absurd rfl h

theorem RemoveMachine_fail (t : topoTopology) (key : String)
    (h : (RemoveMachine t key).2 ≠ .ok ()) : (RemoveMachine t key).1 = t := by
  unfold RemoveMachine at h ⊢
  split
  · rfl
  · rfl
  · rfl
  · rename_i hm
    rw [hm] at h
    exact absurd rfl h

theorem AddService_fail (t : topoTopology) (key name : String)
    (h : (AddService t key name).2 ≠ .ok ()) :
    (AddService t key name).1 = { t with Services := some t.Services.allocate } := by
  unfold AddService at h ⊢
  dsimp only at h ⊢
  split
  · rfl
  · rename_i hhas
    rw [if_neg hhas] at h
    split
    · rfl
    · rfl
    · rename_i e hk
      rw [hk] at h
      exact absurd rfl h

theorem RemoveService_fail (t : topoTopology) (key : String)
    (h : (RemoveService t key).2 ≠ .ok ()) : (RemoveService t key).1 = t := by
  unfold RemoveService at h ⊢
  split
  · rename_i ha
    rw [ha] at h
    dsimp only at h
    split
    · rename_i relations hr
      rw [hr] at h
      dsimp only at h
      split
      · rfl
      · rename_i hlen
        rw [if_neg hlen] at h
        exact absurd rfl h
    · rfl
    · rfl
  · rfl

theorem AddUnit_fail (t : topoTopology) (key : unitKey)
    (h : (AddUnit t key).2 ≠ .ok ()) : (AddUnit t key).1 = t := by
  unfold AddUnit at h ⊢
  split
  · rename_i ha
    rw [ha] at h
    dsimp only at h
    split
    · rename_i svc hs
      rw [hs] at h
      dsimp only at h
      split
      · rfl
      · rename_i hu
        rw [hu] at h
        dsimp only at h
        split
        · rfl
        · rename_i units hunits
          rw [hunits] at h
          exact absurd rfl h
    · rfl
  · rfl

theorem RemoveUnit_fail (t : topoTopology) (key : unitKey)
    (h : (RemoveUnit t key).2 ≠ .ok ()) : (RemoveUnit t key).1 = t := by
  unfold RemoveUnit at h ⊢
  split
  · rename_i ha
    rw [ha] at h
    dsimp only at h
    split
    · rename_i svc hs
      rw [hs] at h
      exact absurd rfl h
    · rfl
  · rfl

theorem AssignUnitToMachine_fail (t : topoTopology) (key : unitKey) (machineKey : String)
    (h : (AssignUnitToMachine t key machineKey).2 ≠ .ok ()) :
    (AssignUnitToMachine t key machineKey).1 = t := by
  unfold AssignUnitToMachine at h ⊢
  split
  · rename_i ha
    rw [ha] at h
    dsimp only at h
    split
    · rename_i hm
      rw [hm] at h
      dsimp only at h
      split
      · rename_i svc unit hp
        rw [hp] at h
        dsimp only at h
        split
        · rfl
        · rename_i hne
          rw [if_neg hne] at h
          exact absurd rfl h
      · rfl
    · rfl
  · rfl

theorem UnassignUnitFromMachine_fail (t : topoTopology) (key : unitKey)
    (h : (UnassignUnitFromMachine t key).2 ≠ .ok ()) :
    (UnassignUnitFromMachine t key).1 = t := by
  unfold UnassignUnitFromMachine at h ⊢
  split
  · rename_i ha
    rw [ha] at h
    dsimp only at h
    split
    · rename_i svc unit hp
      rw [hp] at h
      dsimp only at h
      split
      · rfl
      · rename_i hne
        rw [if_neg hne] at h
        exact absurd rfl h
    · rfl
  · rfl

theorem AddRelation_fail (t : topoTopology) (key : String) (relation : Option topoRelation)
    (h : (AddRelation t key relation).2 ≠ .ok ()) :
    (AddRelation t key relation).1 = { t with Relations := some t.Relations.allocate } := by
  unfold AddRelation at h ⊢
  dsimp only at h ⊢
  split
  · rfl
  · rename_i hg
    rw [hg] at h
    dsimp only at h
    split
    · rfl
    · rename_i r
      dsimp only at h
      split
      · rename_i hc
        rw [hc] at h
        dsimp only at h
        split
        · rename_i hl
          rw [hl] at h
          dsimp only at h
          split
          · rename_i hk
            rw [hk] at h
            exact absurd rfl h
          · rfl
        · rfl
      · rfl

/-- C4: whenever a call of `AddMachine`, `RemoveMachine`, `AddService`, `RemoveService`,
`AddUnit`, `RemoveUnit`, `AssignUnitToMachine`, `UnassignUnitFromMachine` or `AddRelation`
does not return nil (it returns an error, or panics), the observable content of the
topology (version, machines, services with their names, units and machine assignments,
relations with interface, scope and sides) is what it was before the call. -/
theorem failing_call_keeps_content (t : topoTopology) (op : Op)
    (h : (op.apply t).2 ≠ .ok ()) : observe (op.apply t).1 = observe t := by
  cases op with
  | AddMachine key => exact congrArg observe (AddMachine_fail t key h)
  | RemoveMachine key => exact congrArg observe (RemoveMachine_fail t key h)
  | AddService key name =>
    exact (congrArg observe (AddService_fail t key name h)).trans (observe_allocate_services t)
  | RemoveService key => exact congrArg observe (RemoveService_fail t key h)
  | AddUnit key => exact congrArg observe (AddUnit_fail t key h)
  | RemoveUnit key => exact congrArg observe (RemoveUnit_fail t key h)
  | AssignUnitToMachine key machineKey =>
    exact congrArg observe (AssignUnitToMachine_fail t key machineKey h)
  | UnassignUnitFromMachine key => exact congrArg observe (UnassignUnitFromMachine_fail t key h)
  | AddRelation relationKey relation =>
    exact (congrArg observe (AddRelation_fail t relationKey relation h)).trans
      (observe_allocate_relations t)
  | RemoveRelation key => exact absurd rfl h

/-- Witness for C4: adding a relation with an empty interface to the empty topology fails,
and the content is that of the empty topology although the relations map got allocated. -/
theorem failing_call_keeps_content_witness :
    (Op.apply emptyTopology (.AddRelation "r" (some ⟨"", "global", none⟩))).2 ≠ .ok () ∧
    (Op.apply emptyTopology (.AddRelation "r" (some ⟨"", "global", none⟩))).1 ≠ emptyTopology ∧
    observe (Op.apply emptyTopology (.AddRelation "r" (some ⟨"", "global", none⟩))).1
      = observe emptyTopology :=
  ⟨by decide, by decide, failing_call_keeps_content _ _ (by decide)⟩


/-! ## `RelationKey` (C5, C6, C7) -/

theorem endpointLoop_ok_true_iff (r : topoRelation) (eps : List RelationEndpoint) :
    RelationKey.endpointLoop r eps = .ok true ↔
      ∀ ep ∈ eps, ∃ s, r.Services.get? ep.RelationRole = some (some s) ∧
        s.RelationName = ep.RelationName := by
  induction eps with
  | nil => simp [RelationKey.endpointLoop]
  | cons ep rest ih =>
    simp only [RelationKey.endpointLoop, List.mem_cons, forall_eq_or_imp]
    cases hg : r.Services.get? ep.RelationRole with
    | none => simp
    | some side =>
      cases side with
      | none => simp
      | some s =>
        by_cases hn : s.RelationName = ep.RelationName
        · simp [hn, ih]
        · simp [hn]

theorem endpointLoop_total (r : topoRelation) (eps : List RelationEndpoint)
    (h : ∀ role side, (role, side) ∈ r.Services.range → side ≠ none) :
    RelationKey.endpointLoop r eps = .ok true ∨ RelationKey.endpointLoop r eps = .ok false := by
  induction eps with
  | nil => exact Or.inl rfl
  | cons ep rest ih =>
    simp only [RelationKey.endpointLoop]
    cases hg : r.Services.get? ep.RelationRole with
    | none => exact Or.inr rfl
    | some side =>
      cases side with
      | none => exact absurd rfl (h _ _ (GoMap.get?_mem hg))
      | some s =>
        dsimp only
        split
        · exact Or.inr rfl
        · exact ih

/-- What the scan over the relations returns, when every relation and side pointer is set. -/
theorem relationLoop_spec (first : RelationEndpoint) (eps : List RelationEndpoint)
    (l : List (String × Option topoRelation))
    (hl : ∀ e ∈ l, ∃ r, e.2 = some r ∧
      ∀ role side, (role, side) ∈ r.Services.range → side ≠ none) :
    (∃ k r, RelationKey.relationLoop first eps l = .ok k ∧ (k, some r) ∈ l ∧
        scanAccepts first eps r) ∨
    (RelationKey.relationLoop first eps l = .error (.NoRelationError eps) ∧
      ∀ k r, (k, some r) ∈ l → ¬ scanAccepts first eps r) := by
  induction l with
  | nil =>
    right
    exact ⟨rfl, by simp⟩
  | cons e rest ih =>
    obtain ⟨k, v⟩ := e
    obtain ⟨r, hv, hsides⟩ := hl (k, v) (List.mem_cons_self _ _)
    simp only at hv
    subst hv
    have ih' := ih (fun e he => hl e (List.mem_cons_of_mem _ he))
    have hrej : ¬ scanAccepts first eps r →
        RelationKey.relationLoop first eps ((k, some r) :: rest)
          = RelationKey.relationLoop first eps rest := by
      intro hna
      simp only [RelationKey.relationLoop]
      by_cases hi : r.Interface = first.Interface
      · simp only [hi, ne_eq, not_true_eq_false, if_false]
        rcases endpointLoop_total r eps hsides with ht | hf
        · exact absurd ⟨hi, ht⟩ hna
        · rw [hf]
      · simp [hi]
    by_cases hacc : scanAccepts first eps r
    · left
      refine ⟨k, r, ?_, List.mem_cons_self _ _, hacc⟩
      simp only [RelationKey.relationLoop]
      rw [if_neg (by simp [hacc.1]), hacc.2]
    · rw [hrej hacc]
      rcases ih' with ⟨k', r', hk, hm, ha⟩ | ⟨herr, hnone⟩
      · left
        exact ⟨k', r', hk, List.mem_cons_of_mem _ hm, ha⟩
      · right
        refine ⟨herr, ?_⟩
        intro k' r' hm
        rcases List.mem_cons.1 hm with h | h
        · simp only [Prod.mk.injEq, Option.some.injEq] at h
          rw [h.2]
          exact hacc
        · exact hnone k' r' h

/-- A key the scan returns is the key of a relation the scan accepts, whatever is stored. -/
theorem relationLoop_ok (first : RelationEndpoint) (eps : List RelationEndpoint)
    (l : List (String × Option topoRelation)) (k : String)
    (h : RelationKey.relationLoop first eps l = .ok k) :
    ∃ r, (k, some r) ∈ l ∧ scanAccepts first eps r := by
  induction l with
  | nil => simp [RelationKey.relationLoop] at h
  | cons e rest ih =>
    obtain ⟨k', v⟩ := e
    cases v with
    | none => simp [RelationKey.relationLoop] at h
    | some r =>
      simp only [RelationKey.relationLoop] at h
      by_cases hi : r.Interface = first.Interface
      · simp only [hi, ne_eq, not_true_eq_false, if_false] at h
        cases he : RelationKey.endpointLoop r eps with
        | ok b =>
          rw [he] at h
          cases b with
          | true =>
            simp only [Result.ok.injEq] at h
            subst h
            exact ⟨r, List.mem_cons_self _ _, hi, he⟩
          | false =>
            obtain ⟨r', hm, ha⟩ := ih h
            exact ⟨r', List.mem_cons_of_mem _ hm, ha⟩
        | error e => rw [he] at h; simp at h
        | panic => rw [he] at h; simp at h
      · simp only [ne_eq, hi, not_false_eq_true, if_true] at h
        obtain ⟨r', hm, ha⟩ := ih h
        exact ⟨r', List.mem_cons_of_mem _ hm, ha⟩

theorem scanAccepts_iff_matches_one (e0 : RelationEndpoint) (r : topoRelation) :
    scanAccepts e0 [e0] r ↔ r.matchesEndpoints [e0] := by
  unfold scanAccepts topoRelation.matchesEndpoints
  rw [endpointLoop_ok_true_iff]
  simp

theorem scanAccepts_iff_matches_two (e0 e1 : RelationEndpoint) (r : topoRelation)
    (h : e0.Interface = e1.Interface) :
    scanAccepts e0 [e0, e1] r ↔ r.matchesEndpoints [e0, e1] := by
  unfold scanAccepts topoRelation.matchesEndpoints
  rw [endpointLoop_ok_true_iff]
  simp only [List.mem_cons, List.mem_singleton, List.not_mem_nil, or_false, forall_eq_or_imp,
    forall_eq]
  constructor
  · rintro ⟨hi, h0, h1⟩
    exact ⟨⟨hi, h0⟩, ⟨hi.trans h, h1⟩⟩
  · rintro ⟨⟨hi, h0⟩, ⟨_, h1⟩⟩
    exact ⟨hi, h0, h1⟩

/-- The scan of `RelationKey` and matching agree whenever the scan is reached. -/
theorem RelationKey_scan (t : topoTopology) (eps : List RelationEndpoint)
    (hlen : eps.length = 1 ∨ eps.length = 2) :
    (∃ e0, RelationKey t eps = RelationKey.relationLoop e0 eps t.Relations.range ∧
      ∀ r, scanAccepts e0 eps r ↔ r.matchesEndpoints eps) ∨
    (RelationKey t eps = .error (.NoRelationError eps) ∧
      ∀ r : topoRelation, ¬ r.matchesEndpoints eps) := by
  match eps, hlen with
  | [e0], _ =>
    left
    exact ⟨e0, rfl, scanAccepts_iff_matches_one e0⟩
  | [e0, e1], _ =>
    by_cases h : e0.Interface = e1.Interface
    · left
      refine ⟨e0, ?_, fun r => scanAccepts_iff_matches_two e0 e1 r h⟩
      simp [RelationKey, h]
    · right
      refine ⟨by simp [RelationKey, h], ?_⟩
      intro r hm
      have h0 := (hm e0 (by simp)).1
      have h1 := (hm e1 (by simp)).1
      exact h (h0.symm.trans h1)
  | [], h => simp at h
  | _ :: _ :: _ :: _, h => simp at h

theorem RelationKey_ok_matches (t : topoTopology) (eps : List RelationEndpoint)
    (hlen : eps.length = 1 ∨ eps.length = 2) (k : String) (h : RelationKey t eps = .ok k) :
    ∃ r, (k, some r) ∈ t.Relations.range ∧ r.matchesEndpoints eps := by
  rcases RelationKey_scan t eps hlen with ⟨e0, hscan, hacc⟩ | ⟨herr, _⟩
  · rw [hscan] at h
    obtain ⟨r, hm, ha⟩ := relationLoop_ok e0 eps _ k h
    exact ⟨r, hm, (hacc r).1 ha⟩
  · rw [herr] at h
    exact absurd h (by simp)

theorem relationsAllocated_range (t : topoTopology) (halloc : relationsAllocated t = true) :
    ∀ e ∈ t.Relations.range, ∃ r, e.2 = some r ∧
      ∀ role side, (role, side) ∈ r.Services.range → side ≠ none :=
  fun e he => (relationsAllocated_iff t).1 halloc e.1 e.2 he

theorem RelationKey_of_match (t : topoTopology) (eps : List RelationEndpoint)
    (halloc : relationsAllocated t = true) (hlen : eps.length = 1 ∨ eps.length = 2)
    (h : ∃ k r, (k, some r) ∈ t.Relations.range ∧ r.matchesEndpoints eps) :
    ∃ k, RelationKey t eps = .ok k := by
  obtain ⟨k, r, hm, hmatch⟩ := h
  rcases RelationKey_scan t eps hlen with ⟨e0, hscan, hacc⟩ | ⟨_, hnone⟩
  · rcases relationLoop_spec e0 eps t.Relations.range (relationsAllocated_range t halloc)
      with ⟨k', r', hk', _, _⟩ | ⟨_, hno⟩
    · exact ⟨k', hscan.trans hk'⟩
    · exact absurd ((hacc r).2 hmatch) (hno k r hm)
  · exact absurd hmatch (hnone r)

theorem RelationKey_of_no_match (t : topoTopology) (eps : List RelationEndpoint)
    (halloc : relationsAllocated t = true) (hlen : eps.length = 1 ∨ eps.length = 2)
    (h : ¬ ∃ k r, (k, some r) ∈ t.Relations.range ∧ r.matchesEndpoints eps) :
    RelationKey t eps = .error (.NoRelationError eps) := by
  rcases RelationKey_scan t eps hlen with ⟨e0, hscan, hacc⟩ | ⟨herr, _⟩
  · rcases relationLoop_spec e0 eps t.Relations.range (relationsAllocated_range t halloc)
      with ⟨k', r', _, hm', ha'⟩ | ⟨he, _⟩
    · exact absurd ⟨k', r', hm', (hacc r').1 ha'⟩ h
    · exact hscan.trans he
  · exact herr


theorem endpointLoop_ne_error (r : topoRelation) (eps : List RelationEndpoint) (e : GoError) :
    RelationKey.endpointLoop r eps ≠ .error e := by
  induction eps with
  | nil => simp [RelationKey.endpointLoop]
  | cons ep rest ih =>
    simp only [RelationKey.endpointLoop]
    split
    · simp
    · simp
    · split
      · simp
      · exact ih

theorem relationLoop_error (first : RelationEndpoint) (eps : List RelationEndpoint)
    (l : List (String × Option topoRelation)) (e : GoError)
    (h : RelationKey.relationLoop first eps l = .error e) : e = .NoRelationError eps := by
  induction l with
  | nil =>
    simp only [RelationKey.relationLoop, Result.error.injEq] at h
    exact h.symm
  | cons c rest ih =>
    obtain ⟨k, v⟩ := c
    cases v with
    | none => simp [RelationKey.relationLoop] at h
    | some r =>
      simp only [RelationKey.relationLoop] at h
      split at h
      · exact ih h
      · split at h
        · simp at h
        · exact ih h
        · rename_i e' he
          exact absurd he (endpointLoop_ne_error r eps e')
        · simp at h

theorem matchesEndpoints_swap (r : topoRelation) (e1 e2 : RelationEndpoint) :
    r.matchesEndpoints [e1, e2] ↔ r.matchesEndpoints [e2, e1] := by
  unfold topoRelation.matchesEndpoints
  simp only [List.mem_cons, List.mem_singleton, List.not_mem_nil, or_false, forall_eq_or_imp,
    forall_eq]
  exact and_comm

theorem RelationKey_ok_or_error (t : topoTopology) (eps : List RelationEndpoint)
    (halloc : relationsAllocated t = true) (hlen : eps.length = 1 ∨ eps.length = 2) :
    (∃ k, RelationKey t eps = .ok k) ∨ RelationKey t eps = .error (.NoRelationError eps) := by
  by_cases h : ∃ k r, (k, some r) ∈ t.Relations.range ∧ r.matchesEndpoints eps
  · exact Or.inl (RelationKey_of_match t eps halloc hlen h)
  · exact Or.inr (RelationKey_of_no_match t eps halloc hlen h)

theorem RelationKey_swap_ok (t : topoTopology) (e1 e2 : RelationEndpoint)
    (halloc : relationsAllocated t = true) (h : ∃ k, RelationKey t [e1, e2] = .ok k) :
    ∃ k, RelationKey t [e2, e1] = .ok k := by
  obtain ⟨k, hk⟩ := h
  obtain ⟨r, hm, hmatch⟩ := RelationKey_ok_matches t [e1, e2] (Or.inr rfl) k hk
  exact RelationKey_of_match t [e2, e1] halloc (Or.inr rfl)
    ⟨k, r, hm, (matchesEndpoints_swap r e1 e2).1 hmatch⟩

theorem RelationKey_swap_error (t : topoTopology) (e1 e2 : RelationEndpoint)
    (halloc : relationsAllocated t = true) (h : (RelationKey t [e1, e2]).isError = true) :
    (RelationKey t [e2, e1]).isError = true := by
  rcases RelationKey_ok_or_error t [e2, e1] halloc (Or.inr rfl) with hok | herr
  · obtain ⟨k, hk⟩ := RelationKey_swap_ok t e2 e1 halloc hok
    rw [hk] at h
    exact absurd h (by simp [Result.isError])
  · rw [herr]
    rfl


/-! ## Machines (C8, C9) -/

theorem run_append (t : topoTopology) (l1 l2 : List Op) :
    run t (l1 ++ l2) = run (run t l1) l2 := by
  induction l1 generalizing t with
  | nil => rfl
  | cons op rest ih => exact ih _

theorem addedNotRemoved_append (calls : List MachineOp) (op : MachineOp) (k : String) :
    addedNotRemoved (calls ++ [op]) k ↔
      op = .add k ∨ (addedNotRemoved calls k ∧ op ≠ .remove k) := by
  unfold addedNotRemoved
  constructor
  · rintro ⟨pre, post, hsplit, hno⟩
    rcases List.eq_nil_or_concat post with hp | ⟨post', last, hp⟩
    · subst hp
      left
      have := (List.append_inj' hsplit rfl).2
      simpa using this
    · rw [List.concat_eq_append] at hp
      subst hp
      right
      have h' : calls ++ [op] = (pre ++ MachineOp.add k :: post') ++ [last] := by
        rw [hsplit]
        simp
      obtain ⟨h1, h2⟩ := List.append_inj' h' rfl
      have h2 : op = last := List.singleton_inj.1 h2
      have hno1 : MachineOp.remove k ∉ post' := fun h => hno (List.mem_append_left _ h)
      have hno2 : last ≠ MachineOp.remove k :=
        fun h => hno (List.mem_append_right _ (List.mem_singleton.2 h.symm))
      refine ⟨⟨pre, post', h1, hno1⟩, ?_⟩
      rw [h2]
      exact hno2
  · rintro (h | ⟨⟨pre, post, hsplit, hno⟩, hne⟩)
    · subst h
      exact ⟨calls, [], rfl, by simp⟩
    · refine ⟨pre, post ++ [op], by simp [hsplit], ?_⟩
      simp only [List.mem_append, List.mem_singleton, not_or]
      exact ⟨hno, fun h => hne h.symm⟩

theorem HasMachine_AddMachine (t : topoTopology) (k k' : String) :
    HasMachine (AddMachine t k').1 k = true ↔ k = k' ∨ HasMachine t k = true := by
  unfold AddMachine
  cases hM : t.Machines with
  | none =>
    have hfalse : HasMachine t k = false := by
      simp [HasMachine, hM, GoMap.get?, GoMap.range, lookupKey]
    rw [hfalse]
    simp only [HasMachine, GoMap.get?, GoMap.range, MapCells.put, MapCells.empty, putKey,
      lookupKey]
    by_cases h : k' = k
    · simp [h]
    · have h' : ¬ k = k' := fun hk => h hk.symm
      simp [h, h']
  | some cells =>
    dsimp only
    by_cases hhas : HasMachine t k' = true
    · rw [if_pos hhas]
      constructor
      · exact Or.inr
      · rintro (h | h)
        · rw [h]; exact hhas
        · exact h
    · rw [if_neg hhas]
      rw [HasMachine_iff, HasMachine_iff]
      have hget : ∀ k, GoMap.get? (some (cells.put k' (some topoMachine.mk))) k
          = if k' = k then some (some topoMachine.mk) else t.Machines.get? k := by
        intro k
        rw [hM]
        exact lookupKey_putKey k' k _ cells.entries
      simp only [hget]
      by_cases h : k' = k
      · simp only [h, if_true, true_or, iff_true]
        exact ⟨topoMachine.mk, trivial⟩
      · have h' : ¬ k = k' := fun hk => h hk.symm
        simp [h, h']

theorem MachineHasUnits_no_services (t : topoTopology) (k : String) (hS : t.Services = none) :
    MachineHasUnits t k =
      match t.Machines.get? k with
      | none => .error (.errorf "machine with key %q not found" [k])
      | some _ => .ok false := by
  unfold MachineHasUnits assertMachine
  cases t.Machines.get? k with
  | none => rfl
  | some v =>
    dsimp only
    rw [hS]
    rfl

theorem HasMachine_RemoveMachine (t : topoTopology) (k k' : String) (hS : t.Services = none) :
    HasMachine (RemoveMachine t k').1 k = true ↔ k ≠ k' ∧ HasMachine t k = true := by
  unfold RemoveMachine
  rw [MachineHasUnits_no_services t k' hS]
  cases hg : t.Machines.get? k' with
  | none =>
    dsimp only
    constructor
    · intro h
      refine ⟨?_, h⟩
      intro hk
      subst hk
      simp [HasMachine, hg] at h
    · exact fun h => h.2
  | some v =>
    dsimp only
    rw [HasMachine_iff, HasMachine_iff]
    show (∃ m, (t.Machines.delete k').get? k = _) ↔ _
    rw [GoMap.get?_delete]
    by_cases h : k' = k
    · simp [h]
    · have h' : ¬ k = k' := fun hk => h hk.symm
      simp [h, h']

theorem Services_AddMachine (t : topoTopology) (k : String) :
    (AddMachine t k).1.Services = t.Services := by
  unfold AddMachine
  split
  · rfl
  · split <;> rfl

theorem Services_RemoveMachine (t : topoTopology) (k : String) :
    (RemoveMachine t k).1.Services = t.Services := by
  unfold RemoveMachine
  split <;> rfl

theorem Services_run_machineOps (calls : List MachineOp) (t : topoTopology) :
    (run t (calls.map MachineOp.toOp)).Services = t.Services := by
  induction calls generalizing t with
  | nil => rfl
  | cons op rest ih =>
    simp only [List.map_cons, run]
    rw [ih]
    cases op with
    | add k => exact Services_AddMachine t k
    | remove k => exact Services_RemoveMachine t k

theorem HasMachine_run_machineOps (calls : List MachineOp) (k : String) :
    HasMachine (run emptyTopology (calls.map MachineOp.toOp)) k = true ↔
      addedNotRemoved calls k := by
  induction calls using List.reverseRecOn with
  | nil =>
    simp [run, addedNotRemoved, HasMachine, emptyTopology, GoMap.get?, GoMap.range, lookupKey]
  | append_singleton calls op ih =>
    rw [List.map_append, run_append, addedNotRemoved_append, ← ih]
    have hS : (run emptyTopology (calls.map MachineOp.toOp)).Services = none :=
      Services_run_machineOps calls emptyTopology
    cases op with
    | add k' =>
      simp only [List.map_cons, List.map_nil, run, MachineOp.toOp, Op.apply]
      rw [HasMachine_AddMachine]
      simp only [MachineOp.add.injEq, ne_eq, reduceCtorEq, not_false_eq_true, and_true]
      constructor
      · rintro (h | h)
        · exact Or.inl h.symm
        · exact Or.inr h
      · rintro (h | h)
        · exact Or.inl h.symm
        · exact Or.inr h
    | remove k' =>
      simp only [List.map_cons, List.map_nil, run, MachineOp.toOp, Op.apply]
      rw [HasMachine_RemoveMachine _ _ _ hS]
      simp only [reduceCtorEq, ne_eq, MachineOp.remove.injEq, false_or]
      constructor
      · rintro ⟨h1, h2⟩
        exact ⟨h2, fun h => h1 h.symm⟩
      · rintro ⟨h1, h2⟩
        exact ⟨fun h => h2 h.symm, h1⟩


theorem AddMachine_result (t : topoTopology) (k : String) :
    (AddMachine t k).2 =
      if HasMachine t k = true then
        .error (.errorf "attempted to add duplicated machine %q" [k])
      else .ok () := by
  unfold AddMachine
  cases hM : t.Machines with
  | none =>
    have hfalse : HasMachine t k = false := by
      simp [HasMachine, hM, GoMap.get?, GoMap.range, lookupKey]
    simp [hfalse]
  | some cells =>
    dsimp only
    split <;> rfl

theorem RemoveMachine_result_no_services (t : topoTopology) (k : String)
    (hS : t.Services = none) (hM : ∀ k v, (k, v) ∈ t.Machines.range → v ≠ none) :
    (RemoveMachine t k).2 =
      if HasMachine t k = true then .ok ()
      else .error (.errorf "machine with key %q not found" [k]) := by
  unfold RemoveMachine
  rw [MachineHasUnits_no_services t k hS]
  cases hg : t.Machines.get? k with
  | none => simp [HasMachine, hg]
  | some v =>
    cases v with
    | none => exact absurd rfl (hM k none (GoMap.get?_mem hg))
    | some m => simp [HasMachine, hg]


theorem UnitMachineKey_ok_iff (t : topoTopology) (u : unitKey) (m : String) :
    UnitMachineKey t u = .ok m ↔
      m ≠ "" ∧ ∃ svc unit, t.Services.get? u.service = some (some svc) ∧
        svc.Units.get? u.unit = some (some unit) ∧ unit.Machine = m := by
  constructor
  · intro h
    unfold UnitMachineKey assertUnit assertService unitPointer at h
    cases hs : t.Services.get? u.service with
    | none => rw [hs] at h; simp at h
    | some v =>
      cases v with
      | none => rw [hs] at h; simp at h
      | some svc =>
        rw [hs] at h
        dsimp only at h
        cases hu : svc.Units.get? u.unit with
        | none => rw [hu] at h; simp at h
        | some w =>
          cases w with
          | none => rw [hu] at h; simp at h
          | some unit =>
            rw [hu] at h
            dsimp only at h
            by_cases hm : unit.Machine = ""
            · rw [if_pos hm] at h
              exact absurd h (by simp)
            · rw [if_neg hm] at h
              simp only [Result.ok.injEq] at h
              exact ⟨h ▸ hm, svc, unit, rfl, hu, h⟩
  · rintro ⟨hm, svc, unit, h1, h2, h3⟩
    unfold UnitMachineKey assertUnit assertService unitPointer
    rw [h1]
    dsimp only
    rw [h2]
    dsimp only
    subst h3
    rw [if_neg hm]

theorem UnitMachineKey_ne_empty (t : topoTopology) (u : unitKey) :
    UnitMachineKey t u ≠ .ok "" := by
  intro h
  exact ((UnitMachineKey_ok_iff t u "").1 h).1 rfl

theorem unitOnMachine_iff (t : topoTopology) (key : String) (hkey : key ≠ "") :
    unitOnMachine t key ↔ ∃ u, UnitMachineKey t u = .ok key := by
  unfold unitOnMachine
  constructor
  · rintro ⟨sk, svc, uk, unit, h1, h2, h3⟩
    refine ⟨⟨sk, uk⟩, (UnitMachineKey_ok_iff t _ key).2 ⟨hkey, svc, unit, ?_, ?_, h3⟩⟩
    · exact GoMap.get?_of_mem h1
    · exact GoMap.get?_of_mem h2
  · rintro ⟨u, hu⟩
    obtain ⟨_, svc, unit, h1, h2, h3⟩ := (UnitMachineKey_ok_iff t u key).1 hu
    exact ⟨u.service, svc, u.unit, unit, GoMap.get?_mem h1, GoMap.get?_mem h2, h3⟩

theorem unitLoop_spec (key : String) (l : List (String × Option topoUnit))
    (hl : ∀ u w, (u, w) ∈ l → w ≠ none) :
    (MachineHasUnits.unitLoop key l = .ok true ∧
        ∃ uk unit, (uk, some unit) ∈ l ∧ unit.Machine = key) ∨
    (MachineHasUnits.unitLoop key l = .ok false ∧
        ∀ uk unit, (uk, some unit) ∈ l → unit.Machine ≠ key) := by
  induction l with
  | nil => exact Or.inr ⟨rfl, by simp⟩
  | cons e rest ih =>
    obtain ⟨uk, w⟩ := e
    cases w with
    | none => exact absurd rfl (hl uk none (List.mem_cons_self _ _))
    | some unit =>
      simp only [MachineHasUnits.unitLoop]
      by_cases hm : unit.Machine = key
      · left
        exact ⟨by simp [hm], uk, unit, List.mem_cons_self _ _, hm⟩
      · rw [if_neg hm]
        rcases ih (fun u w h => hl u w (List.mem_cons_of_mem _ h)) with
          ⟨h1, uk', unit', h2, h3⟩ | ⟨h1, h2⟩
        · exact Or.inl ⟨h1, uk', unit', List.mem_cons_of_mem _ h2, h3⟩
        · right
          refine ⟨h1, ?_⟩
          intro uk' unit' hmem
          rcases List.mem_cons.1 hmem with h | h
          · simp only [Prod.mk.injEq, Option.some.injEq] at h
            rw [h.2]
            exact hm
          · exact h2 uk' unit' h

theorem serviceLoop_spec (key : String) (l : List (String × Option topoService))
    (hl : ∀ k v, (k, v) ∈ l →
      ∃ svc, v = some svc ∧ ∀ u w, (u, w) ∈ svc.Units.range → w ≠ none) :
    (MachineHasUnits.serviceLoop key l = .ok true ∧
        ∃ sk svc uk unit, (sk, some svc) ∈ l ∧ (uk, some unit) ∈ svc.Units.range ∧
          unit.Machine = key) ∨
    (MachineHasUnits.serviceLoop key l = .ok false ∧
        ∀ sk svc uk unit, (sk, some svc) ∈ l → (uk, some unit) ∈ svc.Units.range →
          unit.Machine ≠ key) := by
  induction l with
  | nil => exact Or.inr ⟨rfl, by simp⟩
  | cons e rest ih =>
    obtain ⟨sk, v⟩ := e
    obtain ⟨svc, hv, hunits⟩ := hl sk v (List.mem_cons_self _ _)
    subst hv
    simp only [MachineHasUnits.serviceLoop]
    rcases unitLoop_spec key svc.Units.range hunits with ⟨h1, uk, unit, h2, h3⟩ | ⟨h1, h2⟩
    · left
      rw [h1]
      exact ⟨rfl, sk, svc, uk, unit, List.mem_cons_self _ _, h2, h3⟩
    · rw [h1]
      dsimp only
      rcases ih (fun k v h => hl k v (List.mem_cons_of_mem _ h)) with
        ⟨h1', sk', svc', uk', unit', h2', h3', h4'⟩ | ⟨h1', h2'⟩
      · exact Or.inl ⟨h1', sk', svc', uk', unit', List.mem_cons_of_mem _ h2', h3', h4'⟩
      · right
        refine ⟨h1', ?_⟩
        intro sk' svc' uk' unit' hmem hu
        rcases List.mem_cons.1 hmem with h | h
        · simp only [Prod.mk.injEq, Option.some.injEq] at h
          rw [h.2] at hu
          exact h2 uk' unit' hu
        · exact h2' sk' svc' uk' unit' h hu

theorem assertMachine_cases (t : topoTopology) (k : String) :
    (assertMachine t k = .ok () ∧ k ∈ t.Machines.keys) ∨
    (assertMachine t k = .error (.errorf "machine with key %q not found" [k]) ∧
      k ∉ t.Machines.keys) := by
  unfold assertMachine
  cases h : t.Machines.get? k with
  | none => exact Or.inr ⟨rfl, (lookupKey_eq_none _ _).1 h⟩
  | some v => exact Or.inl ⟨rfl, (mem_keys_iff_get? _ _).2 ⟨v, h⟩⟩

/-- What `RemoveMachine` does on a topology whose service and unit pointers are set. -/
theorem RemoveMachine_spec (t : topoTopology) (key : String)
    (halloc : servicesAllocated t = true) :
    (key ∉ t.Machines.keys ∧
      RemoveMachine t key = (t, .error (.errorf "machine with key %q not found" [key]))) ∨
    (key ∈ t.Machines.keys ∧ unitOnMachine t key ∧
      RemoveMachine t key =
        (t, .error (.errorf "can't remove machine %q while units ared assigned" [key]))) ∨
    (key ∈ t.Machines.keys ∧ ¬ unitOnMachine t key ∧
      RemoveMachine t key = ({ t with Machines := t.Machines.delete key }, .ok ())) := by
  unfold RemoveMachine MachineHasUnits
  rcases assertMachine_cases t key with ⟨h, hmem⟩ | ⟨h, hmem⟩
  · rw [h]
    dsimp only
    rcases serviceLoop_spec key t.Services.range ((servicesAllocated_iff t).1 halloc) with
      ⟨h1, hex⟩ | ⟨h1, hall⟩
    · rw [h1]
      exact Or.inr (Or.inl ⟨hmem, hex, rfl⟩)
    · rw [h1]
      refine Or.inr (Or.inr ⟨hmem, ?_, rfl⟩)
      rintro ⟨sk, svc, uk, unit, h2, h3, h4⟩
      exact hall sk svc uk unit h2 h3 h4
  · rw [h]
    exact Or.inl ⟨hmem, rfl⟩


theorem Unassign_of_assigned (t : topoTopology) (u : unitKey) (svc : topoService)
    (unit : topoUnit) (h1 : t.Services.get? u.service = some (some svc))
    (h2 : svc.Units.get? u.unit = some (some unit)) (hm : unit.Machine ≠ "") :
    UnassignUnitFromMachine t u =
      (pokeService t u.service
        { svc with Units := svc.Units.poke u.unit (some { unit with Machine := "" }) },
        .ok ()) := by
  unfold UnassignUnitFromMachine assertUnit assertService unitPointer
  rw [h1]
  dsimp only
  rw [h2]
  dsimp only
  rw [if_neg hm]

theorem get?_some_is_some {K V : Type} [DecidableEq K] {m : GoMap K V} {k : K} {v : V}
    (h : m.get? k = some v) : ∃ cells, m = some cells := by
  cases m with
  | none => simp [GoMap.get?, GoMap.range, lookupKey] at h
  | some cells => exact ⟨cells, rfl⟩

theorem get?_pokeService (t : topoTopology) (k k' : String) (svc : topoService)
    (v : Option topoService) (h : t.Services.get? k = some v) :
    (pokeService t k svc).Services.get? k' =
      if k = k' then some (some svc) else t.Services.get? k' := by
  obtain ⟨cells, hc⟩ := get?_some_is_some h
  unfold pokeService
  dsimp only
  rw [hc]
  exact GoMap.get?_poke cells k k' (some svc)

theorem get?_poke_of_get? {K V : Type} [DecidableEq K] (m : GoMap K V) (k k' : K) (v w : V)
    (h : m.get? k = some w) :
    (m.poke k v).get? k' = if k = k' then some v else m.get? k' := by
  obtain ⟨cells, hc⟩ := get?_some_is_some h
  rw [hc]
  exact GoMap.get?_poke cells k k' v

theorem servicesAllocated_pokeService (t : topoTopology) (k : String) (svc : topoService)
    (hsvc : ∀ u w, (u, w) ∈ svc.Units.range → w ≠ none)
    (h : servicesAllocated t = true) : servicesAllocated (pokeService t k svc) = true := by
  rw [servicesAllocated_iff] at h ⊢
  intro k' v hm
  rcases GoMap.mem_range_poke hm with h' | h'
  · simp only [Prod.mk.injEq] at h'
    exact ⟨svc, h'.2, hsvc⟩
  · exact h k' v h'

/-- After the only unit assigned to a machine is unassigned, no unit is on that machine. -/
theorem unassign_last_unit (t : topoTopology) (key : String) (u : unitKey)
    (halloc : servicesAllocated t = true) (hu : UnitMachineKey t u = .ok key)
    (hlast : ∀ u', UnitMachineKey t u' = .ok key → u' = u) :
    (UnassignUnitFromMachine t u).2 = .ok () ∧
    (UnassignUnitFromMachine t u).1.Machines = t.Machines ∧
    servicesAllocated (UnassignUnitFromMachine t u).1 = true ∧
    ¬ unitOnMachine (UnassignUnitFromMachine t u).1 key := by
  obtain ⟨hkey, svc, unit, h1, h2, h3⟩ := (UnitMachineKey_ok_iff t u key).1 hu
  have hm : unit.Machine ≠ "" := by rw [h3]; exact hkey
  rw [Unassign_of_assigned t u svc unit h1 h2 hm]
  have hunits : ∀ a w, (a, w) ∈ svc.Units.range → w ≠ none := by
    obtain ⟨svc', hs', hu'⟩ := (servicesAllocated_iff t).1 halloc _ _ (GoMap.get?_mem h1)
    cases hs'
    exact hu'
  refine ⟨rfl, rfl, ?_, ?_⟩
  · refine servicesAllocated_pokeService t _ _ ?_ halloc
    intro a w hmem
    rcases GoMap.mem_range_poke hmem with h' | h'
    · simp only [Prod.mk.injEq] at h'
      simp [h'.2]
    · exact hunits a w h'
  · rintro ⟨sk, svc', uk, unit', hs, hun, hmach⟩
    have hs' := GoMap.get?_of_mem hs
    rw [get?_pokeService t _ sk _ _ h1] at hs'
    by_cases hsk : u.service = sk
    · rw [if_pos hsk] at hs'
      simp only [Option.some.injEq] at hs'
      subst hs'
      have hun' := GoMap.get?_of_mem hun
      dsimp only at hun'
      rw [get?_poke_of_get? svc.Units u.unit uk _ _ h2] at hun'
      by_cases huk : u.unit = uk
      · rw [if_pos huk] at hun'
        simp only [Option.some.injEq] at hun'
        subst hun'
        exact hkey hmach.symm
      · rw [if_neg huk] at hun'
        have := hlast ⟨u.service, uk⟩
          ((UnitMachineKey_ok_iff t _ key).2 ⟨hkey, svc, unit', h1, hun', hmach⟩)
        exact huk (by rw [← this])
    · rw [if_neg hsk] at hs'
      have := hlast ⟨sk, uk⟩
        ((UnitMachineKey_ok_iff t _ key).2
          ⟨hkey, svc', unit', hs', GoMap.get?_of_mem hun, hmach⟩)
      exact hsk (by rw [← this])


/-! ## Sorted key listings (C10) -/

theorem data_le_iff (a b : String) : a.data ≤ b.data ↔ a ≤ b :=
  String.le_iff_toList_le.symm

theorem sortStrings_eq (keys : List String) :
    sortStrings keys = keys.insertionSort (· ≤ ·) := by
  unfold sortStrings
  induction keys with
  | nil => rfl
  | cons a rest ih =>
    simp only [List.insertionSort]
    rw [ih]
    generalize List.insertionSort (· ≤ ·) rest = l
    induction l with
    | nil => rfl
    | cons b l ihl =>
      simp only [List.orderedInsert, data_le_iff, ihl]

theorem sortStrings_perm (keys : List String) : (sortStrings keys).Perm keys := by
  rw [sortStrings_eq]
  exact List.perm_insertionSort _ _

theorem sortStrings_sorted (keys : List String) (hnd : keys.Nodup) :
    (sortStrings keys).Sorted (· < ·) := by
  have h1 : (sortStrings keys).Sorted (· ≤ ·) := by
    rw [sortStrings_eq]
    exact List.sorted_insertionSort _ _
  exact h1.lt_of_le ((sortStrings_perm keys).nodup_iff.2 hnd)

theorem sortStrings_of_perm (keys keys' : List String) (hnd : keys.Nodup)
    (h : keys'.Perm keys) : sortStrings keys' = sortStrings keys := by
  have hnd' : keys'.Nodup := h.nodup_iff.2 hnd
  exact List.eq_of_perm_of_sorted
    (((sortStrings_perm keys').trans h).trans (sortStrings_perm keys).symm)
    (sortStrings_sorted keys' hnd') (sortStrings_sorted keys hnd)


theorem listsKeysAscending_sortStrings {V : Type} (m : GoMap String V) :
    listsKeysAscending m (some (sortStrings m.keys)) := by
  have hperm := sortStrings_perm m.keys
  have hsorted := sortStrings_sorted m.keys m.keys_nodup
  refine ⟨_, rfl, hsorted, fun k => hperm.mem_iff, ?_⟩
  intro k hk
  exact List.count_eq_one_of_mem (hperm.nodup_iff.2 m.keys_nodup) (hperm.mem_iff.2 hk)

theorem sortStrings_keys_of_len_zero {V : Type} (m : GoMap String V) (h : m.len = 0) :
    sortStrings m.keys = [] := by
  have : m.range = [] := List.length_eq_zero.1 h
  simp [GoMap.keys, this, sortStrings]


/-! ## The definitions on concrete relations -/

/-- The relation of the endpoint resolution scenario passes `check`; a provider without a
requirer, a peer next to a provider, and a side whose pointer is nil do not. -/
theorem check_examples :
    httpRelation.check = .ok () ∧
    topoRelation.check ⟨"http", "global",
        some ⟨[(RoleProvider, some ⟨"svc-a", "website"⟩)], by decide⟩⟩
      = .error (.errorf "relation has %s but no %s" [RoleProvider, RoleRequirer]) ∧
    topoRelation.check ⟨"http", "global",
        some ⟨[(RolePeer, some ⟨"svc-a", "ring"⟩), (RoleProvider, some ⟨"svc-b", "website"⟩)],
          by decide⟩⟩
      = .error (.errorf "relation has %s but no %s" [RoleProvider, RoleRequirer]) ∧
    topoRelation.check ⟨"http", "global", some ⟨[(RolePeer, none)], by decide⟩⟩ = .panic := by
  decide

/-- Adding the scenario relation succeeds once both services exist, and fails when the key
is taken, when a service is missing, and when both sides name the same service. -/
theorem AddRelation_examples :
    (topology.AddRelation httpTopology "relation-1" (some httpRelation)).2 = .ok () ∧
    (topology.AddRelation httpTopology "relation-0" (some httpRelation)).2
      = .error (.errorf "relation key %q already in use" ["relation-0"]) ∧
    (topology.AddRelation emptyTopology "relation-0" (some httpRelation)).2
      = .error (.errorf "service with key %q not found" ["svc-a"]) ∧
    (topology.AddRelation httpTopology "relation-1" (some ⟨"http", "global",
        some ⟨[(RoleProvider, some ⟨"svc-a", "website"⟩),
          (RoleRequirer, some ⟨"svc-a", "website"⟩)], by decide⟩⟩)).2
      = .error (.errorf "provider and requirer keys must not be the same" []) := by
  decide

/-- C5, amended: for one or two endpoints, on a topology whose relation and side pointers are
all set, `RelationKey` returns a key exactly when some stored relation matches; a key it returns
is the key of a matching relation, so the key of the only matching relation when there is
exactly one; and when none matches it fails with a `NoRelationError`. -/
theorem RelationKey_finds_matching (t : topoTopology) (eps : List RelationEndpoint)
    (halloc : relationsAllocated t = true) (hlen : eps.length = 1 ∨ eps.length = 2) :
    ((∃ k, RelationKey t eps = .ok k) ↔
      ∃ k r, (k, some r) ∈ t.Relations.range ∧ r.matchesEndpoints eps) ∧
    (∀ k, RelationKey t eps = .ok k →
      ∃ r, (k, some r) ∈ t.Relations.range ∧ r.matchesEndpoints eps) ∧
    (∀ k r, (k, some r) ∈ t.Relations.range → r.matchesEndpoints eps →
      (∀ k' r', (k', some r') ∈ t.Relations.range → r'.matchesEndpoints eps → k' = k) →
      RelationKey t eps = .ok k) ∧
    ((¬ ∃ k r, (k, some r) ∈ t.Relations.range ∧ r.matchesEndpoints eps) →
      RelationKey t eps = .error (.NoRelationError eps)) := by
  refine ⟨⟨?_, RelationKey_of_match t eps halloc hlen⟩, RelationKey_ok_matches t eps hlen,
    ?_, RelationKey_of_no_match t eps halloc hlen⟩
  · rintro ⟨k, hk⟩
    obtain ⟨r, hm, hmatch⟩ := RelationKey_ok_matches t eps hlen k hk
    exact ⟨k, r, hm, hmatch⟩
  · intro k r hm hmatch huniq
    obtain ⟨k', hk'⟩ := RelationKey_of_match t eps halloc hlen ⟨k, r, hm, hmatch⟩
    obtain ⟨r', hm', hmatch'⟩ := RelationKey_ok_matches t eps hlen k' hk'
    rw [hk', huniq k' r' hm' hmatch']

/-- Witness for C5, the endpoint resolution scenario: the relation with interface `http`,
provider `svc-a/website` and requirer `svc-b/website` is found by the requirer and provider
endpoints, and is not found when the interface asked for is `mysql`. -/
theorem RelationKey_finds_matching_witness :
    relationsAllocated httpTopology = true ∧
    RelationKey httpTopology [⟨"http", "website", RoleRequirer⟩, ⟨"http", "website", RoleProvider⟩]
      = .ok "relation-0" ∧
    RelationKey httpTopology
        [⟨"mysql", "website", RoleRequirer⟩, ⟨"mysql", "website", RoleProvider⟩]
      = .error (.NoRelationError
        [⟨"mysql", "website", RoleRequirer⟩, ⟨"mysql", "website", RoleProvider⟩]) ∧
    (∃ k r, (k, some r) ∈ httpTopology.Relations.range ∧
      r.matchesEndpoints [⟨"http", "website", RoleRequirer⟩, ⟨"http", "website", RoleProvider⟩]) :=
  ⟨by decide, by decide, by decide,
    (RelationKey_finds_matching httpTopology
      [⟨"http", "website", RoleRequirer⟩, ⟨"http", "website", RoleProvider⟩]
      (by decide) (by decide)).1.1 ⟨"relation-0", by decide⟩⟩

/-- Counterexample to C5 as stated: in `nilRelationTopology` the one relation key is stored
with a nil pointer, so no stored relation matches the peer endpoint `http/website`, yet
`RelationKey` does not fail with a `NoRelationError`: the scan reads the interface through
the nil pointer and panics. -/
theorem RelationKey_nil_relation_counterexample :
    (¬ ∃ k r, (k, some r) ∈ nilRelationTopology.Relations.range ∧
      r.matchesEndpoints [⟨"http", "website", RolePeer⟩]) ∧
    RelationKey nilRelationTopology [⟨"http", "website", RolePeer⟩] = .panic ∧
    RelationKey nilRelationTopology [⟨"http", "website", RolePeer⟩] ≠
      .error (.NoRelationError [⟨"http", "website", RolePeer⟩]) := by
  refine ⟨?_, by decide, by decide⟩
  rintro ⟨k, r, hm, _⟩
  simp [nilRelationTopology, GoMap.range] at hm

/-- C6: with two endpoints of different interfaces `RelationKey` fails with a
`NoRelationError` carrying the two endpoints, whatever the topology holds; with no endpoint
or more than two it fails with the one error for an illegal number of endpoints, which is
not a `NoRelationError` and is the same whatever the endpoints are; so a `NoRelationError`
that `RelationKey` returns carries the one or two endpoints of the call, and its `Error`
method does not panic. -/
theorem RelationKey_failure_kinds (t : topoTopology) :
    (∀ e0 e1 : RelationEndpoint, e0.Interface ≠ e1.Interface →
      RelationKey t [e0, e1] = .error (.NoRelationError [e0, e1])) ∧
    (∀ eps : List RelationEndpoint, eps.length ≠ 1 → eps.length ≠ 2 →
      RelationKey t eps
          = .error (.errorf "state: illegal number of relation endpoints provided" []) ∧
        ∀ carried, RelationKey t eps ≠ .error (.NoRelationError carried)) ∧
    (∀ eps carried, RelationKey t eps = .error (.NoRelationError carried) →
      carried = eps ∧ (carried.length = 1 ∨ carried.length = 2) ∧
        NoRelationError.Error carried ≠ .panic) := by
  refine ⟨?_, ?_, ?_⟩
  · intro e0 e1 h
    simp [RelationKey, h]
  · intro eps h1 h2
    have : RelationKey t eps
        = .error (.errorf "state: illegal number of relation endpoints provided" []) := by
      match eps, h1, h2 with
      | [], _, _ => rfl
      | [_], h1, _ => exact absurd rfl h1
      | [_, _], _, h2 => exact absurd rfl h2
      | _ :: _ :: _ :: _, _, _ => rfl
    refine ⟨this, ?_⟩
    intro carried
    rw [this]
    simp
  · intro eps carried h
    match eps, h with
    | [], h => simp [RelationKey] at h
    | [e0], h =>
      have := relationLoop_error e0 [e0] _ _ h
      simp only [GoError.NoRelationError.injEq] at this
      subst this
      exact ⟨rfl, Or.inl rfl, by simp [NoRelationError.Error]⟩
    | [e0, e1], h =>
      have hc : carried = [e0, e1] := by
        by_cases hi : e0.Interface = e1.Interface
        · have h' : RelationKey.relationLoop e0 [e0, e1] t.Relations.range
              = .error (.NoRelationError carried) := by
            simpa [RelationKey, hi] using h
          have := relationLoop_error e0 [e0, e1] _ _ h'
          simp only [GoError.NoRelationError.injEq] at this
          exact this
        · have h' : [e0, e1] = carried := by
            simpa [RelationKey, hi] using h
          exact h'.symm
      subst hc
      exact ⟨rfl, Or.inr rfl, by simp [NoRelationError.Error]⟩
    | _ :: _ :: _ :: _, h => simp [RelationKey] at h


/-- C7, amended: the scan accepts a relation for `(e1, e2)` exactly when it accepts it for
`(e2, e1)` (the scan runs only when the two interfaces agree); on a topology whose relation and
side pointers are all set, `RelationKey(e1, e2)` fails exactly when `RelationKey(e2, e1)` fails
(returns an error), and when at most one relation matches, both orders return the same key. -/
theorem RelationKey_symmetric (t : topoTopology) (e1 e2 : RelationEndpoint)
    (halloc : relationsAllocated t = true) :
    (e1.Interface = e2.Interface →
      ∀ r, scanAccepts e1 [e1, e2] r ↔ scanAccepts e2 [e2, e1] r) ∧
    ((RelationKey t [e1, e2]).isError = true ↔ (RelationKey t [e2, e1]).isError = true) ∧
    ((∃ k, RelationKey t [e1, e2] = .ok k) ↔ ∃ k, RelationKey t [e2, e1] = .ok k) ∧
    ((∀ k r k' r', (k, some r) ∈ t.Relations.range → r.matchesEndpoints [e1, e2] →
        (k', some r') ∈ t.Relations.range → r'.matchesEndpoints [e1, e2] → k = k') →
      ∀ k, RelationKey t [e1, e2] = .ok k ↔ RelationKey t [e2, e1] = .ok k) := by
  refine ⟨?_, ⟨RelationKey_swap_error t e1 e2 halloc, RelationKey_swap_error t e2 e1 halloc⟩,
    ⟨RelationKey_swap_ok t e1 e2 halloc, RelationKey_swap_ok t e2 e1 halloc⟩, ?_⟩
  · intro hi r
    rw [scanAccepts_iff_matches_two e1 e2 r hi, scanAccepts_iff_matches_two e2 e1 r hi.symm]
    exact matchesEndpoints_swap r e1 e2
  · intro huniq k
    constructor
    · intro hk
      obtain ⟨r, hm, hmatch⟩ := RelationKey_ok_matches t [e1, e2] (Or.inr rfl) k hk
      obtain ⟨k', hk'⟩ := RelationKey_swap_ok t e1 e2 halloc ⟨k, hk⟩
      obtain ⟨r', hm', hmatch'⟩ := RelationKey_ok_matches t [e2, e1] (Or.inr rfl) k' hk'
      rw [hk', huniq k r k' r' hm hmatch hm' ((matchesEndpoints_swap r' e1 e2).2 hmatch')]
    · intro hk
      obtain ⟨r, hm, hmatch⟩ := RelationKey_ok_matches t [e2, e1] (Or.inr rfl) k hk
      obtain ⟨k', hk'⟩ := RelationKey_swap_ok t e2 e1 halloc ⟨k, hk⟩
      obtain ⟨r', hm', hmatch'⟩ := RelationKey_ok_matches t [e1, e2] (Or.inr rfl) k' hk'
      rw [hk', huniq k' r' k r hm' hmatch' hm ((matchesEndpoints_swap r e1 e2).2 hmatch)]

/-- Witness for C7 on the topology of the endpoint resolution scenario. -/
theorem RelationKey_symmetric_witness :
    relationsAllocated httpTopology = true ∧
    RelationKey httpTopology [⟨"http", "website", RoleProvider⟩, ⟨"http", "website", RoleRequirer⟩]
      = .ok "relation-0" ∧
    ((∃ k, RelationKey httpTopology
        [⟨"http", "website", RoleRequirer⟩, ⟨"http", "website", RoleProvider⟩] = .ok k) ↔
      ∃ k, RelationKey httpTopology
        [⟨"http", "website", RoleProvider⟩, ⟨"http", "website", RoleRequirer⟩] = .ok k) :=
  ⟨by decide, by decide,
    (RelationKey_symmetric httpTopology ⟨"http", "website", RoleRequirer⟩
      ⟨"http", "website", RoleProvider⟩ (by decide)).2.2.1⟩

/-- Counterexample to C7 as stated: in `nilSideTopology` the provider side of the relation is
stored as a nil pointer.  With the provider endpoint first the scan reads the relation name
through the nil pointer and panics; with the requirer endpoint first, whose relation name
differs, the scan leaves the relation before it reaches the provider side and
`RelationKey` fails with a `NoRelationError`.  So one order fails with an error and the
other does not. -/
theorem RelationKey_nil_side_counterexample :
    RelationKey nilSideTopology
        [⟨"http", "website", RoleProvider⟩, ⟨"http", "db", RoleRequirer⟩] = .panic ∧
    RelationKey nilSideTopology
        [⟨"http", "db", RoleRequirer⟩, ⟨"http", "website", RoleProvider⟩] =
      .error (.NoRelationError
        [⟨"http", "db", RoleRequirer⟩, ⟨"http", "website", RoleProvider⟩]) ∧
    ¬ ((RelationKey nilSideTopology
          [⟨"http", "website", RoleProvider⟩, ⟨"http", "db", RoleRequirer⟩]).isError = true ↔
        (RelationKey nilSideTopology
          [⟨"http", "db", RoleRequirer⟩, ⟨"http", "website", RoleProvider⟩]).isError = true) := by
  decide

/-- C8: after any sequence of `AddMachine` and `RemoveMachine` calls on the empty topology,
`HasMachine(k)` is true exactly when the sequence has an `AddMachine(k)` with no later
`RemoveMachine(k)`; and a next `AddMachine(k)` returns an error exactly when `k` is present,
a next `RemoveMachine(k)` exactly when `k` is absent (each returns nil otherwise). -/
theorem machine_present_iff_added_not_removed (calls : List MachineOp) (k : String) :
    (HasMachine (afterMachineCalls calls) k = true ↔ addedNotRemoved calls k) ∧
    ((AddMachine (afterMachineCalls calls) k).2.isError = true ↔
      HasMachine (afterMachineCalls calls) k = true) ∧
    ((AddMachine (afterMachineCalls calls) k).2 = .ok () ↔
      HasMachine (afterMachineCalls calls) k = false) ∧
    ((RemoveMachine (afterMachineCalls calls) k).2.isError = true ↔
      HasMachine (afterMachineCalls calls) k = false) ∧
    ((RemoveMachine (afterMachineCalls calls) k).2 = .ok () ↔
      HasMachine (afterMachineCalls calls) k = true) := by
  have hS : (afterMachineCalls calls).Services = none :=
    Services_run_machineOps calls emptyTopology
  have hM := (invariant_run (calls.map MachineOp.toOp) emptyTopology invariant_emptyTopology).1
  have hadd := AddMachine_result (afterMachineCalls calls) k
  have hrem := RemoveMachine_result_no_services (afterMachineCalls calls) k hS hM
  refine ⟨HasMachine_run_machineOps calls k, ?_, ?_, ?_, ?_⟩
  · rw [hadd]
    by_cases h : HasMachine (afterMachineCalls calls) k = true <;> simp [h, Result.isError]
  · rw [hadd]
    by_cases h : HasMachine (afterMachineCalls calls) k = true <;> simp [h]
  · rw [hrem]
    by_cases h : HasMachine (afterMachineCalls calls) k = true <;> simp [h, Result.isError]
  · rw [hrem]
    by_cases h : HasMachine (afterMachineCalls calls) k = true <;> simp [h]


/-- What `RemoveMachine` returns and does on a topology whose service and unit pointers are
all set, in terms of the machine fields of the units. -/
theorem RemoveMachine_by_field (t : topoTopology) (key : String)
    (halloc : servicesAllocated t = true) :
    ((RemoveMachine t key).2 = .ok () ↔ key ∈ t.Machines.keys ∧ ¬ unitOnMachine t key) ∧
    (key ≠ "" → (unitOnMachine t key ↔ ∃ u, UnitMachineKey t u = .ok key)) ∧
    (key ∉ t.Machines.keys →
      (RemoveMachine t key).2 = .error (.errorf "machine with key %q not found" [key])) ∧
    (key ∈ t.Machines.keys → unitOnMachine t key →
      (RemoveMachine t key).2 =
        .error (.errorf "can't remove machine %q while units ared assigned" [key])) ∧
    ((RemoveMachine t key).2 = .ok () →
      (RemoveMachine t key).1 = { t with Machines := t.Machines.delete key } ∧
      key ∉ (RemoveMachine t key).1.Machines.keys ∧
      ∀ k, k ≠ key → (RemoveMachine t key).1.Machines.get? k = t.Machines.get? k) ∧
    (∀ u, key ∈ t.Machines.keys → UnitMachineKey t u = .ok key →
      (∀ u', UnitMachineKey t u' = .ok key → u' = u) →
      (UnassignUnitFromMachine t u).2 = .ok () ∧
        (RemoveMachine (UnassignUnitFromMachine t u).1 key).2 = .ok ()) := by
  have hspec := RemoveMachine_spec t key halloc
  refine ⟨?_, unitOnMachine_iff t key, ?_, ?_, ?_, ?_⟩
  · rcases hspec with ⟨h1, h2⟩ | ⟨h1, h2, h3⟩ | ⟨h1, h2, h3⟩
    · rw [h2]
      simp [h1]
    · rw [h3]
      simp [h2]
    · rw [h3]
      simp [h1, h2]
  · intro hno
    rcases hspec with ⟨h1, h2⟩ | ⟨h1, h2, h3⟩ | ⟨h1, h2, h3⟩
    · rw [h2]
    · exact absurd h1 hno
    · exact absurd h1 hno
  · intro hmem hon
    rcases hspec with ⟨h1, h2⟩ | ⟨h1, h2, h3⟩ | ⟨h1, h2, h3⟩
    · exact absurd hmem h1
    · rw [h3]
    · exact absurd hon h2
  · intro hok
    rcases hspec with ⟨h1, h2⟩ | ⟨h1, h2, h3⟩ | ⟨h1, h2, h3⟩
    · rw [h2] at hok
      exact absurd hok (by simp)
    · rw [h3] at hok
      exact absurd hok (by simp)
    · rw [h3]
      refine ⟨rfl, ?_, ?_⟩
      · rw [← GoMap.get?_eq_none]
        show (t.Machines.delete key).get? key = none
        rw [GoMap.get?_delete]
        simp
      · intro k hk
        show (t.Machines.delete key).get? k = _
        rw [GoMap.get?_delete]
        have : ¬ key = k := fun h => hk h.symm
        simp [this]
  · intro u hmem hu hlast
    obtain ⟨h1, h2, h3, h4⟩ := unassign_last_unit t key u halloc hu hlast
    refine ⟨h1, ?_⟩
    rcases RemoveMachine_spec (UnassignUnitFromMachine t u).1 key h3 with
      ⟨h5, _⟩ | ⟨_, h5, _⟩ | ⟨_, _, h5⟩
    · rw [h2] at h5
      exact absurd hmem h5
    · exact absurd h5 h4
    · rw [h5]


/-- C9, amended: on a topology whose service and unit pointers are all set, and for a
non-empty machine key, `RemoveMachine(key)` succeeds exactly when the machine exists and
`UnitMachineKey` returns `key` for no unit.  It fails as not found when the machine is
absent and as in use when there is such a unit.  On success that key is removed from the
machines and nothing else changes.  Once the last unit assigned to a machine has been
unassigned, `RemoveMachine` on that machine succeeds. -/
theorem RemoveMachine_succeeds_iff (t : topoTopology) (key : String)
    (halloc : servicesAllocated t = true) (hkey : key ≠ "") :
    ((RemoveMachine t key).2 = .ok () ↔
      key ∈ t.Machines.keys ∧ ¬ ∃ u, UnitMachineKey t u = .ok key) ∧
    (key ∉ t.Machines.keys →
      (RemoveMachine t key).2 = .error (.errorf "machine with key %q not found" [key])) ∧
    (key ∈ t.Machines.keys → (∃ u, UnitMachineKey t u = .ok key) →
      (RemoveMachine t key).2 =
        .error (.errorf "can't remove machine %q while units ared assigned" [key])) ∧
    ((RemoveMachine t key).2 = .ok () →
      (RemoveMachine t key).1 = { t with Machines := t.Machines.delete key } ∧
      key ∉ (RemoveMachine t key).1.Machines.keys ∧
      ∀ k, k ≠ key → (RemoveMachine t key).1.Machines.get? k = t.Machines.get? k) ∧
    (∀ u, key ∈ t.Machines.keys → UnitMachineKey t u = .ok key →
      (∀ u', UnitMachineKey t u' = .ok key → u' = u) →
      (UnassignUnitFromMachine t u).2 = .ok () ∧
        (RemoveMachine (UnassignUnitFromMachine t u).1 key).2 = .ok ()) := by
  obtain ⟨h1, h2, h3, h4, h5, h6⟩ := RemoveMachine_by_field t key halloc
  have hiff := h2 hkey
  refine ⟨?_, h3, fun hmem hu => h4 hmem (hiff.2 hu), h5, h6⟩
  rw [h1, hiff]

/-- Witness for C9: after the only unit of `machine-0` was assigned and then unassigned,
`RemoveMachine` succeeds on it. -/
theorem RemoveMachine_succeeds_iff_witness :
    servicesAllocated unassignedTopology = true ∧
    (RemoveMachine unassignedTopology "machine-0").2 = .ok () ∧
    ("machine-0" ∈ unassignedTopology.Machines.keys ∧
      ¬ ∃ u, UnitMachineKey unassignedTopology u = .ok "machine-0") :=
  ⟨by decide, by decide,
    (RemoveMachine_succeeds_iff unassignedTopology "machine-0" (by decide) (by decide)).1.1
      (by decide)⟩

/-- Counterexample to C9 as stated, at two topologies.  In `emptyKeyTopology` the machine
with the empty key exists and `UnitMachineKey` returns the empty key for no unit, yet
`RemoveMachine` fails, because the unassigned unit has the empty string as its machine
field.  In `nilUnitTopology` the machine `machine-0` exists and `UnitMachineKey` returns
its key for no unit, yet `RemoveMachine` does not succeed: the scan of the units reads the
machine field through the nil unit pointer and panics. -/
theorem RemoveMachine_counterexample :
    ¬ ((RemoveMachine emptyKeyTopology "").2 = .ok () ↔
        ("" ∈ emptyKeyTopology.Machines.keys ∧
          ¬ ∃ u, UnitMachineKey emptyKeyTopology u = .ok "")) ∧
    ¬ ((RemoveMachine nilUnitTopology "machine-0").2 = .ok () ↔
        ("machine-0" ∈ nilUnitTopology.Machines.keys ∧
          ¬ ∃ u, UnitMachineKey nilUnitTopology u = .ok "machine-0")) ∧
    (RemoveMachine nilUnitTopology "machine-0").2 = .panic := by
  refine ⟨?_, ?_, by decide⟩
  · intro h
    have hfail : (RemoveMachine emptyKeyTopology "").2 ≠ .ok () := by decide
    apply hfail
    apply h.2
    refine ⟨by decide, ?_⟩
    rintro ⟨u, hu⟩
    exact UnitMachineKey_ne_empty _ u hu
  · intro h
    have hfail : (RemoveMachine nilUnitTopology "machine-0").2 ≠ .ok () := by decide
    apply hfail
    apply h.2
    refine ⟨by decide, ?_⟩
    rintro ⟨u, hu⟩
    obtain ⟨_, svc, unit, h1, h2, _⟩ := (UnitMachineKey_ok_iff _ u "machine-0").1 hu
    have hm1 := GoMap.get?_mem h1
    simp only [nilUnitTopology, GoMap.range, List.mem_singleton, Prod.mk.injEq,
      Option.some.injEq] at hm1
    have hm2 := GoMap.get?_mem h2
    rw [hm1.2] at hm2
    simp [GoMap.range] at hm2

/-- C10: `MachineKeys`, `ServiceKeys` and `RelationKeys` each return a non-nil slice with
every key of their collection exactly once in strictly ascending order; the result is the
same for any order of the entries; and for a collection without entries, allocated or nil,
each returns the empty non-nil slice. -/
theorem key_listings_sorted (t : topoTopology) :
    listsKeysAscending t.Machines (MachineKeys t) ∧
    listsKeysAscending t.Services (ServiceKeys t) ∧
    listsKeysAscending t.Relations (RelationKeys t) ∧
    (∀ t' : topoTopology, t'.Machines.keys.Perm t.Machines.keys →
      MachineKeys t' = MachineKeys t) ∧
    (∀ t' : topoTopology, t'.Services.keys.Perm t.Services.keys →
      ServiceKeys t' = ServiceKeys t) ∧
    (∀ t' : topoTopology, t'.Relations.keys.Perm t.Relations.keys →
      RelationKeys t' = RelationKeys t) ∧
    (t.Machines.len = 0 → MachineKeys t = some []) ∧
    (t.Services.len = 0 → ServiceKeys t = some []) ∧
    (t.Relations.len = 0 → RelationKeys t = some []) := by
  refine ⟨listsKeysAscending_sortStrings _, listsKeysAscending_sortStrings _,
    listsKeysAscending_sortStrings _, ?_, ?_, ?_, ?_, ?_, ?_⟩
  · intro t' h
    exact congrArg some (sortStrings_of_perm _ _ t.Machines.keys_nodup h)
  · intro t' h
    exact congrArg some (sortStrings_of_perm _ _ t.Services.keys_nodup h)
  · intro t' h
    exact congrArg some (sortStrings_of_perm _ _ t.Relations.keys_nodup h)
  · intro h
    exact congrArg some (sortStrings_keys_of_len_zero _ h)
  · intro h
    exact congrArg some (sortStrings_keys_of_len_zero _ h)
  · intro h
    exact congrArg some (sortStrings_keys_of_len_zero _ h)

/-- The keys come out sorted whatever the order of the calls that added them. -/
theorem MachineKeys_example :
    MachineKeys (run emptyTopology [.AddMachine "m-2", .AddMachine "m-10", .AddMachine "m-1"])
      = some ["m-1", "m-10", "m-2"] ∧
    MachineKeys (run emptyTopology [.AddMachine "m-1", .AddMachine "m-2", .AddMachine "m-10"])
      = some ["m-1", "m-10", "m-2"] ∧
    MachineKeys emptyTopology = some [] := by
  decide


/-! ## Removing and listing relations (C14, C15, C20) -/

theorem MapCells.ext_entries {K V : Type} (a b : MapCells K V) (h : a.entries = b.entries) :
    a = b := by
  cases a
  cases b
  cases h
  rfl

theorem GoMap.delete_of_not_mem {K V : Type} [DecidableEq K] (m : GoMap K V) (k : K)
    (h : k ∉ m.keys) : m.delete k = m := by
  cases m with
  | none => rfl
  | some cells =>
    exact congrArg some (MapCells.ext_entries _ _ (eraseKey_of_not_mem k cells.entries h))

theorem GoMap.not_mem_keys_delete {K V : Type} [DecidableEq K] (m : GoMap K V) (k : K) :
    k ∉ (m.delete k).keys := by
  rw [← GoMap.get?_eq_none, GoMap.get?_delete]
  simp


theorem sideLoop_spec (sk : String) (l : List (RelationRole × Option topoRelationService))
    (hl : ∀ role side, (role, side) ∈ l → side ≠ none) :
    (RelationsForService.sideLoop sk l = .ok true ∧
        ∃ role s, (role, some s) ∈ l ∧ s.Service = sk) ∨
    (RelationsForService.sideLoop sk l = .ok false ∧
        ∀ role s, (role, some s) ∈ l → s.Service ≠ sk) := by
  induction l with
  | nil => exact Or.inr ⟨rfl, by simp⟩
  | cons e rest ih =>
    obtain ⟨role, side⟩ := e
    cases side with
    | none => exact absurd rfl (hl role none (List.mem_cons_self _ _))
    | some s =>
      simp only [RelationsForService.sideLoop]
      by_cases hs : s.Service = sk
      · left
        exact ⟨by simp [hs], role, s, List.mem_cons_self _ _, hs⟩
      · rw [if_neg hs]
        rcases ih (fun r w h => hl r w (List.mem_cons_of_mem _ h)) with
          ⟨h1, role', s', h2, h3⟩ | ⟨h1, h2⟩
        · exact Or.inl ⟨h1, role', s', List.mem_cons_of_mem _ h2, h3⟩
        · right
          refine ⟨h1, ?_⟩
          intro role' s' hmem
          rcases List.mem_cons.1 hmem with h | h
          · simp only [Prod.mk.injEq, Option.some.injEq] at h
            rw [h.2]
            exact hs
          · exact h2 role' s' h

theorem sideLoop_of_allocated (sk : String) (rel : topoRelation)
    (hl : ∀ role side, (role, side) ∈ rel.Services.range → side ≠ none) :
    (RelationsForService.sideLoop sk rel.Services.range = .ok true ∧ rel.references sk) ∨
    (RelationsForService.sideLoop sk rel.Services.range = .ok false ∧ ¬ rel.references sk) := by
  rcases sideLoop_spec sk rel.Services.range hl with ⟨h1, h2⟩ | ⟨h1, h2⟩
  · exact Or.inl ⟨h1, h2⟩
  · refine Or.inr ⟨h1, ?_⟩
    rintro ⟨role, s, hm, hs⟩
    exact h2 role s hm hs

/-- The map `RelationsForService` builds: the relations that reference the service, each under
its own key, on top of what the map held before the loop. -/
theorem relationLoop_lookup (sk : String) (l : List (String × Option topoRelation))
    (hnd : (l.map Prod.fst).Nodup)
    (hl : ∀ e ∈ l, ∃ r, e.2 = some r ∧
      ∀ role side, (role, side) ∈ r.Services.range → side ≠ none)
    (acc : MapCells String (Option topoRelation)) :
    ∃ res, RelationsForService.relationLoop sk l acc = .ok res ∧
      (∀ k rel, (k, some rel) ∈ l → rel.references sk →
        lookupKey k res.entries = some (some rel)) ∧
      (∀ k, (¬ ∃ rel, (k, some rel) ∈ l ∧ rel.references sk) →
        lookupKey k res.entries = lookupKey k acc.entries) := by
  induction l generalizing acc with
  | nil => exact ⟨acc, rfl, by simp, fun _ _ => rfl⟩
  | cons e rest ih =>
    obtain ⟨k0, v⟩ := e
    obtain ⟨rel0, hv, hsides⟩ := hl (k0, v) (List.mem_cons_self _ _)
    simp only at hv
    subst hv
    simp only [List.map_cons, List.nodup_cons] at hnd
    have hl' : ∀ e ∈ rest, ∃ r, e.2 = some r ∧
        ∀ role side, (role, side) ∈ r.Services.range → side ≠ none :=
      fun e he => hl e (List.mem_cons_of_mem _ he)
    have hk0 : ∀ rel, (k0, some rel) ∉ rest := by
      intro rel hm
      exact hnd.1 (List.mem_map_of_mem Prod.fst hm)
    simp only [RelationsForService.relationLoop]
    rcases sideLoop_of_allocated sk rel0 hsides with ⟨h1, href⟩ | ⟨h1, href⟩
    · rw [h1]
      dsimp only
      obtain ⟨res, hres, ha, hb⟩ := ih hnd.2 hl' (acc.put k0 (some rel0))
      refine ⟨res, hres, ?_, ?_⟩
      · intro k rel hm hr
        rcases List.mem_cons.1 hm with h | h
        · simp only [Prod.mk.injEq, Option.some.injEq] at h
          obtain ⟨hk, hrel⟩ := h
          subst hk hrel
          rw [hb k (by rintro ⟨rel', hm', _⟩; exact hk0 rel' hm')]
          show lookupKey k (putKey k (some rel) acc.entries) = _
          rw [lookupKey_putKey]
          simp
        · exact ha k rel h hr
      · intro k hno
        have hne : ¬ k0 = k := by
          intro hk
          subst hk
          exact hno ⟨rel0, List.mem_cons_self _ _, href⟩
        rw [hb k (by
          rintro ⟨rel', hm', hr'⟩
          exact hno ⟨rel', List.mem_cons_of_mem _ hm', hr'⟩)]
        show lookupKey k (putKey k0 (some rel0) acc.entries) = _
        rw [lookupKey_putKey, if_neg hne]
    · rw [h1]
      dsimp only
      obtain ⟨res, hres, ha, hb⟩ := ih hnd.2 hl' acc
      refine ⟨res, hres, ?_, ?_⟩
      · intro k rel hm hr
        rcases List.mem_cons.1 hm with h | h
        · simp only [Prod.mk.injEq, Option.some.injEq] at h
          rw [h.2] at hr
          exact absurd hr href
        · exact ha k rel h hr
      · intro k hno
        exact hb k (by
          rintro ⟨rel', hm', hr'⟩
          exact hno ⟨rel', List.mem_cons_of_mem _ hm', hr'⟩)

theorem GoMap.range_nodup {K V : Type} (m : GoMap K V) : (m.range.map Prod.fst).Nodup :=
  m.keys_nodup

/-- What `RelationsForService` returns for an existing service when every relation and side
pointer is set. -/
theorem RelationsForService_spec (t : topoTopology) (serviceKey : String)
    (halloc : relationsAllocated t = true) (hmem : serviceKey ∈ t.Services.keys) :
    ∃ relations, RelationsForService t serviceKey = .ok (some relations) ∧
      (∀ k rel, (k, some rel) ∈ t.Relations.range → rel.references serviceKey →
        GoMap.get? (some relations) k = some (some rel)) ∧
      (∀ k, (¬ ∃ rel, (k, some rel) ∈ t.Relations.range ∧ rel.references serviceKey) →
        GoMap.get? (some relations) k = none) := by
  obtain ⟨res, hres, ha, hb⟩ := relationLoop_lookup serviceKey t.Relations.range
    t.Relations.range_nodup (relationsAllocated_range t halloc) MapCells.empty
  refine ⟨res, ?_, ha, ?_⟩
  · unfold RelationsForService
    rw [(assertService_ok_iff_mem t serviceKey).2 hmem]
    dsimp only
    rw [hres]
  · intro k hno
    exact (hb k hno).trans rfl

theorem RelationsForService_absent (t : topoTopology) (serviceKey : String)
    (hmem : serviceKey ∉ t.Services.keys) :
    RelationsForService t serviceKey
      = .error (.errorf "service with key %q not found" [serviceKey]) := by
  unfold RelationsForService
  rcases assertService_cases t serviceKey with ⟨_, h⟩ | ⟨h, _⟩
  · exact absurd h hmem
  · rw [h]


theorem RemoveService_spec (t : topoTopology) (key : String)
    (halloc : relationsAllocated t = true) :
    (key ∉ t.Services.keys ∧
      RemoveService t key = (t, .error (.errorf "service with key %q not found" [key]))) ∨
    (key ∈ t.Services.keys ∧
      (∃ rk rel, (rk, some rel) ∈ t.Relations.range ∧ rel.references key) ∧
      RemoveService t key =
        (t, .error (.errorf "cannot remove service %q with active relations" [key]))) ∨
    (key ∈ t.Services.keys ∧
      (¬ ∃ rk rel, (rk, some rel) ∈ t.Relations.range ∧ rel.references key) ∧
      RemoveService t key = ({ t with Services := t.Services.delete key }, .ok ())) := by
  unfold RemoveService
  rcases assertService_cases t key with ⟨h, hmem⟩ | ⟨h, hmem⟩
  · rw [h]
    dsimp only
    obtain ⟨relations, hrel, ha, hb⟩ := RelationsForService_spec t key halloc hmem
    rw [hrel]
    dsimp only
    by_cases hex : ∃ rk rel, (rk, some rel) ∈ t.Relations.range ∧ rel.references key
    · refine Or.inr (Or.inl ⟨hmem, hex, ?_⟩)
      obtain ⟨rk, rel, hm, hr⟩ := hex
      have hpos : GoMap.len (some relations) > 0 := by
        have := GoMap.get?_mem (ha rk rel hm hr)
        exact List.length_pos_of_mem this
      rw [if_pos hpos]
    · refine Or.inr (Or.inr ⟨hmem, hex, ?_⟩)
      have hzero : ¬ GoMap.len (some relations) > 0 := by
        intro hpos
        obtain ⟨e, he⟩ := List.exists_mem_of_length_pos hpos
        have hget := GoMap.get?_of_mem (show (e.1, e.2) ∈ GoMap.range (some relations) from he)
        have hnone := hb e.1 (by
          rintro ⟨rel, hm, hr⟩
          exact hex ⟨e.1, rel, hm, hr⟩)
        rw [hnone] at hget
        exact absurd hget (by simp)
      rw [if_neg hzero]
  · rw [h]
    exact Or.inl ⟨hmem, rfl⟩


/-! ## Services and units (C11 to C13, C16 to C19) -/

/-- What `UnitKeys` returns: the unit keys of the service in `range` order, each once. -/
theorem UnitKeys_lists_units (t : topoTopology) (serviceKey : String) (svc : topoService)
    (h : t.Services.get? serviceKey = some (some svc)) :
    UnitKeys t serviceKey = .ok (some (svc.Units.keys.map fun key => ⟨serviceKey, key⟩)) ∧
    (svc.Units.keys.map fun key => (⟨serviceKey, key⟩ : unitKey)).Nodup := by
  constructor
  · unfold UnitKeys assertService
    rw [h]
  · refine List.Nodup.map ?_ svc.Units.keys_nodup
    intro a b hab
    exact (unitKey.mk.injEq _ _ _ _ ▸ hab).2


/-- What the scan of `ServiceKey` returns; an error means every pointer was set and no
service has the name. -/
theorem ServiceKey_loop_spec (name : String) (l : List (String × Option topoService)) :
    (∃ k svc, ServiceKey.loop name l = .ok k ∧ (k, some svc) ∈ l ∧ svc.Name = name) ∨
    (ServiceKey.loop name l = .error (.errorf "service with name %q not found" [name]) ∧
      ∀ k v, (k, v) ∈ l → ∃ svc, v = some svc ∧ svc.Name ≠ name) ∨
    (ServiceKey.loop name l = .panic ∧ ∃ k, (k, none) ∈ l) := by
  induction l with
  | nil => exact Or.inr (Or.inl ⟨rfl, by simp⟩)
  | cons e rest ih =>
    obtain ⟨k, v⟩ := e
    cases v with
    | none => exact Or.inr (Or.inr ⟨rfl, k, List.mem_cons_self _ _⟩)
    | some svc =>
      simp only [ServiceKey.loop]
      by_cases hn : svc.Name = name
      · left
        exact ⟨k, svc, by simp [hn], List.mem_cons_self _ _, hn⟩
      · rw [if_neg hn]
        rcases ih with ⟨k', svc', h1, h2, h3⟩ | ⟨h1, h2⟩ | ⟨h1, k', h2⟩
        · exact Or.inl ⟨k', svc', h1, List.mem_cons_of_mem _ h2, h3⟩
        · right; left
          refine ⟨h1, ?_⟩
          intro k' v' hm
          rcases List.mem_cons.1 hm with h | h
          · simp only [Prod.mk.injEq] at h
            exact ⟨svc, h.2, hn⟩
          · exact h2 k' v' h
        · exact Or.inr (Or.inr ⟨h1, k', List.mem_cons_of_mem _ h2⟩)

theorem servicesAllocated_some (t : topoTopology) (halloc : servicesAllocated t = true)
    (k : String) (v : Option topoService) (h : (k, v) ∈ t.Services.range) :
    ∃ svc, v = some svc := by
  obtain ⟨svc, hs, _⟩ := (servicesAllocated_iff t).1 halloc k v h
  exact ⟨svc, hs⟩

theorem servicePointersSet_some (t : topoTopology) (hset : servicePointersSet t = true)
    (k : String) (v : Option topoService) (h : (k, v) ∈ t.Services.range) :
    ∃ svc, v = some svc := by
  unfold servicePointersSet at hset
  rw [List.all_eq_true] at hset
  have := hset (k, v) h
  cases v with
  | none => simp at this
  | some svc => exact ⟨svc, rfl⟩

theorem servicePointersSet_of_servicesAllocated (t : topoTopology)
    (halloc : servicesAllocated t = true) : servicePointersSet t = true := by
  unfold servicePointersSet
  rw [List.all_eq_true]
  intro e he
  obtain ⟨svc, hs⟩ := servicesAllocated_some t halloc e.1 e.2 he
  rw [hs]
  rfl

theorem HasService_iff_mem (t : topoTopology) (halloc : servicePointersSet t = true)
    (k : String) : HasService t k = true ↔ k ∈ t.Services.keys := by
  rw [HasService_iff, mem_keys_iff_get?]
  constructor
  · rintro ⟨svc, h⟩
    exact ⟨_, h⟩
  · rintro ⟨v, h⟩
    obtain ⟨svc, hs⟩ := servicePointersSet_some t halloc k v (GoMap.get?_mem h)
    exact ⟨svc, hs ▸ h⟩

/-- Some service of the topology has the name. -/
theorem nameInUse_iff_ServiceKey (t : topoTopology) (halloc : servicePointersSet t = true)
    (name : String) :
    ((∃ k, ServiceKey t name = .ok k) ↔
      ∃ k svc, (k, some svc) ∈ t.Services.range ∧ svc.Name = name) ∧
    ((¬ ∃ k svc, (k, some svc) ∈ t.Services.range ∧ svc.Name = name) →
      ServiceKey t name = .error (.errorf "service with name %q not found" [name])) := by
  unfold ServiceKey
  rcases ServiceKey_loop_spec name t.Services.range with
    ⟨k, svc, h1, h2, h3⟩ | ⟨h1, h2⟩ | ⟨_, k, h2⟩
  · refine ⟨⟨fun _ => ⟨k, svc, h2, h3⟩, fun _ => ⟨k, h1⟩⟩, ?_⟩
    intro hno
    exact absurd ⟨k, svc, h2, h3⟩ hno
  · refine ⟨⟨?_, ?_⟩, fun _ => h1⟩
    · rintro ⟨k, hk⟩
      rw [h1] at hk
      exact absurd hk (by simp)
    · rintro ⟨k, svc, hm, hn⟩
      obtain ⟨svc', hs, hne⟩ := h2 k _ hm
      cases hs
      exact absurd hn hne
  · obtain ⟨svc, hs⟩ := servicePointersSet_some t halloc k none h2
    exact absurd hs (by simp)

/-- What `AddService` does on a topology whose service pointers are set. -/
theorem AddService_spec (t : topoTopology) (key name : String)
    (halloc : servicePointersSet t = true) :
    (key ∈ t.Services.keys ∧
      AddService t key name = ({ t with Services := some t.Services.allocate },
        .error (.errorf "attempted to add duplicated service %q" [key]))) ∨
    (key ∉ t.Services.keys ∧
      (∃ k svc, (k, some svc) ∈ t.Services.range ∧ svc.Name = name) ∧
      AddService t key name = ({ t with Services := some t.Services.allocate },
        .error (.errorf "service name %q already in use" [name]))) ∨
    (key ∉ t.Services.keys ∧
      (¬ ∃ k svc, (k, some svc) ∈ t.Services.range ∧ svc.Name = name) ∧
      AddService t key name =
        ({ t with
            Services := some (t.Services.allocate.put key (some ⟨name, some MapCells.empty⟩)) },
          .ok ())) := by
  have ht1 : ∀ k, HasService { t with Services := some t.Services.allocate } k
      = HasService t k := by
    intro k
    unfold HasService
    rw [get?_allocate]
  have hsk : ServiceKey { t with Services := some t.Services.allocate } name
      = ServiceKey t name := by
    unfold ServiceKey
    show ServiceKey.loop name t.Services.allocate.entries = _
    rw [GoMap.allocate_entries]
  unfold AddService
  dsimp only
  rw [ht1, hsk]
  by_cases hhas : HasService t key = true
  · rw [if_pos hhas]
    exact Or.inl ⟨(HasService_iff_mem t halloc key).1 hhas, rfl⟩
  · rw [if_neg hhas]
    have hmem : key ∉ t.Services.keys := fun h => hhas ((HasService_iff_mem t halloc key).2 h)
    obtain ⟨hiff, herr⟩ := nameInUse_iff_ServiceKey t halloc name
    by_cases hex : ∃ k svc, (k, some svc) ∈ t.Services.range ∧ svc.Name = name
    · obtain ⟨k, hk⟩ := hiff.2 hex
      rw [hk]
      exact Or.inr (Or.inl ⟨hmem, hex, rfl⟩)
    · rw [herr hex]
      exact Or.inr (Or.inr ⟨hmem, hex, rfl⟩)


/-- The topology after a successful `AddService`. -/
theorem AddService_added (t : topoTopology) (key name : String)
    (halloc : servicePointersSet t = true)
    (hname : ¬ ∃ k svc, (k, some svc) ∈ t.Services.range ∧ svc.Name = name)
    (t' : topoTopology)
    (ht' : t' = { t with
      Services := some (t.Services.allocate.put key (some ⟨name, some MapCells.empty⟩)) }) :
    (∀ k, t'.Services.get? k
      = if key = k then some (some ⟨name, some MapCells.empty⟩) else t.Services.get? k) ∧
    servicePointersSet t' = true ∧
    ServiceName t' key = .ok name ∧
    ServiceKey t' name = .ok key ∧
    UnitKeys t' key = .ok (some []) := by
  have hrange : t'.Services.range
      = putKey key (some ⟨name, some MapCells.empty⟩) t.Services.range := by
    rw [ht']
    show putKey key _ t.Services.allocate.entries = _
    rw [GoMap.allocate_entries]
  have hget : ∀ k, t'.Services.get? k
      = if key = k then some (some ⟨name, some MapCells.empty⟩) else t.Services.get? k := by
    intro k
    unfold GoMap.get?
    rw [hrange, lookupKey_putKey]
  have hnew : (key, some (⟨name, some MapCells.empty⟩ : topoService)) ∈ t'.Services.range := by
    apply GoMap.get?_mem
    rw [hget]
    simp
  have hold : ∀ k v, (k, v) ∈ t'.Services.range →
      (k, v) = (key, some ⟨name, some MapCells.empty⟩) ∨ (k, v) ∈ t.Services.range := by
    intro k v hm
    rw [hrange] at hm
    exact mem_putKey hm
  have halloc' : servicePointersSet t' = true := by
    unfold servicePointersSet
    rw [List.all_eq_true]
    intro e he
    rcases hold e.1 e.2 he with h | h
    · simp only [Prod.mk.injEq] at h
      rw [h.2]
      rfl
    · obtain ⟨svc, hs⟩ := servicePointersSet_some t halloc e.1 e.2 h
      rw [hs]
      rfl
  refine ⟨hget, halloc', ?_, ?_, ?_⟩
  · unfold ServiceName
    rw [hget]
    simp
  · unfold ServiceKey
    rcases ServiceKey_loop_spec name t'.Services.range with
      ⟨k, svc, h1, h2, h3⟩ | ⟨_, h2⟩ | ⟨_, k, h2⟩
    · rcases hold k _ h2 with h | h
      · simp only [Prod.mk.injEq] at h
        rw [h1, h.1]
      · exact absurd ⟨k, svc, h, h3⟩ hname
    · obtain ⟨svc, hs, hne⟩ := h2 key _ hnew
      cases hs
      exact absurd rfl hne
    · rcases hold k none h2 with h | h
      · simp at h
      · obtain ⟨svc, hs⟩ := servicePointersSet_some t halloc k none h
        exact absurd hs (by simp)
  · have := (UnitKeys_lists_units t' key ⟨name, some MapCells.empty⟩ (by rw [hget]; simp)).1
    rw [this]
    rfl


/-- The branches of `assertUnit`. -/
theorem assertUnit_cases (t : topoTopology) (key : unitKey) :
    (key.service ∉ t.Services.keys ∧
      assertUnit t key = .error (.errorf "service with key %q not found" [key.service])) ∨
    (t.Services.get? key.service = some none ∧ assertUnit t key = .panic) ∨
    (∃ svc, t.Services.get? key.service = some (some svc) ∧ key.unit ∉ svc.Units.keys ∧
      assertUnit t key = .error (.errorf "unit with key %q not found" [key.unit])) ∨
    (∃ svc w, t.Services.get? key.service = some (some svc) ∧
      svc.Units.get? key.unit = some w ∧ assertUnit t key = .ok ()) := by
  unfold assertUnit assertService
  cases hs : t.Services.get? key.service with
  | none => exact Or.inl ⟨(GoMap.get?_eq_none _ _).1 hs, rfl⟩
  | some v =>
    cases v with
    | none => exact Or.inr (Or.inl ⟨rfl, rfl⟩)
    | some svc =>
      dsimp only
      cases hu : svc.Units.get? key.unit with
      | none =>
        exact Or.inr (Or.inr (Or.inl ⟨svc, rfl, (GoMap.get?_eq_none _ _).1 hu, rfl⟩))
      | some w => exact Or.inr (Or.inr (Or.inr ⟨svc, w, rfl, hu, rfl⟩))

/-- The branches of `AddUnit`. -/
theorem AddUnit_cases (t : topoTopology) (key : unitKey) :
    (key.service ∉ t.Services.keys ∧
      AddUnit t key = (t, .error (.errorf "service with key %q not found" [key.service]))) ∨
    (t.Services.get? key.service = some none ∧ AddUnit t key = (t, .panic)) ∨
    (∃ svc, t.Services.get? key.service = some (some svc) ∧ key.unit ∈ svc.Units.keys ∧
      AddUnit t key =
        (t, .error (.errorf "unit %q already in use in service %q" [key.unit, key.service]))) ∨
    (∃ svc, t.Services.get? key.service = some (some svc) ∧ svc.Units = none ∧
      AddUnit t key = (t, .panic)) ∨
    (∃ svc units, t.Services.get? key.service = some (some svc) ∧ svc.Units = some units ∧
      key.unit ∉ svc.Units.keys ∧
      AddUnit t key =
        (pokeService t key.service { svc with Units := some (units.put key.unit (some ⟨""⟩)) },
          .ok ())) := by
  unfold AddUnit assertService
  cases hs : t.Services.get? key.service with
  | none => exact Or.inl ⟨(GoMap.get?_eq_none _ _).1 hs, rfl⟩
  | some v =>
    cases v with
    | none => exact Or.inr (Or.inl ⟨rfl, rfl⟩)
    | some svc =>
      dsimp only
      cases hu : svc.Units.get? key.unit with
      | some w =>
        exact Or.inr (Or.inr (Or.inl ⟨svc, rfl, (mem_keys_iff_get? _ _).2 ⟨w, hu⟩, rfl⟩))
      | none =>
        dsimp only
        cases hunits : svc.Units with
        | none => exact Or.inr (Or.inr (Or.inr (Or.inl ⟨svc, rfl, hunits, rfl⟩)))
        | some units =>
          exact Or.inr (Or.inr (Or.inr (Or.inr
            ⟨svc, units, rfl, hunits, (GoMap.get?_eq_none _ _).1 hu, rfl⟩)))

/-- The branches of `RemoveUnit`. -/
theorem RemoveUnit_cases (t : topoTopology) (key : unitKey) :
    (assertUnit t key ≠ .ok () ∧ RemoveUnit t key = (t, assertUnit t key)) ∨
    (∃ svc w, t.Services.get? key.service = some (some svc) ∧
      svc.Units.get? key.unit = some w ∧
      RemoveUnit t key =
        (pokeService t key.service { svc with Units := svc.Units.delete key.unit }, .ok ())) := by
  unfold RemoveUnit
  rcases assertUnit_cases t key with ⟨_, h⟩ | ⟨_, h⟩ | ⟨svc, _, _, h⟩ | ⟨svc, w, h1, h2, h⟩
  · rw [h]
    exact Or.inl ⟨by simp, rfl⟩
  · rw [h]
    exact Or.inl ⟨by simp, rfl⟩
  · rw [h]
    exact Or.inl ⟨by simp, rfl⟩
  · rw [h, h1]
    exact Or.inr ⟨svc, w, rfl, h2, rfl⟩

/-- The branches of `AssignUnitToMachine`. -/
theorem AssignUnitToMachine_cases (t : topoTopology) (key : unitKey) (machineKey : String) :
    (assertUnit t key ≠ .ok () ∧ AssignUnitToMachine t key machineKey = (t, assertUnit t key)) ∨
    (assertUnit t key = .ok () ∧ machineKey ∉ t.Machines.keys ∧
      AssignUnitToMachine t key machineKey =
        (t, .error (.errorf "machine with key %q not found" [machineKey]))) ∨
    (∃ svc, t.Services.get? key.service = some (some svc) ∧
      svc.Units.get? key.unit = some none ∧ machineKey ∈ t.Machines.keys ∧
      AssignUnitToMachine t key machineKey = (t, .panic)) ∨
    (∃ svc unit, t.Services.get? key.service = some (some svc) ∧
      svc.Units.get? key.unit = some (some unit) ∧ machineKey ∈ t.Machines.keys ∧
      unit.Machine ≠ "" ∧
      AssignUnitToMachine t key machineKey =
        (t, .error (.errorf "unit %q in service %q already assigned to machine %q"
          [key.unit, key.service, unit.Machine]))) ∨
    (∃ svc unit, t.Services.get? key.service = some (some svc) ∧
      svc.Units.get? key.unit = some (some unit) ∧ machineKey ∈ t.Machines.keys ∧
      unit.Machine = "" ∧
      AssignUnitToMachine t key machineKey =
        (pokeService t key.service
          { svc with Units := svc.Units.poke key.unit (some { unit with Machine := machineKey }) },
          .ok ())) := by
  unfold AssignUnitToMachine
  rcases assertUnit_cases t key with ⟨_, h⟩ | ⟨_, h⟩ | ⟨svc, _, _, h⟩ | ⟨svc, w, h1, h2, h⟩
  · rw [h]
    exact Or.inl ⟨by simp, rfl⟩
  · rw [h]
    exact Or.inl ⟨by simp, rfl⟩
  · rw [h]
    exact Or.inl ⟨by simp, rfl⟩
  · rw [h]
    dsimp only
    rcases assertMachine_cases t machineKey with ⟨hm, hmem⟩ | ⟨hm, hmem⟩
    · rw [hm]
      dsimp only
      unfold unitPointer
      rw [h1]
      dsimp only
      rw [h2]
      cases w with
      | none => exact Or.inr (Or.inr (Or.inl ⟨svc, rfl, h2, hmem, rfl⟩))
      | some unit =>
        dsimp only
        by_cases hassigned : unit.Machine = ""
        · refine Or.inr (Or.inr (Or.inr (Or.inr ⟨svc, unit, rfl, h2, hmem, hassigned, ?_⟩)))
          rw [if_neg (by simp [hassigned])]
        · refine Or.inr (Or.inr (Or.inr (Or.inl ⟨svc, unit, rfl, h2, hmem, hassigned, ?_⟩)))
          rw [if_pos hassigned]
    · rw [hm]
      exact Or.inr (Or.inl ⟨rfl, hmem, rfl⟩)

/-- The branches of `UnassignUnitFromMachine`. -/
theorem UnassignUnitFromMachine_cases (t : topoTopology) (key : unitKey) :
    (assertUnit t key ≠ .ok () ∧ UnassignUnitFromMachine t key = (t, assertUnit t key)) ∨
    (∃ svc, t.Services.get? key.service = some (some svc) ∧
      svc.Units.get? key.unit = some none ∧ UnassignUnitFromMachine t key = (t, .panic)) ∨
    (∃ svc unit, t.Services.get? key.service = some (some svc) ∧
      svc.Units.get? key.unit = some (some unit) ∧ unit.Machine = "" ∧
      UnassignUnitFromMachine t key =
        (t, .error (.errorf "unit %q in service %q not assigned to a machine"
          [key.unit, key.service]))) ∨
    (∃ svc unit, t.Services.get? key.service = some (some svc) ∧
      svc.Units.get? key.unit = some (some unit) ∧ unit.Machine ≠ "" ∧
      UnassignUnitFromMachine t key =
        (pokeService t key.service
          { svc with Units := svc.Units.poke key.unit (some { unit with Machine := "" }) },
          .ok ())) := by
  unfold UnassignUnitFromMachine
  rcases assertUnit_cases t key with ⟨_, h⟩ | ⟨_, h⟩ | ⟨svc, _, _, h⟩ | ⟨svc, w, h1, h2, h⟩
  · rw [h]
    exact Or.inl ⟨by simp, rfl⟩
  · rw [h]
    exact Or.inl ⟨by simp, rfl⟩
  · rw [h]
    exact Or.inl ⟨by simp, rfl⟩
  · rw [h]
    dsimp only
    unfold unitPointer
    rw [h1]
    dsimp only
    rw [h2]
    cases w with
    | none => exact Or.inr (Or.inl ⟨svc, rfl, h2, rfl⟩)
    | some unit =>
      dsimp only
      by_cases hassigned : unit.Machine = ""
      · refine Or.inr (Or.inr (Or.inl ⟨svc, unit, rfl, h2, hassigned, ?_⟩))
        rw [if_pos hassigned]
      · refine Or.inr (Or.inr (Or.inr ⟨svc, unit, rfl, h2, hassigned, ?_⟩))
        rw [if_neg hassigned]


theorem range_pokeService (t : topoTopology) (k : String) (svc' : topoService)
    (v : Option topoService) (h : t.Services.get? k = some v) :
    (pokeService t k svc').Services.range = putKey k (some svc') t.Services.range := by
  obtain ⟨cells, hc⟩ := get?_some_is_some h
  unfold pokeService
  dsimp only
  rw [hc]
  rfl

theorem Services_AddRelation (t : topoTopology) (key : String) (relation : Option topoRelation) :
    (AddRelation t key relation).1.Services = t.Services := by
  by_cases h : (AddRelation t key relation).2 = .ok ()
  · cases relation with
    | none =>
      exfalso
      revert h
      unfold AddRelation
      dsimp only
      split <;> simp
    | some r => rw [AddRelation_ok_state t key r h]
  · rw [AddRelation_fail t key relation h]

/-- How a call changes the cells of the services: not at all, by a new service whose name no
service has, by dropping a cell, or by rewriting one service with its name kept. -/
theorem services_step (t : topoTopology) (op : Op) :
    (op.apply t).1.Services.range = t.Services.range ∨
    (∃ key name, (∀ k v, (k, v) ∈ t.Services.range → ∃ svc, v = some svc ∧ svc.Name ≠ name) ∧
      (op.apply t).1.Services.range
        = putKey key (some ⟨name, some MapCells.empty⟩) t.Services.range) ∨
    (∃ key, (op.apply t).1.Services.range = eraseKey key t.Services.range) ∨
    (∃ key svc svc', t.Services.get? key = some (some svc) ∧ svc'.Name = svc.Name ∧
      (svc.Units.isSome = true → svc'.Units.isSome = true) ∧
      (op.apply t).1.Services.range = putKey key (some svc') t.Services.range) := by
  cases op with
  | AddMachine key => exact Or.inl (congrArg GoMap.range (Services_AddMachine t key))
  | RemoveMachine key => exact Or.inl (congrArg GoMap.range (Services_RemoveMachine t key))
  | AddService key name =>
    simp only [Op.apply]
    by_cases h : (AddService t key name).2 = .ok ()
    · right; left
      refine ⟨key, name, ?_⟩
      revert h
      unfold AddService
      dsimp only
      split
      · simp
      · split
        · simp
        · simp
        · rename_i e herr
          intro _
          have herr' : ServiceKey.loop name t.Services.range = .error e := by
            rw [← herr]
            unfold ServiceKey
            show _ = ServiceKey.loop name t.Services.allocate.entries
            rw [GoMap.allocate_entries]
          refine ⟨?_, ?_⟩
          · rcases ServiceKey_loop_spec name t.Services.range with
              ⟨k, svc, h1, _, _⟩ | ⟨_, h2⟩ | ⟨h1, _⟩
            · rw [h1] at herr'
              exact absurd herr' (by simp)
            · exact h2
            · rw [h1] at herr'
              exact absurd herr' (by simp)
          · show putKey key _ t.Services.allocate.entries = _
            rw [GoMap.allocate_entries]
    · left
      rw [AddService_fail t key name h]
      exact GoMap.allocate_entries _
  | RemoveService key =>
    simp only [Op.apply]
    by_cases h : (RemoveService t key).2 = .ok ()
    · right; right; left
      refine ⟨key, ?_⟩
      revert h
      unfold RemoveService
      split
      · split
        · split
          · simp
          · intro _
            cases hS : t.Services with
            | none => rfl
            | some cells => rfl
        · simp
        · simp
      · rename_i other hne
        intro h
        exact absurd h hne
    · left
      rw [RemoveService_fail t key h]
  | AddUnit key =>
    simp only [Op.apply]
    rcases AddUnit_cases t key with ⟨_, h⟩ | ⟨_, h⟩ | ⟨_, _, _, h⟩ | ⟨_, _, _, h⟩ |
      ⟨svc, units, h1, h2, _, h⟩
    · rw [h]; exact Or.inl rfl
    · rw [h]; exact Or.inl rfl
    · rw [h]; exact Or.inl rfl
    · rw [h]; exact Or.inl rfl
    · rw [h]
      exact Or.inr (Or.inr (Or.inr ⟨key.service, svc,
        { svc with Units := some (units.put key.unit (some ⟨""⟩)) }, h1, rfl, fun _ => rfl,
        range_pokeService t _ _ _ h1⟩))
  | RemoveUnit key =>
    simp only [Op.apply]
    rcases RemoveUnit_cases t key with ⟨_, h⟩ | ⟨svc, w, h1, _, h⟩
    · rw [h]; exact Or.inl rfl
    · rw [h]
      refine Or.inr (Or.inr (Or.inr ⟨key.service, svc,
        { svc with Units := svc.Units.delete key.unit }, h1, rfl, ?_,
        range_pokeService t _ _ _ h1⟩))
      intro hs
      cases hu : svc.Units with
      | none => rw [hu] at hs; simp at hs
      | some units => rfl
  | AssignUnitToMachine key machineKey =>
    simp only [Op.apply]
    rcases AssignUnitToMachine_cases t key machineKey with
      ⟨_, h⟩ | ⟨_, _, h⟩ | ⟨_, _, _, _, h⟩ | ⟨_, _, _, _, _, _, h⟩ | ⟨svc, unit, h1, _, _, _, h⟩
    · rw [h]; exact Or.inl rfl
    · rw [h]; exact Or.inl rfl
    · rw [h]; exact Or.inl rfl
    · rw [h]; exact Or.inl rfl
    · rw [h]
      refine Or.inr (Or.inr (Or.inr ⟨key.service, svc,
        { svc with Units := svc.Units.poke key.unit (some { unit with Machine := machineKey }) },
        h1, rfl, ?_, range_pokeService t _ _ _ h1⟩))
      intro hs
      cases hu : svc.Units with
      | none => rw [hu] at hs; simp at hs
      | some units => rfl
  | UnassignUnitFromMachine key =>
    simp only [Op.apply]
    rcases UnassignUnitFromMachine_cases t key with
      ⟨_, h⟩ | ⟨_, _, _, h⟩ | ⟨_, _, _, _, _, h⟩ | ⟨svc, unit, h1, _, _, h⟩
    · rw [h]; exact Or.inl rfl
    · rw [h]; exact Or.inl rfl
    · rw [h]; exact Or.inl rfl
    · rw [h]
      refine Or.inr (Or.inr (Or.inr ⟨key.service, svc,
        { svc with Units := svc.Units.poke key.unit (some { unit with Machine := "" }) },
        h1, rfl, ?_, range_pokeService t _ _ _ h1⟩))
      intro hs
      cases hu : svc.Units with
      | none => rw [hu] at hs; simp at hs
      | some units => rfl
  | AddRelation relationKey relation =>
    exact Or.inl (congrArg GoMap.range (Services_AddRelation t relationKey relation))
  | RemoveRelation key => exact Or.inl rfl


theorem run_preserves (P : topoTopology → Prop)
    (hstep : ∀ t op, P t → P (Op.apply t op).1) (ops : List Op) (t : topoTopology)
    (h : P t) : P (run t ops) := by
  induction ops generalizing t with
  | nil => exact h
  | cons op rest ih => exact ih _ (hstep t op h)

theorem unitMapsAllocated_iff (t : topoTopology) :
    unitMapsAllocated t = true ↔ ∀ k v, (k, v) ∈ t.Services.range →
      ∃ svc, v = some svc ∧ svc.Units.isSome = true := by
  unfold unitMapsAllocated
  rw [List.all_eq_true]
  constructor
  · intro h k v hm
    have := h (k, v) hm
    cases v with
    | none => simp at this
    | some svc => exact ⟨svc, rfl, this⟩
  · intro h e he
    obtain ⟨svc, hs, hu⟩ := h e.1 e.2 he
    rw [hs]
    exact hu

theorem serviceNamesUnique_step (t : topoTopology) (op : Op) (h : serviceNamesUnique t) :
    serviceNamesUnique (op.apply t).1 := by
  rcases services_step t op with hr | ⟨key, name, hno, hr⟩ | ⟨key, hr⟩ |
    ⟨key, svc, svc', hget, hname, _, hr⟩
  · unfold serviceNamesUnique
    rw [hr]
    exact h
  · unfold serviceNamesUnique
    rw [hr]
    intro k1 svc1 k2 svc2 h1 h2 hn
    rcases mem_putKey h1 with e1 | e1 <;> rcases mem_putKey h2 with e2 | e2
    · simp only [Prod.mk.injEq] at e1 e2
      rw [e1.1, e2.1]
    · simp only [Prod.mk.injEq, Option.some.injEq] at e1
      obtain ⟨s, hs, hne⟩ := hno k2 _ e2
      cases hs
      rw [e1.2] at hn
      exact absurd hn.symm hne
    · simp only [Prod.mk.injEq, Option.some.injEq] at e2
      obtain ⟨s, hs, hne⟩ := hno k1 _ e1
      cases hs
      rw [e2.2] at hn
      exact absurd hn hne
    · exact h k1 svc1 k2 svc2 e1 e2 hn
  · unfold serviceNamesUnique
    rw [hr]
    intro k1 svc1 k2 svc2 h1 h2 hn
    exact h k1 svc1 k2 svc2 ((mem_eraseKey _ _ _).1 h1).2 ((mem_eraseKey _ _ _).1 h2).2 hn
  · unfold serviceNamesUnique
    rw [hr]
    have hold : ∀ k s, (k, some s) ∈ putKey key (some svc') t.Services.range →
        ∃ s', (k, some s') ∈ t.Services.range ∧ s'.Name = s.Name := by
      intro k s hm
      rcases mem_putKey hm with e | e
      · simp only [Prod.mk.injEq, Option.some.injEq] at e
        refine ⟨svc, ?_, ?_⟩
        · rw [e.1]
          exact GoMap.get?_mem hget
        · rw [e.2, hname]
      · exact ⟨s, e, rfl⟩
    intro k1 svc1 k2 svc2 h1 h2 hn
    obtain ⟨s1, hm1, hn1⟩ := hold k1 svc1 h1
    obtain ⟨s2, hm2, hn2⟩ := hold k2 svc2 h2
    exact h k1 s1 k2 s2 hm1 hm2 (by rw [hn1, hn2, hn])

theorem unitMapsAllocated_step (t : topoTopology) (op : Op)
    (h : unitMapsAllocated t = true) : unitMapsAllocated (op.apply t).1 = true := by
  rw [unitMapsAllocated_iff] at h ⊢
  rcases services_step t op with hr | ⟨key, name, _, hr⟩ | ⟨key, hr⟩ |
    ⟨key, svc, svc', hget, _, hunits, hr⟩
  · rw [hr]
    exact h
  · rw [hr]
    intro k v hm
    rcases mem_putKey hm with e | e
    · simp only [Prod.mk.injEq] at e
      exact ⟨_, e.2, rfl⟩
    · exact h k v e
  · rw [hr]
    intro k v hm
    exact h k v ((mem_eraseKey _ _ _).1 hm).2
  · rw [hr]
    intro k v hm
    rcases mem_putKey hm with e | e
    · simp only [Prod.mk.injEq] at e
      refine ⟨svc', e.2, hunits ?_⟩
      obtain ⟨s, hs, hu⟩ := h key (some svc) (GoMap.get?_mem hget)
      cases hs
      exact hu
    · exact h k v e

theorem reachable_serviceNamesUnique (ops : List Op) :
    serviceNamesUnique (run emptyTopology ops) := by
  refine run_preserves serviceNamesUnique serviceNamesUnique_step ops emptyTopology ?_
  intro k1 svc1 k2 svc2 h1
  simp [emptyTopology, GoMap.range] at h1

/-- Every topology the operations build from the empty topology has its service pointers set
and their units maps allocated. -/
theorem reachable_unitMapsAllocated (ops : List Op) :
    unitMapsAllocated (run emptyTopology ops) = true :=
  run_preserves (fun t => unitMapsAllocated t = true) unitMapsAllocated_step ops
    emptyTopology (by decide)

theorem servicesAllocated_of_allocated (t : topoTopology) (h : allocated t = true) :
    servicesAllocated t = true := by
  unfold allocated at h
  rw [Bool.and_eq_true, Bool.and_eq_true] at h
  exact h.1.2

/-- With unique names, `ServiceKey` returns the key of the one service that has the name. -/
theorem ServiceKey_of_unique (t : topoTopology) (halloc : servicesAllocated t = true)
    (huniq : serviceNamesUnique t) (k : String) (svc : topoService)
    (hm : (k, some svc) ∈ t.Services.range) : ServiceKey t svc.Name = .ok k := by
  obtain ⟨k', hk'⟩ := (nameInUse_iff_ServiceKey t
    (servicePointersSet_of_servicesAllocated t halloc) svc.Name).1.2 ⟨k, svc, hm, rfl⟩
  rcases ServiceKey_loop_spec svc.Name t.Services.range with
    ⟨k'', svc'', h1, h2, h3⟩ | ⟨h1, _⟩ | ⟨h1, _⟩
  · have : ServiceKey t svc.Name = .ok k'' := h1
    rw [this, huniq k'' svc'' k svc h2 hm h3]
  · have : ServiceKey t svc.Name = _ := h1
    rw [this] at hk'
    exact absurd hk' (by simp)
  · have : ServiceKey t svc.Name = _ := h1
    rw [this] at hk'
    exact absurd hk' (by simp)


theorem assertUnit_eq (t : topoTopology) (key : unitKey) :
    assertUnit t key =
      match unitCell t key with
      | none => .error (.errorf "service with key %q not found" [key.service])
      | some none => .panic
      | some (some none) => .error (.errorf "unit with key %q not found" [key.unit])
      | some (some (some _)) => .ok () := by
  unfold assertUnit assertService unitCell
  cases hs : t.Services.get? key.service with
  | none => rfl
  | some v =>
    cases v with
    | none => rfl
    | some svc =>
      dsimp only [Option.map]
      cases hu : svc.Units.get? key.unit <;> rfl

theorem UnitMachineKey_eq (t : topoTopology) (key : unitKey) :
    UnitMachineKey t key =
      match unitCell t key with
      | none => .error (.errorf "service with key %q not found" [key.service])
      | some none => .panic
      | some (some none) => .error (.errorf "unit with key %q not found" [key.unit])
      | some (some (some none)) => .panic
      | some (some (some (some unit))) =>
        if unit.Machine = "" then .error .unitNotAssigned else .ok unit.Machine := by
  unfold UnitMachineKey
  rw [assertUnit_eq]
  unfold unitPointer unitCell
  cases hs : t.Services.get? key.service with
  | none => rfl
  | some v =>
    cases v with
    | none => rfl
    | some svc =>
      dsimp only [Option.map]
      cases hu : svc.Units.get? key.unit with
      | none => rfl
      | some w =>
        cases w with
        | none => rfl
        | some unit => rfl

theorem HasUnit_eq (t : topoTopology) (key : unitKey) :
    HasUnit t key =
      match unitCell t key with
      | some none => .panic
      | some (some (some _)) => .ok true
      | _ => .ok false := by
  unfold HasUnit
  rw [assertUnit_eq]
  cases h : unitCell t key with
  | none => rfl
  | some a =>
    cases a with
    | none => rfl
    | some b =>
      cases b with
      | none => rfl
      | some c => rfl

/-- The cells of the units after the unit map of one service is rewritten. -/
theorem unitCell_pokeService (t : topoTopology) (k : String) (svc svc' : topoService)
    (h : t.Services.get? k = some (some svc)) (key : unitKey) :
    unitCell (pokeService t k svc') key =
      if k = key.service then some (some (svc'.Units.get? key.unit)) else unitCell t key := by
  unfold unitCell
  rw [get?_pokeService t k key.service svc' _ h]
  by_cases hk : k = key.service
  · simp [hk]
  · simp [hk]

theorem unitCell_of_get? (t : topoTopology) (key : unitKey) (svc : topoService)
    (h : t.Services.get? key.service = some (some svc)) :
    unitCell t key = some (some (svc.Units.get? key.unit)) := by
  unfold unitCell
  rw [h]
  rfl

/-- Rewriting the cell of one unit leaves the cell of every other unit as it was. -/
theorem unitCell_poke_other (t : topoTopology) (key key' : unitKey) (svc : topoService)
    (units : GoMap String (Option topoUnit))
    (h : t.Services.get? key.service = some (some svc))
    (hunits : ∀ u, u ≠ key.unit → units.get? u = svc.Units.get? u) (hne : key' ≠ key) :
    unitCell (pokeService t key.service { svc with Units := units }) key' = unitCell t key' := by
  rw [unitCell_pokeService t key.service svc _ h]
  by_cases hk : key.service = key'.service
  · rw [if_pos hk]
    have hu : key'.unit ≠ key.unit := by
      intro hu
      apply hne
      cases key
      cases key'
      simp only at hk hu
      rw [hk, hu]
    rw [unitCell_of_get? t key' svc (hk ▸ h)]
    dsimp only
    rw [hunits _ hu]
  · rw [if_neg hk]


theorem get?_put_cells {K V : Type} [DecidableEq K] (cells : MapCells K V) (k k' : K) (v : V) :
    GoMap.get? (some (cells.put k v)) k' = if k = k' then some v else GoMap.get? (some cells) k' :=
  lookupKey_putKey k k' v cells.entries

/-- What `AddUnit` does on a topology whose services are as `AddService` makes them. -/
theorem AddUnit_spec (t : topoTopology) (key : unitKey)
    (hmade : unitMapsAllocated t = true) :
    (key.service ∉ t.Services.keys ∧
      AddUnit t key = (t, .error (.errorf "service with key %q not found" [key.service]))) ∨
    (∃ svc, t.Services.get? key.service = some (some svc) ∧ key.unit ∈ svc.Units.keys ∧
      AddUnit t key =
        (t, .error (.errorf "unit %q already in use in service %q" [key.unit, key.service]))) ∨
    (∃ svc units, t.Services.get? key.service = some (some svc) ∧ svc.Units = some units ∧
      key.unit ∉ svc.Units.keys ∧
      AddUnit t key =
        (pokeService t key.service { svc with Units := some (units.put key.unit (some ⟨""⟩)) },
          .ok ())) := by
  have hm := (unitMapsAllocated_iff t).1 hmade
  rcases AddUnit_cases t key with h | ⟨h1, _⟩ | h | ⟨svc, h1, h2, _⟩ | h
  · exact Or.inl h
  · obtain ⟨svc, hs, _⟩ := hm _ _ (GoMap.get?_mem h1)
    exact absurd hs (by simp)
  · exact Or.inr (Or.inl h)
  · obtain ⟨svc', hs, hu⟩ := hm _ _ (GoMap.get?_mem h1)
    cases hs
    rw [h2] at hu
    exact absurd hu (by simp)
  · exact Or.inr (Or.inr h)


theorem unitExists_of_gets (t : topoTopology) (key : unitKey) (svc : topoService)
    (w : Option topoUnit) (h1 : t.Services.get? key.service = some (some svc))
    (h2 : svc.Units.get? key.unit = some w) : unitExists t key :=
  ⟨svc, h1, (mem_keys_iff_get? _ _).2 ⟨w, h2⟩⟩

/-- When `assertUnit` does not return nil and the pointers stored for the unit are set, it
fails as not found and the unit does not exist. -/
theorem assertUnit_fails (t : topoTopology) (key : unitKey)
    (halloc : unitPointersSet t key = true) (h : assertUnit t key ≠ .ok ()) :
    failsNotFound (assertUnit t key) ∧ ¬ unitExists t key := by
  rcases assertUnit_cases t key with ⟨h1, h2⟩ | ⟨h1, _⟩ | ⟨svc, h1, h2, h3⟩ | ⟨_, _, _, _, h4⟩
  · refine ⟨⟨key.service, Or.inl h2⟩, ?_⟩
    rintro ⟨svc, hs, _⟩
    exact h1 ((mem_keys_iff_get? _ _).2 ⟨_, hs⟩)
  · unfold unitPointersSet at halloc
    rw [h1] at halloc
    exact absurd halloc (by simp)
  · refine ⟨⟨key.unit, Or.inr (Or.inl h3)⟩, ?_⟩
    rintro ⟨svc', hs, hu⟩
    rw [h1] at hs
    cases hs
    exact h2 hu
  · exact absurd h4 h

theorem unitPointersSet_of_servicesAllocated (t : topoTopology)
    (halloc : servicesAllocated t = true) (key : unitKey) : unitPointersSet t key = true := by
  unfold unitPointersSet
  cases h1 : t.Services.get? key.service with
  | none => rfl
  | some v =>
    obtain ⟨svc, hs, hu⟩ := (servicesAllocated_iff t).1 halloc _ _ (GoMap.get?_mem h1)
    subst hs
    dsimp only
    cases h2 : svc.Units.get? key.unit with
    | none => rfl
    | some w =>
      cases w with
      | none => exact absurd rfl (hu _ _ (GoMap.get?_mem h2))
      | some unit => rfl

theorem unitPointersSet_unit (t : topoTopology) (key : unitKey)
    (halloc : unitPointersSet t key = true) (svc : topoService) (w : Option topoUnit)
    (h1 : t.Services.get? key.service = some (some svc))
    (h2 : svc.Units.get? key.unit = some w) : ∃ unit, w = some unit := by
  unfold unitPointersSet at halloc
  rw [h1] at halloc
  dsimp only at halloc
  rw [h2] at halloc
  cases w with
  | none => exact absurd halloc (by simp)
  | some unit => exact ⟨unit, rfl⟩

theorem not_failsNotFound_ok : ¬ failsNotFound (.ok ()) := by
  rintro ⟨k, h | h | h⟩ <;> simp at h

theorem not_failsNotFound_assigned (a b c : String) :
    ¬ failsNotFound
      (.error (.errorf "unit %q in service %q already assigned to machine %q" [a, b, c])) := by
  rintro ⟨k, h | h | h⟩ <;>
    exact absurd (GoError.errorf.injEq _ _ _ _ ▸ Result.error.inj h).1 (by decide)

theorem not_failsNotFound_unassigned (a b : String) :
    ¬ failsNotFound
      (.error (.errorf "unit %q in service %q not assigned to a machine" [a, b])) := by
  rintro ⟨k, h | h | h⟩ <;>
    exact absurd (GoError.errorf.injEq _ _ _ _ ▸ Result.error.inj h).1 (by decide)

/-- What `AssignUnitToMachine` does when the pointers stored for the unit are set. -/
theorem AssignUnitToMachine_spec (t : topoTopology) (key : unitKey) (machineKey : String)
    (halloc : unitPointersSet t key = true) :
    (¬ unitExists t key ∧ failsNotFound (AssignUnitToMachine t key machineKey).2 ∧
      (AssignUnitToMachine t key machineKey).1 = t) ∨
    (unitExists t key ∧ machineKey ∉ t.Machines.keys ∧
      AssignUnitToMachine t key machineKey =
        (t, .error (.errorf "machine with key %q not found" [machineKey]))) ∨
    (∃ svc unit, t.Services.get? key.service = some (some svc) ∧
      svc.Units.get? key.unit = some (some unit) ∧ machineKey ∈ t.Machines.keys ∧
      unit.Machine ≠ "" ∧
      AssignUnitToMachine t key machineKey =
        (t, .error (.errorf "unit %q in service %q already assigned to machine %q"
          [key.unit, key.service, unit.Machine]))) ∨
    (∃ svc unit, t.Services.get? key.service = some (some svc) ∧
      svc.Units.get? key.unit = some (some unit) ∧ machineKey ∈ t.Machines.keys ∧
      unit.Machine = "" ∧
      AssignUnitToMachine t key machineKey =
        (pokeService t key.service
          { svc with Units := svc.Units.poke key.unit (some { unit with Machine := machineKey }) },
          .ok ())) := by
  rcases AssignUnitToMachine_cases t key machineKey with
    ⟨h1, h2⟩ | ⟨h1, h2, h3⟩ | ⟨svc, h1, h2, _, _⟩ | h | h
  · obtain ⟨hnf, hno⟩ := assertUnit_fails t key halloc h1
    left
    rw [h2]
    exact ⟨hno, hnf, rfl⟩
  · right; left
    refine ⟨?_, h2, h3⟩
    rcases assertUnit_cases t key with ⟨_, h⟩ | ⟨_, h⟩ | ⟨_, _, _, h⟩ | ⟨svc, w, hs, hu, _⟩
    · rw [h] at h1; exact absurd h1 (by simp)
    · rw [h] at h1; exact absurd h1 (by simp)
    · rw [h] at h1; exact absurd h1 (by simp)
    · exact unitExists_of_gets t key svc w hs hu
  · obtain ⟨unit, hu⟩ := unitPointersSet_unit t key halloc svc none h1 h2
    exact absurd hu (by simp)
  · exact Or.inr (Or.inr (Or.inl h))
  · exact Or.inr (Or.inr (Or.inr h))

/-- What `UnassignUnitFromMachine` does when the pointers stored for the unit are set. -/
theorem UnassignUnitFromMachine_spec (t : topoTopology) (key : unitKey)
    (halloc : unitPointersSet t key = true) :
    (¬ unitExists t key ∧ failsNotFound (UnassignUnitFromMachine t key).2 ∧
      (UnassignUnitFromMachine t key).1 = t) ∨
    (∃ svc unit, t.Services.get? key.service = some (some svc) ∧
      svc.Units.get? key.unit = some (some unit) ∧ unit.Machine = "" ∧
      UnassignUnitFromMachine t key =
        (t, .error (.errorf "unit %q in service %q not assigned to a machine"
          [key.unit, key.service]))) ∨
    (∃ svc unit, t.Services.get? key.service = some (some svc) ∧
      svc.Units.get? key.unit = some (some unit) ∧ unit.Machine ≠ "" ∧
      UnassignUnitFromMachine t key =
        (pokeService t key.service
          { svc with Units := svc.Units.poke key.unit (some { unit with Machine := "" }) },
          .ok ())) := by
  rcases UnassignUnitFromMachine_cases t key with ⟨h1, h2⟩ | ⟨svc, h1, h2, _⟩ | h | h
  · obtain ⟨hnf, hno⟩ := assertUnit_fails t key halloc h1
    left
    rw [h2]
    exact ⟨hno, hnf, rfl⟩
  · obtain ⟨unit, hu⟩ := unitPointersSet_unit t key halloc svc none h1 h2
    exact absurd hu (by simp)
  · exact Or.inr (Or.inl h)
  · exact Or.inr (Or.inr h)

/-- The topology after the machine field of one unit is written. -/
theorem unitCell_after_write (t : topoTopology) (key : unitKey) (svc : topoService)
    (unit : topoUnit) (w : Option topoUnit)
    (h1 : t.Services.get? key.service = some (some svc))
    (h2 : svc.Units.get? key.unit = some w) :
    unitCell (pokeService t key.service
        { svc with Units := svc.Units.poke key.unit (some unit) }) key
      = some (some (some (some unit))) ∧
    (∀ key', key' ≠ key →
      unitCell (pokeService t key.service
        { svc with Units := svc.Units.poke key.unit (some unit) }) key' = unitCell t key') ∧
    (∀ k, k ≠ key.service →
      (pokeService t key.service
        { svc with Units := svc.Units.poke key.unit (some unit) }).Services.get? k
        = t.Services.get? k) ∧
    (pokeService t key.service
        { svc with Units := svc.Units.poke key.unit (some unit) }).Services.get? key.service
      = some (some { svc with Units := svc.Units.poke key.unit (some unit) }) ∧
    (∀ u, u ≠ key.unit →
      (svc.Units.poke key.unit (some unit)).get? u = svc.Units.get? u) := by
  have hunits : ∀ u, (svc.Units.poke key.unit (some unit)).get? u
      = if key.unit = u then some (some unit) else svc.Units.get? u :=
    fun u => get?_poke_of_get? svc.Units key.unit u _ _ h2
  have hothers : ∀ u, u ≠ key.unit →
      (svc.Units.poke key.unit (some unit)).get? u = svc.Units.get? u := by
    intro u hu
    rw [hunits]
    have : ¬ key.unit = u := fun h => hu h.symm
    simp [this]
  refine ⟨?_, ?_, ?_, ?_, hothers⟩
  · rw [unitCell_pokeService t key.service svc _ h1, if_pos rfl]
    dsimp only
    rw [hunits, if_pos rfl]
  · intro key' hne
    exact unitCell_poke_other t key key' svc _ h1 hothers hne
  · intro k hk
    rw [get?_pokeService t key.service k _ _ h1]
    have : ¬ key.service = k := fun h => hk h.symm
    simp [this]
  · rw [get?_pokeService t key.service key.service _ _ h1, if_pos rfl]


/-- The branch of `AssignUnitToMachine` that returns nil. -/
theorem AssignUnitToMachine_ok (t : topoTopology) (key : unitKey) (machineKey : String)
    (hok : (AssignUnitToMachine t key machineKey).2 = .ok ()) :
    ∃ svc unit, t.Services.get? key.service = some (some svc) ∧
      svc.Units.get? key.unit = some (some unit) ∧ machineKey ∈ t.Machines.keys ∧
      unit.Machine = "" ∧
      AssignUnitToMachine t key machineKey =
        (pokeService t key.service
          { svc with Units := svc.Units.poke key.unit (some { unit with Machine := machineKey }) },
          .ok ()) := by
  rcases AssignUnitToMachine_cases t key machineKey with
    ⟨h1, h2⟩ | ⟨_, _, h3⟩ | ⟨_, _, _, _, h3⟩ | ⟨_, _, _, _, _, _, h3⟩ | h
  · rw [h2] at hok
    exact absurd hok h1
  · rw [h3] at hok
    exact absurd hok (by simp)
  · rw [h3] at hok
    exact absurd hok (by simp)
  · rw [h3] at hok
    exact absurd hok (by simp)
  · exact h


/-- C11 at a failing input: for a service whose units were added in descending order of
their keys, `UnitKeys` returns the keys in that order, which is not ascending; for the same
units added in ascending order it returns them the other way round.  The result follows
the order of the cells and is not sorted. -/
theorem UnitKeys_not_sorted :
    UnitKeys descendingUnitsTopology "service-0"
      = .ok (some [⟨"service-0", "unit-1"⟩, ⟨"service-0", "unit-0"⟩]) ∧
    ¬ (List.Sorted (fun a b : unitKey => a.unit < b.unit)
        [⟨"service-0", "unit-1"⟩, ⟨"service-0", "unit-0"⟩]) ∧
    UnitKeys ascendingUnitsTopology "service-0"
      = .ok (some [⟨"service-0", "unit-0"⟩, ⟨"service-0", "unit-1"⟩]) := by
  refine ⟨by decide, ?_, by decide⟩
  intro h
  have hlt : ("unit-1" : String) < "unit-0" := by
    simpa [List.Sorted] using h
  rw [String.lt_iff_toList_lt] at hlt
  exact absurd hlt (by decide)


/-- C12, amended: on a topology whose service pointers are all set, `AddService(key, name)`
fails as a duplicate key exactly when a service with the key exists; otherwise fails as name in
use exactly when some service has the name; otherwise succeeds, and then `ServiceName(key)`
returns `name`, `ServiceKey(name)` returns `key`, the new service has no units, every other
service, the machines, the relations and the version are as before, and a further `AddService`
of the same name under another key fails. -/
theorem AddService_outcomes (t : topoTopology) (key name : String)
    (halloc : servicePointersSet t = true) :
    ((AddService t key name).2 =
        .error (.errorf "attempted to add duplicated service %q" [key]) ↔
      HasService t key = true) ∧
    (HasService t key = false →
      ((AddService t key name).2 = .error (.errorf "service name %q already in use" [name]) ↔
        ∃ k svc, (k, some svc) ∈ t.Services.range ∧ svc.Name = name)) ∧
    ((AddService t key name).2 = .ok () ↔
      HasService t key = false ∧
        ¬ ∃ k svc, (k, some svc) ∈ t.Services.range ∧ svc.Name = name) ∧
    ((AddService t key name).2 = .ok () →
      ServiceName (AddService t key name).1 key = .ok name ∧
      ServiceKey (AddService t key name).1 name = .ok key ∧
      UnitKeys (AddService t key name).1 key = .ok (some []) ∧
      (∀ k, k ≠ key → (AddService t key name).1.Services.get? k = t.Services.get? k) ∧
      (AddService t key name).1.Machines = t.Machines ∧
      (AddService t key name).1.Relations = t.Relations ∧
      (AddService t key name).1.Version = t.Version ∧
      ∀ key2, key2 ≠ key →
        (AddService (AddService t key name).1 key2 name).2.isError = true ∧
        (HasService t key2 = false →
          (AddService (AddService t key name).1 key2 name).2 =
            .error (.errorf "service name %q already in use" [name]))) := by
  have hhas : ∀ k, HasService t k = false ↔ k ∉ t.Services.keys := by
    intro k
    rw [← HasService_iff_mem t halloc k]
    simp
  have hspec := AddService_spec t key name halloc
  refine ⟨?_, ?_, ?_, ?_⟩
  · rw [HasService_iff_mem t halloc key]
    rcases hspec with ⟨h1, h2⟩ | ⟨h1, h2, h3⟩ | ⟨h1, h2, h3⟩
    · rw [h2]
      simp [h1]
    · rw [h3]
      simp [h1]
    · rw [h3]
      simp [h1]
  · intro hk
    rw [hhas] at hk
    rcases hspec with ⟨h1, h2⟩ | ⟨h1, h2, h3⟩ | ⟨h1, h2, h3⟩
    · exact absurd h1 hk
    · rw [h3]
      simp only [true_iff]
      exact h2
    · rw [h3]
      simp only [reduceCtorEq, false_iff]
      exact h2
  · rw [hhas]
    rcases hspec with ⟨h1, h2⟩ | ⟨h1, h2, h3⟩ | ⟨h1, h2, h3⟩
    · rw [h2]
      simp [h1]
    · rw [h3]
      simp only [reduceCtorEq, false_iff, not_and, not_not]
      exact fun _ => h2
    · rw [h3]
      simp only [true_iff]
      exact ⟨h1, h2⟩
  · intro hok
    rcases hspec with ⟨h1, h2⟩ | ⟨h1, h2, h3⟩ | ⟨h1, h2, h3⟩
    · rw [h2] at hok
      exact absurd hok (by simp)
    · rw [h3] at hok
      exact absurd hok (by simp)
    · rw [h3]
      dsimp only
      obtain ⟨hget, halloc', hname, hkey, hunits⟩ := AddService_added t key name halloc h2 _ rfl
      refine ⟨hname, hkey, hunits, ?_, rfl, rfl, rfl, ?_⟩
      · intro k hk
        rw [hget]
        have : ¬ key = k := fun h => hk h.symm
        simp [this]
      · intro key2 hk2
        have hne : ¬ key = key2 := fun h => hk2 h.symm
        have hnew : ∃ k svc, (k, some svc) ∈
            (GoMap.range (some (t.Services.allocate.put key
              (some (⟨name, some MapCells.empty⟩ : topoService))))) ∧ svc.Name = name := by
          refine ⟨key, ⟨name, some MapCells.empty⟩, ?_, rfl⟩
          apply GoMap.get?_mem
          have := hget key
          simp only [if_true] at this
          exact this
        rcases AddService_spec _ key2 name halloc' with ⟨_, h5⟩ | ⟨_, _, h5⟩ | ⟨_, h4, _⟩
        · rw [h5]
          refine ⟨rfl, ?_⟩
          intro hno
          have hmem2 := (mem_keys_iff_get? _ _).1 ‹key2 ∈ _›
          obtain ⟨v, hv⟩ := hmem2
          rw [hget] at hv
          simp only [hne, if_false] at hv
          have : key2 ∈ t.Services.keys := (mem_keys_iff_get? _ _).2 ⟨v, hv⟩
          exact absurd this ((hhas key2).1 hno)
        · rw [h5]
          exact ⟨rfl, fun _ => rfl⟩
        · exact absurd hnew h4

/-- Witness for C12: on the empty topology `AddService(k, "web")` succeeds and a following
`AddService(k2, "web")` under another key fails as name in use. -/
theorem AddService_outcomes_witness :
    servicePointersSet emptyTopology = true ∧
    (AddService emptyTopology "service-0" "web").2 = .ok () ∧
    (AddService (AddService emptyTopology "service-0" "web").1 "service-1" "web").2
      = .error (.errorf "service name %q already in use" ["web"]) ∧
    ServiceKey (AddService emptyTopology "service-0" "web").1 "web" = .ok "service-0" :=
  ⟨by decide, by decide, by decide,
    ((AddService_outcomes emptyTopology "service-0" "web" (by decide)).2.2.2 (by decide)).2.1⟩

/-- Counterexample to C12 as stated: in `nilServiceTopology` the key `service-0` is stored
with a nil pointer.  No service has the key `service-1` and no service has the name `web`,
yet `AddService("service-1", "web")` does not succeed: the scan for the name reads the
name through the nil pointer and panics. -/
theorem AddService_nil_service_counterexample :
    "service-1" ∉ nilServiceTopology.Services.keys ∧
    HasService nilServiceTopology "service-1" = false ∧
    (¬ ∃ k svc, (k, some svc) ∈ nilServiceTopology.Services.range ∧ svc.Name = "web") ∧
    (AddService nilServiceTopology "service-1" "web").2 = .panic ∧
    (AddService nilServiceTopology "service-1" "web").2 ≠ .ok () := by
  refine ⟨by decide, by decide, ?_, by decide, by decide⟩
  rintro ⟨k, svc, hm, _⟩
  simp [nilServiceTopology, GoMap.range] at hm

/-- C13: in every topology reached from the empty topology by a finite sequence of calls of
the operations, no two distinct service keys carry the same name; so `ServiceKey(name)`
returns the key of any service that has the name, whatever the order of the scan, and
`ServiceKey(ServiceName(k))` returns `k` for every existing service key `k`. -/
theorem reachable_service_names_unique (ops : List Op) :
    serviceNamesUnique (run emptyTopology ops) ∧
    (∀ k svc, (k, some svc) ∈ (run emptyTopology ops).Services.range →
      ServiceKey (run emptyTopology ops) svc.Name = .ok k) ∧
    (∀ k, k ∈ (run emptyTopology ops).Services.keys →
      ∃ name, ServiceName (run emptyTopology ops) k = .ok name ∧
        ServiceKey (run emptyTopology ops) name = .ok k) ∧
    (∀ k name, ServiceName (run emptyTopology ops) k = .ok name →
      ServiceKey (run emptyTopology ops) name = .ok k) := by
  have huniq := reachable_serviceNamesUnique ops
  have halloc := servicesAllocated_of_allocated _ (reachable_allocated ops)
  have hkey := ServiceKey_of_unique (run emptyTopology ops) halloc huniq
  have hname : ∀ k name, ServiceName (run emptyTopology ops) k = .ok name →
      ∃ svc, (k, some svc) ∈ (run emptyTopology ops).Services.range ∧ svc.Name = name := by
    intro k name h
    unfold ServiceName at h
    split at h
    · rename_i svc hs
      simp only [Result.ok.injEq] at h
      exact ⟨svc, GoMap.get?_mem hs, h⟩
    · simp at h
    · simp at h
  refine ⟨huniq, hkey, ?_, ?_⟩
  · intro k hk
    obtain ⟨v, hv⟩ := (mem_keys_iff_get? _ _).1 hk
    obtain ⟨svc, hs⟩ := servicesAllocated_some _ halloc k v (GoMap.get?_mem hv)
    subst hs
    refine ⟨svc.Name, ?_, hkey k svc (GoMap.get?_mem hv)⟩
    unfold ServiceName
    rw [hv]
  · intro k name h
    obtain ⟨svc, hm, hn⟩ := hname k name h
    rw [← hn]
    exact hkey k svc hm


/-- C14, amended: on a topology whose relation and side pointers are all set,
`RemoveService(key)` fails as not found exactly when the service is absent; for a present
service it fails as in use exactly when some stored relation has a side whose service key is
`key`; otherwise it succeeds, and then the service is gone with its units, while every other
service, the machines, the relations and the version are as before. -/
theorem RemoveService_outcomes (t : topoTopology) (key : String)
    (halloc : relationsAllocated t = true) :
    ((RemoveService t key).2 = .error (.errorf "service with key %q not found" [key]) ↔
      key ∉ t.Services.keys) ∧
    (key ∈ t.Services.keys →
      ((RemoveService t key).2 =
          .error (.errorf "cannot remove service %q with active relations" [key]) ↔
        ∃ rk rel, (rk, some rel) ∈ t.Relations.range ∧ rel.references key)) ∧
    ((RemoveService t key).2 = .ok () ↔
      key ∈ t.Services.keys ∧
        ¬ ∃ rk rel, (rk, some rel) ∈ t.Relations.range ∧ rel.references key) ∧
    ((RemoveService t key).2 = .ok () →
      (RemoveService t key).1 = { t with Services := t.Services.delete key } ∧
      key ∉ (RemoveService t key).1.Services.keys ∧
      (∀ unit, HasUnit (RemoveService t key).1 ⟨key, unit⟩ = .ok false) ∧
      (∀ k, k ≠ key → (RemoveService t key).1.Services.get? k = t.Services.get? k) ∧
      (RemoveService t key).1.Machines = t.Machines ∧
      (RemoveService t key).1.Relations = t.Relations ∧
      (RemoveService t key).1.Version = t.Version) := by
  have hspec := RemoveService_spec t key halloc
  refine ⟨?_, ?_, ?_, ?_⟩
  · rcases hspec with ⟨h1, h2⟩ | ⟨h1, h2, h3⟩ | ⟨h1, h2, h3⟩
    · rw [h2]
      simp [h1]
    · rw [h3]
      simp [h1]
    · rw [h3]
      simp [h1]
  · intro hmem
    rcases hspec with ⟨h1, h2⟩ | ⟨h1, h2, h3⟩ | ⟨h1, h2, h3⟩
    · exact absurd hmem h1
    · rw [h3]
      simp only [true_iff]
      exact h2
    · rw [h3]
      simp only [reduceCtorEq, false_iff]
      exact h2
  · rcases hspec with ⟨h1, h2⟩ | ⟨h1, h2, h3⟩ | ⟨h1, h2, h3⟩
    · rw [h2]
      simp [h1]
    · rw [h3]
      simp only [reduceCtorEq, false_iff, not_and, not_not]
      exact fun _ => h2
    · rw [h3]
      simp only [true_iff]
      exact ⟨h1, h2⟩
  · intro hok
    rcases hspec with ⟨h1, h2⟩ | ⟨h1, h2, h3⟩ | ⟨h1, h2, h3⟩
    · rw [h2] at hok
      exact absurd hok (by simp)
    · rw [h3] at hok
      exact absurd hok (by simp)
    · rw [h3]
      have hgone : key ∉ (t.Services.delete key).keys := GoMap.not_mem_keys_delete _ key
      refine ⟨rfl, hgone, ?_, ?_, rfl, rfl, rfl⟩
      · intro unit
        unfold HasUnit assertUnit
        rcases assertService_cases { t with Services := t.Services.delete key } key with
          ⟨_, h⟩ | ⟨h, _⟩
        · exact absurd h hgone
        · rw [h]
      · intro k hk
        show (t.Services.delete key).get? k = _
        rw [GoMap.get?_delete]
        have : ¬ key = k := fun h => hk h.symm
        simp [this]

/-- Witness for C14 on the topology of the endpoint resolution scenario: `svc-a` is in use
by the stored relation. -/
theorem RemoveService_outcomes_witness :
    relationsAllocated httpTopology = true ∧
    (RemoveService httpTopology "svc-a").2 =
      .error (.errorf "cannot remove service %q with active relations" ["svc-a"]) ∧
    (∃ rk rel, (rk, some rel) ∈ httpTopology.Relations.range ∧ rel.references "svc-a") :=
  ⟨by decide, by decide,
    ((RemoveService_outcomes httpTopology "svc-a" (by decide)).2.1 (by decide)).1 (by decide)⟩

/-- Counterexample to C14 as stated: in `nilRelationTopology` the service `svc-a` exists and
no stored relation has a side whose service key is `svc-a`, the one relation key being
stored with a nil pointer; yet `RemoveService("svc-a")` does not succeed: the scan of the
relations reads the sides through the nil pointer and panics. -/
theorem RemoveService_nil_relation_counterexample :
    "svc-a" ∈ nilRelationTopology.Services.keys ∧
    (¬ ∃ rk rel, (rk, some rel) ∈ nilRelationTopology.Relations.range ∧
      rel.references "svc-a") ∧
    (RemoveService nilRelationTopology "svc-a").2 = .panic ∧
    (RemoveService nilRelationTopology "svc-a").2 ≠ .ok () := by
  refine ⟨by decide, ?_, by decide, by decide⟩
  rintro ⟨rk, rel, hm, _⟩
  simp [nilRelationTopology, GoMap.range] at hm

/-- C15, amended: on a topology whose relation and side pointers are all set,
`RelationsForService(s)` for an existing service returns a map that has key `k` exactly when the
relation stored under `k` has a side whose service key is `s`, and holds under each such key the
relation stored under it; for an absent service it fails as not found.  The call only reads the
topology: it returns no topology. -/
theorem RelationsForService_characterised (t : topoTopology) (serviceKey : String)
    (halloc : relationsAllocated t = true) :
    (serviceKey ∈ t.Services.keys →
      ∃ relations, RelationsForService t serviceKey = .ok (some relations) ∧
        (∀ k, k ∈ GoMap.keys (some relations) ↔
          ∃ rel, (k, some rel) ∈ t.Relations.range ∧ rel.references serviceKey) ∧
        (∀ k v, GoMap.get? (some relations) k = some v → t.Relations.get? k = some v)) ∧
    (serviceKey ∉ t.Services.keys →
      RelationsForService t serviceKey
        = .error (.errorf "service with key %q not found" [serviceKey])) := by
  refine ⟨?_, RelationsForService_absent t serviceKey⟩
  intro hmem
  obtain ⟨relations, hrel, ha, hb⟩ := RelationsForService_spec t serviceKey halloc hmem
  refine ⟨relations, hrel, ?_, ?_⟩
  · intro k
    rw [mem_keys_iff_get?]
    constructor
    · rintro ⟨v, hv⟩
      by_contra hno
      rw [hb k hno] at hv
      exact absurd hv (by simp)
    · rintro ⟨rel, hm, hr⟩
      exact ⟨some rel, ha k rel hm hr⟩
  · intro k v hv
    by_cases hex : ∃ rel, (k, some rel) ∈ t.Relations.range ∧ rel.references serviceKey
    · obtain ⟨rel, hm, hr⟩ := hex
      rw [ha k rel hm hr] at hv
      rw [← Option.some.inj hv]
      exact GoMap.get?_of_mem hm
    · rw [hb k hex] at hv
      exact absurd hv (by simp)

/-- Witness for C15 on the topology of the endpoint resolution scenario. -/
theorem RelationsForService_characterised_witness :
    relationsAllocated httpTopology = true ∧
    RelationsForService httpTopology "svc-b"
      = .ok (some ⟨[("relation-0", some httpRelation)], by decide⟩) ∧
    (∃ relations, RelationsForService httpTopology "svc-b" = .ok (some relations) ∧
      ∀ k, k ∈ GoMap.keys (some relations) ↔
        ∃ rel, (k, some rel) ∈ httpTopology.Relations.range ∧ rel.references "svc-b") :=
  ⟨by decide, by decide,
    match (RelationsForService_characterised httpTopology "svc-b" (by decide)).1 (by decide) with
    | ⟨relations, h1, h2, _⟩ => ⟨relations, h1, h2⟩⟩

/-- Counterexample to C15 as stated: in `nilRelationTopology` the service `svc-a` exists, yet
`RelationsForService("svc-a")` returns no mapping: the scan of the relations reads the
sides through the nil relation pointer and panics. -/
theorem RelationsForService_nil_relation_counterexample :
    "svc-a" ∈ nilRelationTopology.Services.keys ∧
    HasService nilRelationTopology "svc-a" = true ∧
    RelationsForService nilRelationTopology "svc-a" = .panic ∧
    ¬ ∃ relations, RelationsForService nilRelationTopology "svc-a" = .ok relations := by
  refine ⟨by decide, by decide, by decide, ?_⟩
  rintro ⟨relations, h⟩
  have hp : RelationsForService nilRelationTopology "svc-a" = .panic := by decide
  rw [hp] at h
  exact absurd h (by simp)

/-- C16: on a topology whose services are as `AddService` makes them (pointers set, units
maps allocated), `AddUnit` fails as not found exactly when the service is absent; for a
present service it fails as a duplicate exactly when that service has a unit with the key,
and succeeds otherwise, whatever units the other services have; after success the unit
exists and is unassigned (`HasUnit` true, `UnitMachineKey` reports `unitNotAssigned`), and
every other unit, the machines, the relations and the version are as before. -/
theorem AddUnit_outcomes (t : topoTopology) (key : unitKey)
    (hmade : unitMapsAllocated t = true) :
    ((AddUnit t key).2 = .error (.errorf "service with key %q not found" [key.service]) ↔
      key.service ∉ t.Services.keys) ∧
    (∀ svc, t.Services.get? key.service = some (some svc) →
      ((AddUnit t key).2 =
          .error (.errorf "unit %q already in use in service %q" [key.unit, key.service]) ↔
        key.unit ∈ svc.Units.keys) ∧
      ((AddUnit t key).2 = .ok () ↔ key.unit ∉ svc.Units.keys)) ∧
    (∀ svc other svcOther, t.Services.get? key.service = some (some svc) →
      key.unit ∉ svc.Units.keys → other ≠ key.service →
      t.Services.get? other = some (some svcOther) → key.unit ∈ svcOther.Units.keys →
      (AddUnit t key).2 = .ok ()) ∧
    ((AddUnit t key).2 = .ok () →
      HasUnit (AddUnit t key).1 key = .ok true ∧
      UnitMachineKey (AddUnit t key).1 key = .error .unitNotAssigned ∧
      (∀ key', key' ≠ key → unitCell (AddUnit t key).1 key' = unitCell t key') ∧
      (∀ key', key' ≠ key → HasUnit (AddUnit t key).1 key' = HasUnit t key' ∧
        UnitMachineKey (AddUnit t key).1 key' = UnitMachineKey t key') ∧
      (AddUnit t key).1.Machines = t.Machines ∧
      (AddUnit t key).1.Relations = t.Relations ∧
      (AddUnit t key).1.Version = t.Version) := by
  have hspec := AddUnit_spec t key hmade
  have hinj : ∀ svc svc' : topoService, t.Services.get? key.service = some (some svc) →
      t.Services.get? key.service = some (some svc') → svc' = svc := by
    intro svc svc' h1 h2
    rw [h1] at h2
    exact (Option.some.inj (Option.some.inj h2)).symm
  have hsecond : ∀ svc, t.Services.get? key.service = some (some svc) →
      ((AddUnit t key).2 =
          .error (.errorf "unit %q already in use in service %q" [key.unit, key.service]) ↔
        key.unit ∈ svc.Units.keys) ∧
      ((AddUnit t key).2 = .ok () ↔ key.unit ∉ svc.Units.keys) := by
    intro svc hsvc
    have hpresent : key.service ∈ t.Services.keys := (mem_keys_iff_get? _ _).2 ⟨_, hsvc⟩
    rcases hspec with ⟨h1, _⟩ | ⟨svc', h1, h2, h3⟩ | ⟨svc', units, h1, _, h2, h3⟩
    · exact absurd hpresent h1
    · have := hinj svc svc' hsvc h1
      subst this
      rw [h3]
      simp [h2]
    · have := hinj svc svc' hsvc h1
      subst this
      rw [h3]
      simp [h2]
  refine ⟨?_, hsecond, ?_, ?_⟩
  · rcases hspec with ⟨h1, h2⟩ | ⟨svc, h1, _, h3⟩ | ⟨svc, units, h1, _, _, h3⟩
    · rw [h2]
      simp [h1]
    · have hpresent : key.service ∈ t.Services.keys := (mem_keys_iff_get? _ _).2 ⟨_, h1⟩
      rw [h3]
      simp only [hpresent, not_true_eq_false, iff_false]
      intro h
      have := (GoError.errorf.injEq _ _ _ _ ▸ Result.error.inj h).1
      exact absurd this (by decide)
    · have hpresent : key.service ∈ t.Services.keys := (mem_keys_iff_get? _ _).2 ⟨_, h1⟩
      rw [h3]
      simp [hpresent]
  · intro svc other svcOther hsvc hfree _ _ _
    exact (hsecond svc hsvc).2.2 hfree
  · intro hok
    rcases hspec with ⟨_, h2⟩ | ⟨svc, _, _, h3⟩ | ⟨svc, units, h1, hunits, hfree, h3⟩
    · rw [h2] at hok
      exact absurd hok (by simp)
    · rw [h3] at hok
      exact absurd hok (by simp)
    · rw [h3]
      dsimp only
      have hnew : unitCell (pokeService t key.service
          { svc with Units := some (units.put key.unit (some ⟨""⟩)) }) key
          = some (some (some (some ⟨""⟩))) := by
        rw [unitCell_pokeService t key.service svc _ h1, if_pos rfl]
        dsimp only
        rw [get?_put_cells, if_pos rfl]
      have hother : ∀ key', key' ≠ key →
          unitCell (pokeService t key.service
            { svc with Units := some (units.put key.unit (some ⟨""⟩)) }) key'
            = unitCell t key' := by
        intro key' hne
        refine unitCell_poke_other t key key' svc _ h1 ?_ hne
        intro u hu
        rw [get?_put_cells, hunits]
        have : ¬ key.unit = u := fun h => hu h.symm
        simp [this]
      refine ⟨?_, ?_, hother, ?_, rfl, rfl, rfl⟩
      · rw [HasUnit_eq, hnew]
      · rw [UnitMachineKey_eq, hnew]
        rfl
      · intro key' hne
        rw [HasUnit_eq, HasUnit_eq, UnitMachineKey_eq, UnitMachineKey_eq, hother key' hne]
        exact ⟨rfl, rfl⟩

/-- Witness for C16: `unit-0` is a unit of `service-0`, and adding a unit with the same key
to `service-1` succeeds. -/
theorem AddUnit_outcomes_witness :
    unitMapsAllocated twoServicesTopology = true ∧
    HasUnit twoServicesTopology ⟨"service-0", "unit-0"⟩ = .ok true ∧
    (AddUnit twoServicesTopology ⟨"service-1", "unit-0"⟩).2 = .ok () ∧
    UnitMachineKey (AddUnit twoServicesTopology ⟨"service-1", "unit-0"⟩).1
      ⟨"service-1", "unit-0"⟩ = .error .unitNotAssigned :=
  ⟨by decide, by decide, by decide,
    ((AddUnit_outcomes twoServicesTopology ⟨"service-1", "unit-0"⟩ (by decide)).2.2.2
      (by decide)).2.1⟩


/-- C17, amended: when the pointers stored for the unit and for its service are set,
`AssignUnitToMachine` fails as not found exactly when the unit (or its service) or the machine
is absent; otherwise it fails as already assigned exactly when the machine field of the unit is
not empty; otherwise it succeeds, and then the machine field of that unit is `machineKey`, while
every other unit, every other service, the name of the service, the machines, the relations and
the version are as before. -/
theorem AssignUnitToMachine_outcomes (t : topoTopology) (key : unitKey) (machineKey : String)
    (halloc : unitPointersSet t key = true) :
    (failsNotFound (AssignUnitToMachine t key machineKey).2 ↔
      ¬ unitExists t key ∨ machineKey ∉ t.Machines.keys) ∧
    (∀ svc unit, t.Services.get? key.service = some (some svc) →
      svc.Units.get? key.unit = some (some unit) → machineKey ∈ t.Machines.keys →
      ((AssignUnitToMachine t key machineKey).2 =
          .error (.errorf "unit %q in service %q already assigned to machine %q"
            [key.unit, key.service, unit.Machine]) ↔
        unit.Machine ≠ "") ∧
      ((AssignUnitToMachine t key machineKey).2 = .ok () ↔ unit.Machine = "")) ∧
    ((AssignUnitToMachine t key machineKey).2 = .ok () →
      unitCell (AssignUnitToMachine t key machineKey).1 key
        = some (some (some (some ⟨machineKey⟩))) ∧
      (∀ key', key' ≠ key →
        unitCell (AssignUnitToMachine t key machineKey).1 key' = unitCell t key' ∧
        UnitMachineKey (AssignUnitToMachine t key machineKey).1 key'
          = UnitMachineKey t key') ∧
      (∀ k, k ≠ key.service →
        (AssignUnitToMachine t key machineKey).1.Services.get? k = t.Services.get? k) ∧
      (∀ k, ServiceName (AssignUnitToMachine t key machineKey).1 k = ServiceName t k) ∧
      (AssignUnitToMachine t key machineKey).1.Machines = t.Machines ∧
      (AssignUnitToMachine t key machineKey).1.Relations = t.Relations ∧
      (AssignUnitToMachine t key machineKey).1.Version = t.Version) := by
  have hspec := AssignUnitToMachine_spec t key machineKey halloc
  have hinj : ∀ (svc svc' : topoService) (unit unit' : topoUnit),
      t.Services.get? key.service = some (some svc) →
      svc.Units.get? key.unit = some (some unit) →
      t.Services.get? key.service = some (some svc') →
      svc'.Units.get? key.unit = some (some unit') → svc' = svc ∧ unit' = unit := by
    intro svc svc' unit unit' h1 h2 h3 h4
    rw [h1] at h3
    cases h3
    rw [h2] at h4
    cases h4
    exact ⟨rfl, rfl⟩
  refine ⟨?_, ?_, ?_⟩
  · rcases hspec with ⟨h1, h2, _⟩ | ⟨h1, h2, h3⟩ | ⟨svc, unit, h1, h2, h3, _, h5⟩ |
      ⟨svc, unit, h1, h2, h3, _, h5⟩
    · exact ⟨fun _ => Or.inl h1, fun _ => h2⟩
    · rw [h3]
      exact ⟨fun _ => Or.inr h2, fun _ => ⟨machineKey, Or.inr (Or.inr rfl)⟩⟩
    · rw [h5]
      constructor
      · intro h
        exact absurd h (not_failsNotFound_assigned _ _ _)
      · rintro (h | h)
        · exact absurd (unitExists_of_gets t key svc _ h1 h2) h
        · exact absurd h3 h
    · rw [h5]
      constructor
      · intro h
        exact absurd h not_failsNotFound_ok
      · rintro (h | h)
        · exact absurd (unitExists_of_gets t key svc _ h1 h2) h
        · exact absurd h3 h
  · intro svc unit hs hu hm
    rcases hspec with ⟨h1, _, _⟩ | ⟨_, h2, _⟩ | ⟨svc', unit', h1, h2, _, h4, h5⟩ |
      ⟨svc', unit', h1, h2, _, h4, h5⟩
    · exact absurd (unitExists_of_gets t key svc _ hs hu) h1
    · exact absurd hm h2
    · obtain ⟨e1, e2⟩ := hinj svc svc' unit unit' hs hu h1 h2
      subst e1 e2
      rw [h5]
      simp [h4]
    · obtain ⟨e1, e2⟩ := hinj svc svc' unit unit' hs hu h1 h2
      subst e1 e2
      rw [h5]
      simp [h4]
  · intro hok
    rcases hspec with ⟨_, h2, _⟩ | ⟨_, _, h3⟩ | ⟨_, _, _, _, _, _, h5⟩ |
      ⟨svc, unit, h1, h2, _, _, h5⟩
    · exact absurd (hok ▸ h2) not_failsNotFound_ok
    · rw [h3] at hok
      exact absurd hok (by simp)
    · rw [h5] at hok
      exact absurd hok (by simp)
    · rw [h5]
      dsimp only
      obtain ⟨hnew, hother, hsvcs, hsvc, _⟩ :=
        unitCell_after_write t key svc ⟨machineKey⟩ _ h1 h2
      refine ⟨hnew, ?_, hsvcs, ?_, rfl, rfl, rfl⟩
      · intro key' hne
        refine ⟨hother key' hne, ?_⟩
        rw [UnitMachineKey_eq, UnitMachineKey_eq, hother key' hne]
      · intro k
        unfold ServiceName
        by_cases hk : k = key.service
        · rw [hk, hsvc, h1]
        · rw [hsvcs k hk]

/-- Witness for C17: assigning the unit of `oneUnitTopology` to `machine-0` succeeds. -/
theorem AssignUnitToMachine_outcomes_witness :
    unitPointersSet oneUnitTopology ⟨"service-0", "unit-0"⟩ = true ∧
    (AssignUnitToMachine oneUnitTopology ⟨"service-0", "unit-0"⟩ "machine-0").2 = .ok () ∧
    unitCell (AssignUnitToMachine oneUnitTopology ⟨"service-0", "unit-0"⟩ "machine-0").1
      ⟨"service-0", "unit-0"⟩ = some (some (some (some ⟨"machine-0"⟩))) :=
  ⟨by decide, by decide,
    ((AssignUnitToMachine_outcomes oneUnitTopology ⟨"service-0", "unit-0"⟩ "machine-0"
      (by decide)).2.2 (by decide)).1⟩

/-- Counterexample to C17 as stated: in `nilUnitTopology` the unit `service-0/unit-0` and the
machine `machine-0` both exist, so the call should fail as already assigned or succeed; it
does neither: the unit is stored as a nil pointer, and reading its machine field
panics. -/
theorem AssignUnitToMachine_nil_unit_counterexample :
    unitExists nilUnitTopology ⟨"service-0", "unit-0"⟩ ∧
    "machine-0" ∈ nilUnitTopology.Machines.keys ∧
    (AssignUnitToMachine nilUnitTopology ⟨"service-0", "unit-0"⟩ "machine-0").2 = .panic ∧
    (AssignUnitToMachine nilUnitTopology ⟨"service-0", "unit-0"⟩ "machine-0").2.isError
      = false ∧
    (AssignUnitToMachine nilUnitTopology ⟨"service-0", "unit-0"⟩ "machine-0").2 ≠ .ok () :=
  ⟨⟨⟨"wordpress", some ⟨[("unit-0", none)], by decide⟩⟩, by decide, by decide⟩,
    by decide, by decide, by decide, by decide⟩

/-- C18, amended: after a successful `AssignUnitToMachine(unit, m)` with a non-empty machine
key `m`, `UnitMachineKey(unit)` returns `m`, and a second `AssignUnitToMachine(unit, m')`
fails: as already assigned when the machine `m'` exists, as not found when it does not. -/
theorem assign_only_if_unassigned (t : topoTopology) (key : unitKey) (m m' : String)
    (hok : (AssignUnitToMachine t key m).2 = .ok ()) (hm : m ≠ "") :
    UnitMachineKey (AssignUnitToMachine t key m).1 key = .ok m ∧
    (m' ∈ t.Machines.keys →
      (AssignUnitToMachine (AssignUnitToMachine t key m).1 key m').2 =
        .error (.errorf "unit %q in service %q already assigned to machine %q"
          [key.unit, key.service, m])) ∧
    (m' ∉ t.Machines.keys →
      (AssignUnitToMachine (AssignUnitToMachine t key m).1 key m').2 =
        .error (.errorf "machine with key %q not found" [m'])) ∧
    (AssignUnitToMachine (AssignUnitToMachine t key m).1 key m').2 ≠ .ok () := by
  obtain ⟨svc, unit, h1, h2, _, _, h5⟩ := AssignUnitToMachine_ok t key m hok
  rw [h5]
  dsimp only
  obtain ⟨hnew, _, _, hsvc, _⟩ := unitCell_after_write t key svc ⟨m⟩ _ h1 h2
  have hunit : (svc.Units.poke key.unit (some ⟨m⟩)).get? key.unit = some (some ⟨m⟩) := by
    rw [get?_poke_of_get? svc.Units key.unit key.unit _ _ h2, if_pos rfl]
  have hkey : UnitMachineKey (pokeService t key.service
      { svc with Units := svc.Units.poke key.unit (some ⟨m⟩) }) key = .ok m := by
    rw [UnitMachineKey_eq, hnew]
    dsimp only
    rw [if_neg hm]
  have hcases := AssignUnitToMachine_cases (pokeService t key.service
      { svc with Units := svc.Units.poke key.unit (some ⟨m⟩) }) key m'
  have hassert : assertUnit (pokeService t key.service
      { svc with Units := svc.Units.poke key.unit (some ⟨m⟩) }) key = .ok () := by
    rw [assertUnit_eq, hnew]
  have hresult :
      (m' ∈ t.Machines.keys →
        (AssignUnitToMachine (pokeService t key.service
          { svc with Units := svc.Units.poke key.unit (some ⟨m⟩) }) key m').2 =
          .error (.errorf "unit %q in service %q already assigned to machine %q"
            [key.unit, key.service, m])) ∧
      (m' ∉ t.Machines.keys →
        (AssignUnitToMachine (pokeService t key.service
          { svc with Units := svc.Units.poke key.unit (some ⟨m⟩) }) key m').2 =
          .error (.errorf "machine with key %q not found" [m'])) := by
    rcases hcases with ⟨h, _⟩ | ⟨_, hno, h⟩ | ⟨svc', hs', hu', _, _⟩ |
      ⟨svc', unit', hs', hu', hmem, _, h⟩ | ⟨svc', unit', hs', hu', _, hempty, _⟩
    · exact absurd hassert h
    · rw [h]
      exact ⟨fun hmem => absurd hmem hno, fun _ => rfl⟩
    · rw [hsvc] at hs'
      cases hs'
      rw [hunit] at hu'
      exact absurd hu' (by simp)
    · rw [hsvc] at hs'
      cases hs'
      rw [hunit] at hu'
      cases hu'
      rw [h]
      exact ⟨fun _ => rfl, fun hno => absurd hmem hno⟩
    · rw [hsvc] at hs'
      cases hs'
      rw [hunit] at hu'
      cases hu'
      exact absurd hempty hm
  refine ⟨hkey, hresult.1, hresult.2, ?_⟩
  by_cases hmem : m' ∈ t.Machines.keys
  · rw [hresult.1 hmem]
    simp
  · rw [hresult.2 hmem]
    simp

/-- Witness for C18: the unit of `oneUnitTopology` assigned to `machine-0`. -/
theorem assign_only_if_unassigned_witness :
    (AssignUnitToMachine oneUnitTopology ⟨"service-0", "unit-0"⟩ "machine-0").2 = .ok () ∧
    UnitMachineKey (AssignUnitToMachine oneUnitTopology ⟨"service-0", "unit-0"⟩ "machine-0").1
      ⟨"service-0", "unit-0"⟩ = .ok "machine-0" :=
  ⟨by decide,
    (assign_only_if_unassigned oneUnitTopology ⟨"service-0", "unit-0"⟩ "machine-0" "machine-0"
      (by decide) (by decide)).1⟩

/-- Counterexample to C18 as stated.  With the empty string as machine key: the machine
exists, assigning the unit to it succeeds, yet `UnitMachineKey` reports `unitNotAssigned`
and a second assignment succeeds again.  With an absent second machine: the second
assignment fails as not found, not as already assigned. -/
theorem assign_counterexample :
    ((AssignUnitToMachine emptyKeyTopology ⟨"service-0", "unit-0"⟩ "").2 = .ok () ∧
      UnitMachineKey (AssignUnitToMachine emptyKeyTopology ⟨"service-0", "unit-0"⟩ "").1
        ⟨"service-0", "unit-0"⟩ = .error .unitNotAssigned ∧
      (AssignUnitToMachine
        (AssignUnitToMachine emptyKeyTopology ⟨"service-0", "unit-0"⟩ "").1
        ⟨"service-0", "unit-0"⟩ "").2 = .ok ()) ∧
    ((AssignUnitToMachine oneUnitTopology ⟨"service-0", "unit-0"⟩ "machine-0").2 = .ok () ∧
      (AssignUnitToMachine
        (AssignUnitToMachine oneUnitTopology ⟨"service-0", "unit-0"⟩ "machine-0").1
        ⟨"service-0", "unit-0"⟩ "machine-1").2
        = .error (.errorf "machine with key %q not found" ["machine-1"])) := by
  decide


/-- C19, amended: when the pointers stored for the unit and for its service are set,
`UnassignUnitFromMachine` fails as not found exactly when the unit (or its service) is absent;
otherwise it fails as not assigned exactly when the machine field of the unit is empty;
otherwise it succeeds, and then `UnitMachineKey` reports `unitNotAssigned` for the unit, every
other unit keeps its assignment, and the machines, the relations and the version are as before.
-/
theorem UnassignUnitFromMachine_outcomes (t : topoTopology) (key : unitKey)
    (halloc : unitPointersSet t key = true) :
    (failsNotFound (UnassignUnitFromMachine t key).2 ↔ ¬ unitExists t key) ∧
    (∀ svc unit, t.Services.get? key.service = some (some svc) →
      svc.Units.get? key.unit = some (some unit) →
      ((UnassignUnitFromMachine t key).2 =
          .error (.errorf "unit %q in service %q not assigned to a machine"
            [key.unit, key.service]) ↔
        unit.Machine = "") ∧
      ((UnassignUnitFromMachine t key).2 = .ok () ↔ unit.Machine ≠ "")) ∧
    ((UnassignUnitFromMachine t key).2 = .ok () →
      UnitMachineKey (UnassignUnitFromMachine t key).1 key = .error .unitNotAssigned ∧
      (∀ key', key' ≠ key →
        unitCell (UnassignUnitFromMachine t key).1 key' = unitCell t key' ∧
        UnitMachineKey (UnassignUnitFromMachine t key).1 key' = UnitMachineKey t key') ∧
      (UnassignUnitFromMachine t key).1.Machines = t.Machines ∧
      (UnassignUnitFromMachine t key).1.Relations = t.Relations ∧
      (UnassignUnitFromMachine t key).1.Version = t.Version) := by
  have hspec := UnassignUnitFromMachine_spec t key halloc
  have hinj : ∀ (svc svc' : topoService) (unit unit' : topoUnit),
      t.Services.get? key.service = some (some svc) →
      svc.Units.get? key.unit = some (some unit) →
      t.Services.get? key.service = some (some svc') →
      svc'.Units.get? key.unit = some (some unit') → svc' = svc ∧ unit' = unit := by
    intro svc svc' unit unit' h1 h2 h3 h4
    rw [h1] at h3
    cases h3
    rw [h2] at h4
    cases h4
    exact ⟨rfl, rfl⟩
  refine ⟨?_, ?_, ?_⟩
  · rcases hspec with ⟨h1, h2, _⟩ | ⟨svc, unit, h1, h2, _, h5⟩ | ⟨svc, unit, h1, h2, _, h5⟩
    · exact ⟨fun _ => h1, fun _ => h2⟩
    · rw [h5]
      exact ⟨fun h => absurd h (not_failsNotFound_unassigned _ _),
        fun h => absurd (unitExists_of_gets t key svc _ h1 h2) h⟩
    · rw [h5]
      exact ⟨fun h => absurd h not_failsNotFound_ok,
        fun h => absurd (unitExists_of_gets t key svc _ h1 h2) h⟩
  · intro svc unit hs hu
    rcases hspec with ⟨h1, _, _⟩ | ⟨svc', unit', h1, h2, h4, h5⟩ | ⟨svc', unit', h1, h2, h4, h5⟩
    · exact absurd (unitExists_of_gets t key svc _ hs hu) h1
    · obtain ⟨e1, e2⟩ := hinj svc svc' unit unit' hs hu h1 h2
      subst e1 e2
      rw [h5]
      simp [h4]
    · obtain ⟨e1, e2⟩ := hinj svc svc' unit unit' hs hu h1 h2
      subst e1 e2
      rw [h5]
      simp [h4]
  · intro hok
    rcases hspec with ⟨_, h2, _⟩ | ⟨_, _, _, _, _, h5⟩ | ⟨svc, unit, h1, h2, _, h5⟩
    · exact absurd (hok ▸ h2) not_failsNotFound_ok
    · rw [h5] at hok
      exact absurd hok (by simp)
    · rw [h5]
      dsimp only
      obtain ⟨hnew, hother, _, _, _⟩ := unitCell_after_write t key svc ⟨""⟩ _ h1 h2
      refine ⟨?_, ?_, rfl, rfl, rfl⟩
      · rw [UnitMachineKey_eq, hnew]
        rfl
      · intro key' hne
        refine ⟨hother key' hne, ?_⟩
        rw [UnitMachineKey_eq, UnitMachineKey_eq, hother key' hne]


/-- Witness for C19: unassigning the assigned unit of `assignedTopology` succeeds. -/
theorem UnassignUnitFromMachine_outcomes_witness :
    unitPointersSet assignedTopology ⟨"service-0", "unit-0"⟩ = true ∧
    UnitMachineKey assignedTopology ⟨"service-0", "unit-0"⟩ = .ok "machine-0" ∧
    (UnassignUnitFromMachine assignedTopology ⟨"service-0", "unit-0"⟩).2 = .ok () ∧
    UnitMachineKey (UnassignUnitFromMachine assignedTopology ⟨"service-0", "unit-0"⟩).1
      ⟨"service-0", "unit-0"⟩ = .error .unitNotAssigned :=
  ⟨by decide, by decide, by decide,
    ((UnassignUnitFromMachine_outcomes assignedTopology ⟨"service-0", "unit-0"⟩
      (by decide)).2.2 (by decide)).1⟩

/-- Counterexample to C19 as stated: in `nilUnitTopology` the unit `service-0/unit-0` exists,
so the call should fail as not assigned or succeed; it does neither: the unit is stored as
a nil pointer, and reading its machine field panics. -/
theorem UnassignUnitFromMachine_nil_unit_counterexample :
    unitExists nilUnitTopology ⟨"service-0", "unit-0"⟩ ∧
    (UnassignUnitFromMachine nilUnitTopology ⟨"service-0", "unit-0"⟩).2 = .panic ∧
    (UnassignUnitFromMachine nilUnitTopology ⟨"service-0", "unit-0"⟩).2.isError = false ∧
    (UnassignUnitFromMachine nilUnitTopology ⟨"service-0", "unit-0"⟩).2 ≠ .ok () :=
  ⟨⟨⟨"wordpress", some ⟨[("unit-0", none)], by decide⟩⟩, by decide, by decide⟩,
    by decide, by decide, by decide⟩

/-- C20: `RemoveRelation(k)` has no error to return and does not panic, also on a topology
whose relations map is nil; afterwards `k` is not a relation key and every other relation
is as before, as are the version, the machines and the services; if `k` was not a relation
key the topology is unchanged; and a second `RemoveRelation(k)` changes nothing more. -/
theorem RemoveRelation_idempotent (t : topoTopology) (k : String) :
    (Op.apply t (.RemoveRelation k)).2 = .ok () ∧
    k ∉ (RemoveRelation t k).Relations.keys ∧
    (∀ k', k' ≠ k →
      (RemoveRelation t k).Relations.get? k' = t.Relations.get? k' ∧
      Relation (RemoveRelation t k) k' = Relation t k') ∧
    (RemoveRelation t k).Version = t.Version ∧
    (RemoveRelation t k).Machines = t.Machines ∧
    (RemoveRelation t k).Services = t.Services ∧
    (t.Relations = none → RemoveRelation t k = t) ∧
    (k ∉ t.Relations.keys → RemoveRelation t k = t) ∧
    RemoveRelation (RemoveRelation t k) k = RemoveRelation t k := by
  refine ⟨rfl, GoMap.not_mem_keys_delete _ k, ?_, rfl, rfl, rfl, ?_, ?_, ?_⟩
  · intro k' hk
    have hg : (RemoveRelation t k).Relations.get? k' = t.Relations.get? k' := by
      show (t.Relations.delete k).get? k' = _
      rw [GoMap.get?_delete]
      have : ¬ k = k' := fun h => hk h.symm
      simp [this]
    exact ⟨hg, Relation_eq_of_get? t _ k' hg⟩
  · intro h
    unfold RemoveRelation
    rw [h]
    cases t
    simp_all [GoMap.delete]
  · intro h
    unfold RemoveRelation
    rw [GoMap.delete_of_not_mem _ _ h]
  · unfold RemoveRelation
    dsimp only
    rw [GoMap.delete_of_not_mem _ _ (GoMap.not_mem_keys_delete _ k)]


/-! ## What the calls leave alone -/

theorem keeps_AddService (t : topoTopology) (key name : String) :
    (AddService t key name).1.Version = t.Version ∧
    (AddService t key name).1.Machines = t.Machines := by
  unfold AddService
  dsimp only
  repeat' split
  all_goals exact ⟨rfl, rfl⟩

theorem keeps_RemoveService (t : topoTopology) (key : String) :
    (RemoveService t key).1.Version = t.Version ∧
    (RemoveService t key).1.Machines = t.Machines := by
  unfold RemoveService
  repeat' split
  all_goals exact ⟨rfl, rfl⟩

theorem keeps_AddUnit (t : topoTopology) (key : unitKey) :
    (AddUnit t key).1.Version = t.Version ∧ (AddUnit t key).1.Machines = t.Machines := by
  unfold AddUnit
  repeat' split
  all_goals exact ⟨rfl, rfl⟩

theorem keeps_RemoveUnit (t : topoTopology) (key : unitKey) :
    (RemoveUnit t key).1.Version = t.Version ∧ (RemoveUnit t key).1.Machines = t.Machines := by
  unfold RemoveUnit
  repeat' split
  all_goals exact ⟨rfl, rfl⟩

theorem keeps_AssignUnitToMachine (t : topoTopology) (key : unitKey) (m : String) :
    (AssignUnitToMachine t key m).1.Version = t.Version ∧
    (AssignUnitToMachine t key m).1.Machines = t.Machines := by
  unfold AssignUnitToMachine
  repeat' split
  all_goals exact ⟨rfl, rfl⟩

theorem keeps_UnassignUnitFromMachine (t : topoTopology) (key : unitKey) :
    (UnassignUnitFromMachine t key).1.Version = t.Version ∧
    (UnassignUnitFromMachine t key).1.Machines = t.Machines := by
  unfold UnassignUnitFromMachine
  repeat' split
  all_goals exact ⟨rfl, rfl⟩

theorem keeps_AddRelation (t : topoTopology) (key : String) (r : Option topoRelation) :
    (AddRelation t key r).1.Version = t.Version ∧
    (AddRelation t key r).1.Machines = t.Machines := by
  unfold AddRelation
  dsimp only
  repeat' split
  all_goals exact ⟨rfl, rfl⟩

theorem Machines_pokeService (t : topoTopology) (k : String) (svc : topoService) :
    (pokeService t k svc).Machines = t.Machines := by
  rfl

/-- Where the units of the topology after a call come from: a unit was there before the call
with the same machine field, or its machine field is empty, or the call was a successful
assignment and its machine field is a key of the machines, which the call left alone. -/
theorem units_step (t : topoTopology) (op : Op) (hinv : invariant t)
    (sk : String) (svc' : topoService) (uk : String) (unit' : topoUnit)
    (hs : (sk, some svc') ∈ (op.apply t).1.Services.range)
    (hu : (uk, some unit') ∈ svc'.Units.range) :
    (∃ svc, (sk, some svc) ∈ t.Services.range ∧ (uk, some unit') ∈ svc.Units.range) ∨
    unit'.Machine = "" ∨
    (unit'.Machine ∈ t.Machines.keys ∧ (op.apply t).1.Machines = t.Machines) := by
  have halloc := allocated_of_invariant t hinv
  have hsa : servicesAllocated t = true := servicesAllocated_of_allocated t halloc
  have hra : relationsAllocated t = true := by
    unfold allocated at halloc
    rw [Bool.and_eq_true] at halloc
    exact halloc.2
  have same : (op.apply t).1.Services.range = t.Services.range →
      (∃ svc, (sk, some svc) ∈ t.Services.range ∧ (uk, some unit') ∈ svc.Units.range) ∨
      unit'.Machine = "" ∨
      (unit'.Machine ∈ t.Machines.keys ∧ (op.apply t).1.Machines = t.Machines) := by
    intro h
    rw [h] at hs
    exact Or.inl ⟨svc', hs, hu⟩
  cases op with
  | AddMachine key => exact same (congrArg GoMap.range (Services_AddMachine t key))
  | RemoveMachine key => exact same (congrArg GoMap.range (Services_RemoveMachine t key))
  | AddRelation relationKey relation =>
    exact same (congrArg GoMap.range (Services_AddRelation t relationKey relation))
  | RemoveRelation key => exact same rfl
  | AddService key name =>
    rcases AddService_spec t key name (servicePointersSet_of_servicesAllocated t hsa) with ⟨_, h⟩ | ⟨_, _, h⟩ | ⟨_, _, h⟩
    · exact same (by simp only [Op.apply, h]; exact GoMap.allocate_entries _)
    · exact same (by simp only [Op.apply, h]; exact GoMap.allocate_entries _)
    · simp only [Op.apply, h] at hs
      change (sk, some svc') ∈ putKey key _ t.Services.allocate.entries at hs
      rw [GoMap.allocate_entries] at hs
      rcases mem_putKey hs with e | e
      · simp only [Prod.mk.injEq, Option.some.injEq] at e
        rw [e.2] at hu
        simp [GoMap.range, MapCells.empty] at hu
      · exact Or.inl ⟨svc', e, hu⟩
  | RemoveService key =>
    rcases RemoveService_spec t key hra with ⟨_, h⟩ | ⟨_, _, h⟩ | ⟨_, _, h⟩
    · exact same (by simp only [Op.apply, h])
    · exact same (by simp only [Op.apply, h])
    · simp only [Op.apply, h] at hs
      exact Or.inl ⟨svc', (GoMap.mem_range_delete.1 hs).2, hu⟩
  | AddUnit key =>
    rcases AddUnit_cases t key with ⟨_, h⟩ | ⟨_, h⟩ | ⟨_, _, _, h⟩ | ⟨_, _, _, h⟩ |
      ⟨svc, units, hget, hunits, _, h⟩
    · exact same (by simp only [Op.apply, h])
    · exact same (by simp only [Op.apply, h])
    · exact same (by simp only [Op.apply, h])
    · exact same (by simp only [Op.apply, h])
    · simp only [Op.apply, h] at hs
      rw [range_pokeService t _ _ _ hget] at hs
      rcases mem_putKey hs with e | e
      · simp only [Prod.mk.injEq, Option.some.injEq] at e
        obtain ⟨e1, e2⟩ := e
        subst e1 e2
        rcases mem_putKey hu with e' | e'
        · simp only [Prod.mk.injEq, Option.some.injEq] at e'
          exact Or.inr (Or.inl (by rw [e'.2]))
        · refine Or.inl ⟨svc, GoMap.get?_mem hget, ?_⟩
          rw [hunits]
          exact e'
      · exact Or.inl ⟨svc', e, hu⟩
  | RemoveUnit key =>
    rcases RemoveUnit_cases t key with ⟨_, h⟩ | ⟨svc, w, hget, _, h⟩
    · exact same (by simp only [Op.apply, h])
    · simp only [Op.apply, h] at hs
      rw [range_pokeService t _ _ _ hget] at hs
      rcases mem_putKey hs with e | e
      · simp only [Prod.mk.injEq, Option.some.injEq] at e
        obtain ⟨e1, e2⟩ := e
        subst e1 e2
        exact Or.inl ⟨svc, GoMap.get?_mem hget, (GoMap.mem_range_delete.1 hu).2⟩
      · exact Or.inl ⟨svc', e, hu⟩
  | AssignUnitToMachine key machineKey =>
    rcases AssignUnitToMachine_cases t key machineKey with ⟨_, h⟩ | ⟨_, _, h⟩ | ⟨_, _, _, _, h⟩ |
      ⟨_, _, _, _, _, _, h⟩ | ⟨svc, unit, hget, _, hmem, _, h⟩
    · exact same (by simp only [Op.apply, h])
    · exact same (by simp only [Op.apply, h])
    · exact same (by simp only [Op.apply, h])
    · exact same (by simp only [Op.apply, h])
    · simp only [Op.apply, h] at hs ⊢
      rw [range_pokeService t _ _ _ hget] at hs
      rcases mem_putKey hs with e | e
      · simp only [Prod.mk.injEq, Option.some.injEq] at e
        obtain ⟨e1, e2⟩ := e
        subst e1 e2
        rcases GoMap.mem_range_poke hu with e' | e'
        · simp only [Prod.mk.injEq, Option.some.injEq] at e'
          refine Or.inr (Or.inr ⟨?_, Machines_pokeService _ _ _⟩)
          rw [e'.2]
          exact hmem
        · exact Or.inl ⟨svc, GoMap.get?_mem hget, e'⟩
      · exact Or.inl ⟨svc', e, hu⟩
  | UnassignUnitFromMachine key =>
    rcases UnassignUnitFromMachine_cases t key with ⟨_, h⟩ | ⟨_, _, _, h⟩ | ⟨_, _, _, _, _, h⟩ |
      ⟨svc, unit, hget, _, _, h⟩
    · exact same (by simp only [Op.apply, h])
    · exact same (by simp only [Op.apply, h])
    · exact same (by simp only [Op.apply, h])
    · simp only [Op.apply, h] at hs
      rw [range_pokeService t _ _ _ hget] at hs
      rcases mem_putKey hs with e | e
      · simp only [Prod.mk.injEq, Option.some.injEq] at e
        obtain ⟨e1, e2⟩ := e
        subst e1 e2
        rcases GoMap.mem_range_poke hu with e' | e'
        · simp only [Prod.mk.injEq, Option.some.injEq] at e'
          exact Or.inr (Or.inl (by rw [e'.2]))
        · exact Or.inl ⟨svc, GoMap.get?_mem hget, e'⟩
      · exact Or.inl ⟨svc', e, hu⟩

/-! ## Parsing the document -/

/-- The cycle stops at a document that fails to decode, before the caller's function. -/
theorem change_of_parse_error {σ : Type} (goyaml : Goyaml)
    (f : topoTopology → σ → (topoTopology × Result Unit) × σ) (yaml : String) (s : σ)
    (err : GoError) (hne : yaml ≠ "") (hparse : parseTopology goyaml yaml = .error err) :
    retryTopologyChange.change goyaml f yaml s = (.error err, s) := by
  unfold retryTopologyChange.change
  dsimp only
  rw [if_pos hne, hparse]

/-- The cycle on the topology it read: the empty one for the empty document, the decoded
one otherwise. -/
theorem change_of_topology {σ : Type} (goyaml : Goyaml)
    (f : topoTopology → σ → (topoTopology × Result Unit) × σ) (yaml : String) (s : σ)
    (it : topoTopology)
    (hit : (yaml = "" ∧ it = emptyTopology) ∨ (yaml ≠ "" ∧ parseTopology goyaml yaml = .ok it)) :
    cycleApplies goyaml f yaml s it := by
  have hread : (if yaml ≠ "" then parseTopology goyaml yaml
      else .ok ⟨1, none, none, none⟩) = Result.ok it := by
    rcases hit with ⟨hy, hfresh⟩ | ⟨hy, hparse⟩
    · rw [if_neg (not_not.2 hy), hfresh]
      rfl
    · rw [if_pos hy, hparse]
  refine ⟨fun it' err s' hf => ?_, fun it' s' hf => ?_⟩
  · unfold retryTopologyChange.change
    dsimp only
    rw [hread]
    dsimp only
    rw [hf]
  · unfold retryTopologyChange.change
    dsimp only
    rw [hread]
    dsimp only
    rw [hf]

/-- The cycle on the stand-in library, with a caller that adds the machine `m1` and counts
its calls: on the empty document the new document holds the machine; on that document the
duplicate error is returned; on a document at version 2 the version error is returned and
the caller's function is not called. -/
theorem change_examples :
    retryTopologyChange.change exampleGoyaml
        (fun t (calls : Nat) => (AddMachine t "m1", calls + 1)) "" 0 =
      (.ok "version: 1\nmachines:\n  m1: {}\nservices: {}\nrelations: {}\n", 1) ∧
    retryTopologyChange.change exampleGoyaml
        (fun t (calls : Nat) => (AddMachine t "m1", calls + 1))
        "version: 1\nmachines:\n  m1: {}\nservices: {}\nrelations: {}\n" 0 =
      (.error (.errorf "attempted to add duplicated machine %q" ["m1"]), 1) ∧
    retryTopologyChange.change exampleGoyaml
        (fun t (calls : Nat) => (AddMachine t "m1", calls + 1)) "version: 2\n" 0 =
      (.error (.errorf "incompatible topology versions: got %d, want %d" ["2", "1"]), 0) := by
  decide

/-- Parsing with the stand-in library: the empty document and a document without a version
are at version 1, and a document at version 2 is refused. -/
theorem parseTopology_examples :
    parseTopology exampleGoyaml "" = .ok emptyTopology ∧
    parseTopology exampleGoyaml "machines:\n  m1: {}\n" = .ok oneMachineTopology ∧
    parseTopology exampleGoyaml "version: 2\n" =
      .error (.errorf "incompatible topology versions: got %d, want %d" ["2", "1"]) ∧
    parseTopology exampleGoyaml "version: x" =
      .error (.errorf "YAML error: not in the example" []) := by
  decide

/-! ## Machine referential integrity -/

theorem HasMachine_of_Machines (t t' : topoTopology) (h : t'.Machines = t.Machines) (k : String) :
    HasMachine t' k = HasMachine t k := by
  unfold HasMachine
  rw [h]

/-- How a call changes the machines: every machine there before the call is there after it,
or the call removed one machine that no unit was assigned to. -/
theorem machines_step (t : topoTopology) (op : Op) (hinv : invariant t) :
    (∀ k, HasMachine t k = true → HasMachine (op.apply t).1 k = true) ∨
    (∃ key, ¬ unitOnMachine t key ∧ (op.apply t).1.Machines = t.Machines.delete key) := by
  have keep : (op.apply t).1.Machines = t.Machines →
      (∀ k, HasMachine t k = true → HasMachine (op.apply t).1 k = true) ∨
      (∃ key, ¬ unitOnMachine t key ∧ (op.apply t).1.Machines = t.Machines.delete key) :=
    fun h => Or.inl fun k hk => by rw [HasMachine_of_Machines t _ h k, hk]
  cases op with
  | AddMachine key =>
    exact Or.inl fun k hk => (HasMachine_AddMachine t k key).2 (Or.inr hk)
  | RemoveMachine key =>
    have hsa := servicesAllocated_of_allocated t (allocated_of_invariant t hinv)
    rcases RemoveMachine_spec t key hsa with ⟨_, h⟩ | ⟨_, _, h⟩ | ⟨_, hno, h⟩
    · exact keep (by simp only [Op.apply, h])
    · exact keep (by simp only [Op.apply, h])
    · exact Or.inr ⟨key, hno, by simp only [Op.apply, h]⟩
  | AddService key name => exact keep (keeps_AddService t key name).2
  | RemoveService key => exact keep (keeps_RemoveService t key).2
  | AddUnit key => exact keep (keeps_AddUnit t key).2
  | RemoveUnit key => exact keep (keeps_RemoveUnit t key).2
  | AssignUnitToMachine key m => exact keep (keeps_AssignUnitToMachine t key m).2
  | UnassignUnitFromMachine key => exact keep (keeps_UnassignUnitFromMachine t key).2
  | AddRelation key r => exact keep (keeps_AddRelation t key r).2
  | RemoveRelation key => exact keep rfl

/-- Every call keeps machine referential integrity. -/
theorem unitsReferToMachines_step (t : topoTopology) (op : Op)
    (h : invariant t ∧ unitsReferToMachines t) :
    invariant (op.apply t).1 ∧ unitsReferToMachines (op.apply t).1 := by
  obtain ⟨hinv, href⟩ := h
  refine ⟨invariant_apply t op hinv, ?_⟩
  intro sk svc' uk unit' hs hu hne
  have hold : ∀ svc, (sk, some svc) ∈ t.Services.range → (uk, some unit') ∈ svc.Units.range →
      HasMachine (op.apply t).1 unit'.Machine = true := by
    intro svc h1 h2
    have hbefore := href sk svc uk unit' h1 h2 hne
    rcases machines_step t op hinv with hkeep | ⟨key, hno, hdel⟩
    · exact hkeep _ hbefore
    · have hkey : key ≠ unit'.Machine := by
        intro hk
        exact hno ⟨sk, svc, uk, unit', h1, h2, hk.symm⟩
      unfold HasMachine at hbefore ⊢
      rw [hdel, GoMap.get?_delete, if_neg hkey]
      exact hbefore
  rcases units_step t op hinv sk svc' uk unit' hs hu with ⟨svc, h1, h2⟩ | hempty | ⟨hmem, hsame⟩
  · exact hold svc h1 h2
  · exact absurd hempty hne
  · rw [HasMachine_of_Machines t _ hsame]
    obtain ⟨v, hv⟩ := (mem_keys_iff_get? _ _).1 hmem
    cases v with
    | none => exact absurd rfl (hinv.1 _ _ (GoMap.get?_mem hv))
    | some m => exact (HasMachine_iff t _).2 ⟨m, hv⟩

theorem unitsReferToMachines_run (ops : List Op) :
    invariant (run emptyTopology ops) ∧ unitsReferToMachines (run emptyTopology ops) :=
  run_preserves (fun t => invariant t ∧ unitsReferToMachines t) unitsReferToMachines_step ops
    emptyTopology
    ⟨invariant_emptyTopology, by
      intro sk svc uk unit hs
      simp [emptyTopology, GoMap.range] at hs⟩

/-! ## Content and observation -/

theorem sameCells_refl {K V : Type} [DecidableEq K] (same : V → V → Prop)
    (hrefl : ∀ v, same v v) (a : GoMap K (Option V)) : sameCells same a a := by
  intro k
  generalize a.get? k = cell
  cases cell with
  | none => exact .none
  | some v =>
    cases v with
    | none => exact .some .none
    | some x => exact .some (.some (hrefl x))

theorem sameContent_refl (t : topoTopology) : sameContent t t :=
  ⟨rfl, sameCells_refl Eq (fun _ => rfl) _,
    sameCells_refl sameService (fun _ => ⟨rfl, sameCells_refl Eq (fun _ => rfl) _⟩) _,
    sameCells_refl sameRelation (fun _ => ⟨rfl, rfl, sameCells_refl Eq (fun _ => rfl) _⟩) _⟩

/-- C23: the closure `change` of `retryTopologyChange` never swallows an error.  When the
stored document is not empty and fails to decode, `change` returns that error and no
document, and the state of the caller's function is as before: `f` was not called.  A
stored document that decodes is handed to `f` as the decoded topology, and the empty
document as the fresh empty topology at version 1; in both cases an error of `f` is
returned as it is, again with no document, and when `f` succeeds `change` returns the dump
of the topology as `f` left it. -/
theorem change_never_swallows_error {σ : Type} (goyaml : Goyaml)
    (f : topoTopology → σ → (topoTopology × Result Unit) × σ) (yaml : String) (s : σ) :
    (∀ err, yaml ≠ "" → parseTopology goyaml yaml = .error err →
      retryTopologyChange.change goyaml f yaml s = (.error err, s)) ∧
    (∀ it, yaml ≠ "" → parseTopology goyaml yaml = .ok it → cycleApplies goyaml f yaml s it) ∧
    (yaml = "" → cycleApplies goyaml f yaml s emptyTopology ∧ Version emptyTopology = 1 ∧
      MachineKeys emptyTopology = some [] ∧ ServiceKeys emptyTopology = some [] ∧
      RelationKeys emptyTopology = some []) :=
  ⟨fun err hne hparse => change_of_parse_error goyaml f yaml s err hne hparse,
    fun it hne hparse => change_of_topology goyaml f yaml s it (Or.inr ⟨hne, hparse⟩),
    fun hy => ⟨change_of_topology goyaml f yaml s _ (Or.inl ⟨hy, rfl⟩), rfl, by decide,
      by decide, by decide⟩⟩

/-- C25: machine referential integrity.  In every topology reachable from the empty topology
by a sequence of calls, every unit whose machine field is non-empty names a machine for
which `HasMachine` is true: whenever `UnitMachineKey` returns a machine key, `HasMachine`
is true of it; and after a `RemoveMachine` that returned nil no unit has the removed key in
its machine field. -/
theorem reachable_units_refer_to_machines (ops : List Op) :
    unitsReferToMachines (run emptyTopology ops) ∧
    (∀ key m, UnitMachineKey (run emptyTopology ops) key = .ok m →
      HasMachine (run emptyTopology ops) m = true) ∧
    (∀ key, (RemoveMachine (run emptyTopology ops) key).2 = .ok () →
      ¬ unitOnMachine (RemoveMachine (run emptyTopology ops) key).1 key) := by
  obtain ⟨hinv, href⟩ := unitsReferToMachines_run ops
  refine ⟨href, fun key m hm => ?_, fun key hok => ?_⟩
  · obtain ⟨hne, svc, unit, h1, h2, h3⟩ := (UnitMachineKey_ok_iff _ key m).1 hm
    have := href key.service svc key.unit unit (GoMap.get?_mem h1) (GoMap.get?_mem h2)
      (by rw [h3]; exact hne)
    rw [h3] at this
    exact this
  · have hsa := servicesAllocated_of_allocated _ (allocated_of_invariant _ hinv)
    rcases RemoveMachine_spec _ key hsa with ⟨_, h⟩ | ⟨_, _, h⟩ | ⟨_, hno, h⟩
    · rw [h] at hok
      exact absurd hok (by simp)
    · rw [h] at hok
      exact absurd hok (by simp)
    · rw [h]
      exact hno

/-! ## The side lookups of `AddRelation` -/

/-- C26: for a relation whose side pointers are all set, once `check` has returned nil and
`relation.Services[RolePeer]` is nil, the provider side and the requirer side are both
present and set, so `AddRelation` reads both keys through set pointers: its last check
returns nil or the same-keys error, and no call of `AddRelation` with this relation
panics. -/
theorem AddRelation_reads_present_sides (r : topoRelation)
    (hsides : ∀ role side, (role, side) ∈ r.Services.range → side ≠ none)
    (hcheck : r.check = .ok ()) (hpeer : sidePointer r RolePeer = none) :
    (∃ provider requirer, sidePointer r RoleProvider = some provider ∧
      sidePointer r RoleRequirer = some requirer ∧
      AddRelation.keyCheck r =
        if provider.Service = requirer.Service then
          .error (.errorf "provider and requirer keys must not be the same" [])
        else .ok ()) ∧
    AddRelation.keyCheck r ≠ .panic ∧
    ∀ t relationKey, (AddRelation t relationKey (some r)).2 ≠ .panic := by
  have hp : r.proper := (check_ok_iff_proper r).1 hcheck
  have hnopeer : ¬ r.hasRole RolePeer := by
    intro hrole
    obtain ⟨v, hv⟩ := (mem_keys_iff_get? _ _).1 hrole
    have hne := hsides RolePeer v (GoMap.get?_mem hv)
    unfold sidePointer at hpeer
    rw [hv] at hpeer
    exact hne hpeer
  have hroles : ∀ role, r.hasRole role ↔ role = RoleProvider ∨ role = RoleRequirer := by
    rcases hp.2.2 with h | h
    · exact absurd ((h RolePeer).2 rfl) hnopeer
    · exact h
  obtain ⟨p, hprov⟩ := proper_side_of_hasRole r hp RoleProvider ((hroles _).2 (Or.inl rfl))
  obtain ⟨q, hreq⟩ := proper_side_of_hasRole r hp RoleRequirer ((hroles _).2 (Or.inr rfl))
  have hkey : AddRelation.keyCheck r =
      if p.Service = q.Service then
        .error (.errorf "provider and requirer keys must not be the same" [])
      else .ok () := by
    unfold AddRelation.keyCheck
    rw [hpeer, hprov, hreq]
  refine ⟨⟨p, q, hprov, hreq, hkey⟩, ?_,
    fun t relationKey => AddRelation_ne_panic t relationKey r hsides⟩
  rw [hkey]
  split <;> simp

/-- C26 at the relation of the endpoint resolution scenario: `check` returns nil on it, it
has no peer side, and the last check of `AddRelation` does not panic. -/
theorem AddRelation_reads_present_sides_witness :
    httpRelation.check = .ok () ∧ sidePointer httpRelation RolePeer = none ∧
    AddRelation.keyCheck httpRelation ≠ .panic :=
  ⟨by decide, by decide,
    (AddRelation_reads_present_sides httpRelation
      (by
        intro role side h
        simp only [httpRelation, GoMap.range, List.mem_cons, Prod.mk.injEq, List.mem_nil_iff,
          or_false] at h
        rcases h with ⟨_, rfl⟩ | ⟨_, rfl⟩ <;> simp)
      (by decide) (by decide)).2.1⟩

end state
